import Mathlib

/-!
# Verification development for the SSA core of the `vm` package

Part I embeds the peephole pass of `vm/simplify1.go` over an arena of nodes:
a program is the list `p.values`, a `*value` pointer is the index of the node
in that list, pointer equality is index equality, and clobbering a node
replaces the contents stored at its index. Parts II to IV embed the expression
compiler of `vm/exprcompile.go` over terms; Parts V to VIII embed the opcode
enumeration and its generator, the header of the tenant protocol, the field
selection of the `zion` decoder and the generator of the case tables; Parts IX
to XII embed the folding of float constants in the peephole pass, the generator
of the opcode address table, the bucket memory and the walk of the `zion`
decoder, and the incremental scan of `db/scan.go`.
-/

namespace Sneller

/-- The SSA operators named by `vm/simplify1.go` and `vm/exprcompile.go`
(`saggapproxcountpartialop` and `saggslotapproxcountpartialop` stand for the
operators of `aggapproxcount.partial` and `aggslotapproxcount.partial`). -/
inductive ssaop
  | sinvalid | sinit | skfalse | sliteral | smergemem
  | sand | sor | snand | sxor | sxnor
  | scmpeqf | scmpeqi | scmplef | scmplei | scmpgef | scmpgei
  | scvtktoi | scvtktof | scvtitok | scvtftok | scvtitof | scvti64tostr
  | sconcatstr2 | sconcatstr3 | sconcatstr4
  | sstorev | svk | sfloatk
  | sblendv | sblendint | sblendfloat | sblendstr
  | sbroadcasti | sbroadcastf | sbroadcastts
  | saddf | saddimmf | saddimmi
  | ssubf | ssubimmf | ssubimmi | srsubimmf | srsubimmi
  | smulf | smulimmf | smulimmi
  | sdivf | sdivimmf | srdivimmf
  | snegf | snegi
  | sorimmi | ssllimmi | ssraimmi | ssrlimmi
  | saggandk | saggork | saggsumf | saggsumi | saggminf | saggmini
  | saggmaxf | saggmaxi | saggmints | saggmaxts | saggandi | saggori
  | saggxori | saggcount
  | saggslotandk | saggslotork | saggslotminf | saggslotmini
  | saggslotmaxf | saggslotmaxi | saggslotmints | saggslotmaxts
  | saggslotandi | saggslotori | saggslotxori | saggslotcount
  | sboxint | sboxfloat | sboxts | sboxstring | sboxlist | sboxmask
  | saggapproxcount | saggapproxcountpartialop | saggapproxcountmerge
  | saggslotapproxcount | saggslotapproxcountpartialop | saggslotapproxcountmerge
  | sistrue | sisfalse | sequalconst | schecktag | stostr | stotime
  | sroundi | sunboxcvti64 | sunboxcvtf64
  | shashlookup | shashmember | sobjectsize | smakestructkey | stypebits
  | sdot | sunsymbolize
  deriving DecidableEq, Repr

/-- A constant datum (`ion.Datum`): null, a boolean, an integer, a float (read
as an exact rational), a string, a timestamp in microseconds, or a composite
value identified by a number. -/
inductive Datum
  | null
  | bool (b : Bool)
  | int (i : Int)
  | float (f : Rat)
  | str (s : String)
  | time (us : Int)
  | composite (id : Nat)
  deriving DecidableEq

/-- The immediate of a node (`imm interface{}`): absent, an integer, a float
(read as an exact rational), a string, a timestamp in microseconds, a boolean,
a datum, or a list of datums. -/
inductive Imm
  | nil
  | int (i : Int)
  | float (f : Rat)
  | str (s : String)
  | time (us : Int)
  | bool (b : Bool)
  | datum (d : Datum)
  | datums (l : List Datum)
  deriving DecidableEq

/-- A node of the arena (`type value struct`): operator, operand pointers (as
arena indices) and immediate. -/
structure value where
  op : ssaop
  args : List Nat
  imm : Imm
  deriving DecidableEq

/-- The program container (`type prog struct`): the arena `values`. -/
structure prog where
  values : List value
  deriving DecidableEq

/-- Dereference of a node pointer. -/
def prog.node (p : prog) (i : Nat) : value :=
  p.values.getD i ⟨.sinvalid, [], .nil⟩

/-- The operator of the node behind a pointer (`x.op`). -/
def prog.opOf (p : prog) (i : Nat) : ssaop := (p.node i).op

/-- Modelled from the spec: `toi64` (ssa.go, absent from the sources) reads a
literal scalar immediate as a signed integer. -/
def toi64 : Imm → Int
  | .int i => i
  | .float f => if 0 ≤ f then Rat.floor f else Rat.ceil f
  | .time us => us
  | _ => 0

/-- Modelled from the spec: `tof64` (ssa.go, absent from the sources) reads a
literal scalar immediate as a float. -/
def tof64 : Imm → Rat
  | .int i => (i : Rat)
  | .float f => f
  | .time us => (us : Rat)
  | _ => 0

/-- Modelled from the spec: `setssa` (ssa.go, absent from the sources) is the
clobber primitive of the program container: it replaces the contents stored at
index `v` (operator, immediate, operands) and never the index. -/
def prog.setssa (p : prog) (v : Nat) (op : ssaop) (imm : Imm) (args : List Nat) : prog :=
  ⟨p.values.set v ⟨op, args, imm⟩⟩

/-- Search of the arena, from position `i`, for an operand-free node of operator `op`. -/
def findNode (op : ssaop) : List value → Nat → Option Nat
  | [], _ => none
  | n :: rest, i =>
    if n.op = op ∧ n.args = [] ∧ n.imm = .nil then some i else findNode op rest (i + 1)

/-- Modelled from the spec: `ssa0` (ssa.go, absent from the sources) is node
construction with deduplication for an operand-free operator: the existing node
when there is one, a freshly appended leaf otherwise. -/
def prog.ssa0 (p : prog) (op : ssaop) : prog × Nat :=
  match findNode op p.values 0 with
  | some i => (p, i)
  | none => (⟨p.values ++ [⟨op, [], .nil⟩]⟩, p.values.length)

/-- Modelled from the spec: `ValidLanes` (ssa.go, absent from the sources) is
the initial, all-valid mask, the node `p.values[0]`. -/
def prog.ValidLanes (_p : prog) : Nat := 0

/-- Modelled from the spec: `choose` (ssa.go, absent from the sources) yields
the all-valid mask for `true` and the all-false mask for `false`. -/
def prog.choose (p : prog) (yes : Bool) : prog × Nat :=
  if yes then (p, p.ValidLanes) else p.ssa0 .skfalse

/-- Result of `rewrite1` when no rule matches: `return v, false`. -/
def keep (p : prog) (v : Nat) : Option (prog × Nat × Bool) := some (p, v, false)

/-- Result of a rule that returns an existing node: `return x, true`. -/
def replaceBy (p : prog) (x : Nat) : Option (prog × Nat × Bool) := some (p, x, true)

/-- Result of a rule that clobbers `v`: `return p.setssa(v, op, imm, args...), true`. -/
def clobber (p : prog) (v : Nat) (op : ssaop) (imm : Imm) (args : List Nat) :
    Option (prog × Nat × Bool) :=
  some (p.setssa v op imm args, v, true)

/-- The rule shape `(op mem .. (false) ..) -> mem` shared by the aggregate
operators: with exactly `n` operands of which operand `j` is the all-false
mask, the result is operand 0. -/
def dropMasked (p : prog) (v : Nat) (args : List Nat) (n j : Nat) :
    Option (prog × Nat × Bool) :=
  if args.length = n then
    if p.opOf (args.getD j 0) = .skfalse then replaceBy p (args.getD 0 0) else keep p v
  else keep p v

/-- The rule shape `(op x _ c) -> x` of the immediate identities: with exactly
two operands and an immediate for which `neutral` holds, the result is operand 0. -/
def dropNeutral (p : prog) (v : Nat) (args : List Nat) (neutral : Prop) [Decidable neutral] :
    Option (prog × Nat × Bool) :=
  match args with
  | [x, _] => if neutral then replaceBy p x else keep p v
  | _ => keep p v

/-- The rule shape `(cmp x x k) -> k` of the reflexive comparisons. -/
def dropReflexive (p : prog) (v : Nat) (args : List Nat) : Option (prog × Nat × Bool) :=
  match args with
  | [x, y, k] => if x = y then replaceBy p k else keep p v
  | _ => keep p v

/-- The rule shape of the blends: `(blend _ y (init)) -> y` and
`(blend x _ (false)) -> x`. -/
def dropBlend (p : prog) (v : Nat) (args : List Nat) : Option (prog × Nat × Bool) :=
  match args with
  | [x, y, k] =>
    if p.opOf k = .sinit then replaceBy p y
    else if p.opOf k = .skfalse then replaceBy p x
    else keep p v
  | _ => keep p v

/-- The peephole pass `rewrite1` of `vm/simplify1.go`, rule by rule in the
order of the source. It returns the program after the call, the node returned
and the rewrite flag; `none` stands for a run-time panic of the source (an
operand index out of range, a failed type assertion). The mask lookup `p.mask`
(ssa.go, absent from the sources) is the parameter `mask`. -/
def rewrite1 (mask : prog → Nat → Nat) (p : prog) (v : Nat) : Option (prog × Nat × Bool) :=
  let n := p.node v
  match n.op with
  | .smergemem =>
    match n.args with
    | [x] => replaceBy p x
    | _ => keep p v
  | .sand =>
    match n.args with
    | [a0, a1] =>
      if p.opOf a1 = .sinit then replaceBy p a0
      else if p.opOf a1 = .skfalse then replaceBy p a1
      else if p.opOf a0 = .skfalse then replaceBy p a0
      else if a0 = a1 then replaceBy p a0
      else if p.opOf a0 = .sinit then replaceBy p a1
      else keep p v
    | _ => keep p v
  | .sor =>
    match n.args with
    | [a0, a1] =>
      if p.opOf a0 = .sinit then replaceBy p a0
      else if p.opOf a1 = .sinit then replaceBy p a1
      else if p.opOf a0 = .skfalse then replaceBy p a1
      else if p.opOf a1 = .skfalse then replaceBy p a0
      else if a0 = a1 then replaceBy p a0
      else keep p v
    | _ => keep p v
  | .snand =>
    match n.args with
    | [a0, a1] =>
      if p.opOf a0 = .sinit then clobber p v .skfalse .nil []
      else if p.opOf a1 = .skfalse then replaceBy p a1
      else if p.opOf a0 = .skfalse then replaceBy p a1
      else if a0 = a1 then clobber p v .skfalse .nil []
      else keep p v
    | _ => keep p v
  | .sxor =>
    match n.args with
    | [a0, a1] =>
      if p.opOf a0 = .skfalse then replaceBy p a1
      else if p.opOf a0 = .sinit then clobber p v .snand .nil [a1, a0]
      else if p.opOf a1 = .skfalse then replaceBy p a0
      else if p.opOf a1 = .sinit then clobber p v .snand .nil [a0, a1]
      else if a0 = a1 then clobber p v .skfalse .nil []
      else keep p v
    | _ => keep p v
  | .sxnor =>
    match n.args with
    | [a0, a1] =>
      if a0 = a1 then replaceBy p p.ValidLanes
      else if p.opOf a1 = .sinit then replaceBy p a0
      else if p.opOf a0 = .sinit then replaceBy p a1
      else if p.opOf a1 = .skfalse then clobber p v .snand .nil [a0, p.ValidLanes]
      else if p.opOf a0 = .skfalse then clobber p v .snand .nil [a1, p.ValidLanes]
      else keep p v
    | _ => keep p v
  | .scmpeqf => dropReflexive p v n.args
  | .scmpeqi => dropReflexive p v n.args
  | .scmplef => dropReflexive p v n.args
  | .scmplei => dropReflexive p v n.args
  | .scmpgef => dropReflexive p v n.args
  | .scmpgei => dropReflexive p v n.args
  | .scvtktoi =>
    match n.args with
    | [a0, _] =>
      if p.opOf a0 = .sinit then clobber p v .sbroadcasti (.int 1) []
      else if p.opOf a0 = .skfalse then clobber p v .sbroadcasti (.int 0) []
      else keep p v
    | _ => keep p v
  | .scvtktof =>
    match n.args with
    | [a0, _] =>
      if p.opOf a0 = .sinit then clobber p v .sbroadcastf (.int 1) []
      else if p.opOf a0 = .skfalse then clobber p v .sbroadcastf (.int 0) []
      else keep p v
    | _ => keep p v
  | .scvtitok =>
    match n.args with
    | [a0, k] =>
      if p.opOf a0 = .sbroadcasti then
        let r := p.choose (decide (toi64 (p.node a0).imm ≠ 0))
        clobber r.1 v .sand .nil [r.2, k]
      else keep p v
    | _ => keep p v
  | .sconcatstr2 =>
    match n.args with
    | [a0, a1, a2] =>
      if p.opOf a1 = .sliteral ∧ (p.node a1).imm = .str "" ∧ mask p a0 = a2 then
        replaceBy p a0
      else if p.opOf a1 = .sconcatstr2 then
        match (p.node a1).args with
        | y :: z :: _ => clobber p v .sconcatstr3 .nil [a0, y, z, a2]
        | _ => none
      else if p.opOf a0 = .sconcatstr2 then
        match (p.node a0).args with
        | x :: y :: _ => clobber p v .sconcatstr3 .nil [x, y, a1, a2]
        | _ => none
      else keep p v
    | _ => keep p v
  | .sconcatstr3 =>
    match n.args with
    | [a0, a1, a2, k] =>
      if p.opOf a0 = .sliteral ∧ (p.node a0).imm = .str "" then
        clobber p v .sconcatstr2 .nil [a1, a2, k]
      else if p.opOf a2 = .sliteral ∧ (p.node a2).imm = .str "" then
        clobber p v .sconcatstr2 .nil [a0, a1, k]
      else if p.opOf a1 = .sliteral ∧ (p.node a1).imm = .str "" then
        clobber p v .sconcatstr2 .nil [a0, a2, k]
      else keep p v
    | _ => keep p v
  | .sconcatstr4 =>
    match n.args with
    | [x, y, z, a3, k] =>
      if p.opOf a3 = .sliteral ∧ (p.node a3).imm = .str "" then
        clobber p v .sconcatstr3 .nil [x, y, z, k]
      else keep p v
    | _ => keep p v
  | .sstorev =>
    match n.args with
    | [mem, ov, k] =>
      if p.opOf k = .skfalse then
        match n.imm with
        | .int slot => if ov ≠ k then clobber p v .sstorev (.int slot) [mem, k, k] else keep p v
        | _ => none
      else keep p v
    | _ => keep p v
  | .svk =>
    match n.args with
    | [val, k] => if mask p v = k then replaceBy p val else keep p v
    | _ => keep p v
  | .sfloatk =>
    match n.args with
    | [f, k] => if mask p f = k then replaceBy p f else keep p v
    | _ => keep p v
  | .sblendv => dropBlend p v n.args
  | .sblendint => dropBlend p v n.args
  | .sblendfloat => dropBlend p v n.args
  | .sblendstr => dropBlend p v n.args
  | .saddf =>
    match n.args with
    | [a0, a1, k] =>
      if p.opOf a1 = .sbroadcastf then
        clobber p v .saddimmf (.float (tof64 (p.node a1).imm)) [a0, k]
      else if p.opOf a0 = .sbroadcastf then
        clobber p v .saddimmf (.float (tof64 (p.node a0).imm)) [a1, k]
      else keep p v
    | _ => keep p v
  | .saddimmf => dropNeutral p v n.args (tof64 n.imm = 0)
  | .saddimmi => dropNeutral p v n.args (toi64 n.imm = 0)
  | .ssubf =>
    match n.args with
    | [a0, a1, k] =>
      if p.opOf a1 = .sbroadcastf then
        clobber p v .ssubimmf (.float (tof64 (p.node a1).imm)) [a0, k]
      else if p.opOf a0 = .sbroadcastf then
        clobber p v .srsubimmf (.float (tof64 (p.node a0).imm)) [a1, k]
      else keep p v
    | _ => keep p v
  | .ssubimmf => dropNeutral p v n.args (tof64 n.imm = 0)
  | .ssubimmi => dropNeutral p v n.args (toi64 n.imm = 0)
  | .srsubimmf =>
    match n.args with
    | [f, k] => if tof64 n.imm = 0 then clobber p v .snegf .nil [f, k] else keep p v
    | _ => keep p v
  | .srsubimmi =>
    match n.args with
    | [i, k] => if toi64 n.imm = 0 then clobber p v .snegi .nil [i, k] else keep p v
    | _ => keep p v
  | .smulf =>
    match n.args with
    | [a0, a1, k] =>
      if p.opOf a1 = .sbroadcastf then
        clobber p v .smulimmf (.float (tof64 (p.node a1).imm)) [a0, k]
      else if p.opOf a0 = .sbroadcastf then
        clobber p v .smulimmf (.float (tof64 (p.node a0).imm)) [a1, k]
      else keep p v
    | _ => keep p v
  | .smulimmf => dropNeutral p v n.args (tof64 n.imm = 1)
  | .smulimmi => dropNeutral p v n.args (toi64 n.imm = 1)
  | .sdivf =>
    match n.args with
    | [a0, a1, k] =>
      if p.opOf a1 = .sbroadcastf then
        clobber p v .sdivimmf (.float (tof64 (p.node a1).imm)) [a0, k]
      else if p.opOf a0 = .sbroadcastf then
        clobber p v .srdivimmf (.float (tof64 (p.node a0).imm)) [a1, k]
      else keep p v
    | _ => keep p v
  | .sorimmi => dropNeutral p v n.args (toi64 n.imm = 0)
  | .ssllimmi => dropNeutral p v n.args (toi64 n.imm = 0)
  | .ssraimmi => dropNeutral p v n.args (toi64 n.imm = 0)
  | .ssrlimmi => dropNeutral p v n.args (toi64 n.imm = 0)
  | .saggandk => dropMasked p v n.args 3 2
  | .saggork => dropMasked p v n.args 3 2
  | .saggsumf => dropMasked p v n.args 3 2
  | .saggsumi => dropMasked p v n.args 3 2
  | .saggminf => dropMasked p v n.args 3 2
  | .saggmini => dropMasked p v n.args 3 2
  | .saggmaxf => dropMasked p v n.args 3 2
  | .saggmaxi => dropMasked p v n.args 3 2
  | .saggmints => dropMasked p v n.args 3 2
  | .saggmaxts => dropMasked p v n.args 3 2
  | .saggandi => dropMasked p v n.args 3 2
  | .saggori => dropMasked p v n.args 3 2
  | .saggxori => dropMasked p v n.args 3 2
  | .saggcount => dropMasked p v n.args 2 1
  | .saggslotandk => dropMasked p v n.args 4 3
  | .saggslotork => dropMasked p v n.args 4 3
  | .saggslotminf => dropMasked p v n.args 4 3
  | .saggslotmini => dropMasked p v n.args 4 3
  | .saggslotmaxf => dropMasked p v n.args 4 3
  | .saggslotmaxi => dropMasked p v n.args 4 3
  | .saggslotmints => dropMasked p v n.args 4 3
  | .saggslotmaxts => dropMasked p v n.args 4 3
  | .saggslotandi => dropMasked p v n.args 4 3
  | .saggslotori => dropMasked p v n.args 4 3
  | .saggslotxori => dropMasked p v n.args 4 3
  | .saggslotcount => dropMasked p v n.args 3 2
  | .sboxint =>
    match n.args with
    | [a0, _] =>
      if p.opOf a0 = .sbroadcasti then clobber p v .sliteral (.int (toi64 (p.node a0).imm)) []
      else keep p v
    | _ => keep p v
  | .sboxfloat =>
    match n.args with
    | [a0, _] =>
      if p.opOf a0 = .sbroadcastf then clobber p v .sliteral (.float (tof64 (p.node a0).imm)) []
      else keep p v
    | _ => keep p v
  | .sboxts =>
    match n.args with
    | [a0, _] =>
      if p.opOf a0 = .sbroadcastts then clobber p v .sliteral (.time (toi64 (p.node a0).imm)) []
      else keep p v
    | _ => keep p v
  | .saggapproxcount => dropMasked p v n.args 2 1
  | .saggapproxcountpartialop => dropMasked p v n.args 2 1
  | .saggapproxcountmerge => dropMasked p v n.args 2 1
  | .saggslotapproxcount => dropMasked p v n.args 4 3
  | .saggslotapproxcountpartialop => dropMasked p v n.args 4 3
  | .saggslotapproxcountmerge => dropMasked p v n.args 4 3
  | _ => keep p v

/-! ## Lane-wise reading of the mask operators -/

/-- The mask a node with contents `n` computes on one lane, given the mask
`den` of every node on that lane: `and.k`, `or.k`, `xor.k`, `xnor.k` are AND,
OR, XOR, XNOR, `nand.k a b` is `(NOT a) AND b`, `init` is all-valid and `false`
all-false; any other node is left uninterpreted (it keeps its own bit `self`). -/
def nodeMask (den : Nat → Bool) (n : value) (self : Bool) : Bool :=
  match n.op, n.args with
  | .sinit, _ => true
  | .skfalse, _ => false
  | .sand, [a, b] => den a && den b
  | .sor, [a, b] => den a || den b
  | .snand, [a, b] => !den a && den b
  | .sxor, [a, b] => xor (den a) (den b)
  | .sxnor, [a, b] => !(xor (den a) (den b))
  | _, _ => self

/-- The mask node `v` of program `p` computes on one lane. -/
def maskSem (p : prog) (den : Nat → Bool) (v : Nat) : Bool :=
  nodeMask den (p.node v) (den v)

/-- An assignment of a mask bit to every node is a model of the program (on
one lane) when every node carries the mask its operator computes. -/
def MaskModel (p : prog) (den : Nat → Bool) : Prop :=
  ∀ v, den v = maskSem p den v

/-! ## Lane-wise reading of the string operators, outcomes, acyclicity -/

/-- The string a node with contents `n` computes on one lane, given the string
`sden` of every node on that lane: `concat2.str`, `concat3.str`, `concat4.str`
concatenate their string operands from left to right (the last operand is the
mask), a string literal is its immediate; any other node is left uninterpreted. -/
def nodeStr (sden : Nat → String) (n : value) (self : String) : String :=
  match n.op, n.args with
  | .sconcatstr2, [a, b, _] => sden a ++ sden b
  | .sconcatstr3, [a, b, c, _] => sden a ++ sden b ++ sden c
  | .sconcatstr4, [a, b, c, d, _] => sden a ++ sden b ++ sden c ++ sden d
  | .sliteral, _ =>
    match n.imm with
    | .str s => s
    | _ => self
  | _, _ => self

/-- An assignment of a string to every node is a model of the program (on one
lane) when every node carries the string its operator computes. -/
def StrModel (p : prog) (sden : Nat → String) : Prop :=
  ∀ v, sden v = nodeStr sden (p.node v) (sden v)

/-- The four ways a call `rewrite1(p, v)` can end: no rule matched; an existing
node (an operand of `v`, or `p.values[0]`) is returned and the graph is
untouched; `v` is clobbered with operands taken from `v`, from the operands of
`v` or `p.values[0]`; or (`cvt.i@k` of a broadcast) `v` is clobbered into an
`and.k` of a constant mask obtained from `p.choose`. -/
def Outcome (p : prog) (v : Nat) (r : prog × Nat × Bool) : Prop :=
  r = (p, v, false) ∨
  (∃ x, r = (p, x, true) ∧ (x ∈ (p.node v).args ∨ x = 0)) ∨
  (∃ op imm args, r = (p.setssa v op imm args, v, true) ∧
    (∀ a ∈ args, a ∈ (p.node v).args ∨ (∃ m ∈ (p.node v).args, a ∈ (p.node m).args) ∨ a = 0) ∧
    (op ≠ (p.node v).op ∨
      ((p.node v).op = .sstorev ∧ ∃ mem ov k slot, (p.node v).args = [mem, ov, k] ∧ ov ≠ k ∧
        args = [mem, k, k] ∧ imm = .int slot ∧ op = .sstorev ∧ p.opOf k = .skfalse))) ∨
  ((p.node v).op = .scvtitok ∧ ∃ a0 k yes, (p.node v).args = [a0, k] ∧
    r = ((p.choose yes).1.setssa v .sand .nil [(p.choose yes).2, k], v, true))

/-- The operand graph is acyclic: the nodes can be ranked so that every operand
ranks strictly below the node that uses it. -/
def Acyclic (p : prog) : Prop :=
  ∃ rank : Nat → Nat, ∀ v a, a ∈ (p.node v).args → rank a < rank v

/-! ## Example programs -/

/-- A mask lookup for the examples: every node is its own mask. -/
def idMask : prog → Nat → Nat := fun _ i => i

/-- The program `init; false; m := istrue; xor.k init m`. -/
def exXorProg : prog :=
  ⟨[⟨.sinit, [], .nil⟩, ⟨.skfalse, [], .nil⟩, ⟨.sistrue, [], .nil⟩, ⟨.sxor, [0, 2], .nil⟩]⟩

/-- A lane of `exXorProg` on which `m` is true. -/
def exXorDen : Nat → Bool := fun i => i == 0 || i == 2

/-- The program `init; m := istrue; and.k m m`. -/
def exAndProg : prog :=
  ⟨[⟨.sinit, [], .nil⟩, ⟨.sistrue, [], .nil⟩, ⟨.sand, [1, 1], .nil⟩]⟩

/-- The program `init; xor.k init init`. -/
def exXorInitProg : prog := ⟨[⟨.sinit, [], .nil⟩, ⟨.sxor, [0, 0], .nil⟩]⟩

/-- The program `init; m := istrue; a := and.k m m; and.k a a`. -/
def exAndNestProg : prog :=
  ⟨[⟨.sinit, [], .nil⟩, ⟨.sistrue, [], .nil⟩, ⟨.sand, [1, 1], .nil⟩, ⟨.sand, [2, 2], .nil⟩]⟩

/-- A graph with a cycle: `init`, and an `and.k` node whose two operands are
the node itself. -/
def exAndSelfProg : prog := ⟨[⟨.sinit, [], .nil⟩, ⟨.sand, [1, 1], .nil⟩]⟩

/-- A mask lookup for the examples: every value is valid on all lanes. -/
def validMask : prog → Nat → Nat := fun p _ => p.ValidLanes

/-- The program `a; b; x := concat2.str a b; e := ""; concat2.str x e`, all under the initial mask. -/
def exConcatEmptyProg : prog :=
  ⟨[⟨.sinit, [], .nil⟩, ⟨.sliteral, [], .str "a"⟩, ⟨.sliteral, [], .str "b"⟩,
    ⟨.sconcatstr2, [1, 2, 0], .nil⟩, ⟨.sliteral, [], .str ""⟩, ⟨.sconcatstr2, [3, 4, 0], .nil⟩]⟩

/-- The program `a; b; x := concat2.str a b; e := ""; concat2.str x e`, the last
node under the mask of `x` (the node `x` itself). -/
def exConcatEmptySelfProg : prog :=
  ⟨[⟨.sinit, [], .nil⟩, ⟨.sliteral, [], .str "a"⟩, ⟨.sliteral, [], .str "b"⟩,
    ⟨.sconcatstr2, [1, 2, 0], .nil⟩, ⟨.sliteral, [], .str ""⟩, ⟨.sconcatstr2, [3, 4, 3], .nil⟩]⟩

/-- The program `a; b; c; y := concat2.str b c; concat2.str a y`, all under the initial mask. -/
def exConcatProg : prog :=
  ⟨[⟨.sinit, [], .nil⟩, ⟨.sliteral, [], .str "a"⟩, ⟨.sliteral, [], .str "b"⟩,
    ⟨.sliteral, [], .str "c"⟩, ⟨.sconcatstr2, [2, 3, 0], .nil⟩, ⟨.sconcatstr2, [1, 4, 0], .nil⟩]⟩

/-- The strings of the nodes of `exConcatProg`. -/
def exConcatDen : Nat → String := fun i =>
  match i with
  | 1 => "a"
  | 2 => "b"
  | 3 => "c"
  | 4 => "bc"
  | 5 => "abc"
  | _ => ""

/-- Modelled from the spec: the validity-mask convention of the operators with
one value operand and one mask operand (the `ssainfo` table of ssa.go is absent
from the sources). A node `(op x k)` of the immediate arithmetic, `cvt.k@i`,
`cvt.k@f` and box operators holds a defined value exactly on the lanes of its
mask operand `k` (for `cvt.k@i`: true/false/missing -> 1/0/missing); a literal
and an unmasked broadcast are defined on every lane; any other node keeps its
own bit `self`. -/
def nodeDefined (den : Nat → Bool) (n : value) (self : Bool) : Bool :=
  match n.op, n.args with
  | .sliteral, _ => true
  | .sbroadcasti, _ => true
  | .sbroadcastf, _ => true
  | .sbroadcastts, _ => true
  | .saddimmi, [_, k] => den k
  | .saddimmf, [_, k] => den k
  | .ssubimmi, [_, k] => den k
  | .ssubimmf, [_, k] => den k
  | .smulimmi, [_, k] => den k
  | .smulimmf, [_, k] => den k
  | .sorimmi, [_, k] => den k
  | .ssllimmi, [_, k] => den k
  | .ssraimmi, [_, k] => den k
  | .ssrlimmi, [_, k] => den k
  | .scvtktoi, [_, k] => den k
  | .scvtktof, [_, k] => den k
  | .sboxint, [_, k] => den k
  | .sboxfloat, [_, k] => den k
  | .sboxts, [_, k] => den k
  | _, _ => self

/-- The program `init; f := false; cvt.k@i f f`. -/
def exCvtProg : prog :=
  ⟨[⟨.sinit, [], .nil⟩, ⟨.skfalse, [], .nil⟩, ⟨.scvtktoi, [1, 1], .nil⟩]⟩

/-- The program `init; f := false; x := broadcast.i 7; sub.imm.i x f 0`. -/
def exSubProg : prog :=
  ⟨[⟨.sinit, [], .nil⟩, ⟨.skfalse, [], .nil⟩, ⟨.sbroadcasti, [], .int 7⟩,
    ⟨.ssubimmi, [2, 1], .int 0⟩]⟩

/-- The lane on which only the initial mask is true. -/
def exInitDen : Nat → Bool := fun i => i == 0

/-!
# Part II: CASE lowering of `vm/exprcompile.go`

During compilation nodes are only constructed (with deduplication) and never
clobbered, so a `*value` is embedded as the term it denotes: the generic node
constructors `p.ssa0`, `p.ssa2`, `p.ssa2imm`, `p.ssa3` are the constructors of
`vterm`, and pointer equality is equality of terms. The builder methods of
ssa.go and the other compiler entry points that the CASE lowering calls are
collected in `ssaapi`.
-/

/-- A compiled node (`*value`) as a term: operator, operands, immediate. -/
inductive vterm
  | ssa0 (op : ssaop) (imm : Imm)
  | ssa1 (op : ssaop) (a : vterm) (imm : Imm)
  | ssa2 (op : ssaop) (a b : vterm) (imm : Imm)
  | ssa3 (op : ssaop) (a b c : vterm) (imm : Imm)
  | ssa4 (op : ssaop) (a b c d : vterm) (imm : Imm)
  deriving DecidableEq

/-- The operator of a node (`v.op`). -/
def vterm.op : vterm → ssaop
  | .ssa0 op _ => op
  | .ssa1 op _ _ => op
  | .ssa2 op _ _ _ => op
  | .ssa3 op _ _ _ _ => op
  | .ssa4 op _ _ _ _ _ => op

/-- The immediate of a node (`v.imm`). -/
def vterm.imm : vterm → Imm
  | .ssa0 _ imm => imm
  | .ssa1 _ _ imm => imm
  | .ssa2 _ _ _ imm => imm
  | .ssa3 _ _ _ _ imm => imm
  | .ssa4 _ _ _ _ _ imm => imm

/-- The outcome of a compiler function `(*value, error)`: a result, a returned
error, or a run-time panic. -/
inductive Result (α : Type)
  | ok (v : α)
  | error (msg : String)
  | panic (msg : String)
  deriving DecidableEq

/-- Sequencing: an error or a panic ends the function (`if err != nil`, return). -/
def Result.bind {α β : Type} (r : Result α) (f : α → Result β) : Result β :=
  match r with
  | .ok v => f v
  | .error e => .error e
  | .panic e => .panic e

/-- A set of value types (`expr.TypeSet`), as a bitset. -/
abbrev TypeSet := Nat

/-- The part of a timestamp a date function works on (`expr.Timepart`). -/
inductive Timepart
  | Microsecond | Millisecond | Second | Minute | Hour | Day | DOW | DOY
  | Week | Month | Quarter | Year
  deriving DecidableEq

/-- The builtin functions (`expr.BuiltinOp`) that `compilefuncaux` tells apart;
the date functions carry their time part (`fn.TimePart()`), any other builtin
is `Unhandled`, identified by a number. -/
inductive BuiltinOp
  | DateAdd (part : Timepart) | DateDiff (part : Timepart)
  | DateExtract (part : Timepart) | DateTrunc (part : Timepart)
  | Pi | Log | Degrees | Radians
  | Round | RoundEven | Trunc | Floor | Ceil | Sqrt | Cbrt
  | Exp | Exp2 | Exp10 | ExpM1 | Ln | Ln1p | Log2 | Log10
  | Sin | Cos | Tan | Asin | Acos | Atan | Abs | Sign | BitCount
  | Hypot | Pow | Atan2
  | Concat | Least | Greatest | WidthBucket | TimeBucket
  | Trim | Ltrim | Rtrim
  | Contains | ContainsCI | EqualsCI
  | EqualsFuzzy | EqualsFuzzyUnicode | ContainsFuzzy | ContainsFuzzyUnicode
  | IsSubnetOf | CharLength | Substring | SplitPart
  | Unspecified
  | ToUnixEpoch | ToUnixMicro
  | GeoHash | GeoTileES | GeoDistance | GeoTileX | GeoTileY
  | ObjectSize | HashLookup | Lower | Upper
  | MakeList | MakeStruct | TypeBit | AssertIonType
  | Unhandled (id : Nat)

/-- The expression forms (`expr.Node`) that the compiler tells apart. `Other`,
identified by a number, is an expression of one of the forms that are compiled
by `compile` without a look at their kind (logical connective, comparison,
string match, NOT, set membership); `IsKey` is an IS predicate, `Struct` and
`List` are composite constants, each identified by a number. -/
inductive Node
  | Null
  | Missing
  | Bool (b : Bool)
  | String (s : String)
  | Integer (i : Int)
  | Float (f : Rat)
  | Path (name : String)
  | Other (id : Nat)
  | Timestamp (us : Int)
  | Struct (id : Nat)
  | List (id : Nat)
  | Arithmetic (id : Nat)
  | Builtin (Func : BuiltinOp) (Name : String) (Args : List Node)
  | Cast (From : Node) (To : TypeSet)
  | Case (Limbs : List (Node × Node)) (Else : Option Node) (Valence : String)
  | IsKey (id : Nat)

/-- One limb of a CASE (`expr.CaseLimb`). -/
structure CaseLimb where
  When : Node
  Then : Node

/-- A CASE expression (`expr.Case`); `Else = none` is the nil ELSE. -/
structure Case where
  Limbs : List CaseLimb
  Else : Option Node
  Valence : String

/-- The return-type bitset of a node (`ssatype`). -/
abbrev ssatype := Nat

/-- Modelled from the spec: the bit of each member of the return-type bitset
(the constants of ssa.go are absent from the sources): boolean mask. -/
def stBool : ssatype := 1

/-- Modelled from the spec: the boxed-generic bit. -/
def stValue : ssatype := 2

/-- Modelled from the spec: the float bit. -/
def stFloat : ssatype := 4

/-- Modelled from the spec: the signed-integer bit. -/
def stInt : ssatype := 8

/-- Modelled from the spec: the string bit. -/
def stString : ssatype := 16

/-- Modelled from the spec: the list qualifier bit. -/
def stList : ssatype := 32

/-- Modelled from the spec: the timestamp bit. -/
def stTime : ssatype := 64

/-- Modelled from the spec: the integer-backed timestamp bit. -/
def stTimeInt : ssatype := 128

/-- The builder methods of the program container (ssa.go, absent from the
sources) and the compiler entry points that the CASE lowering calls: the first
are known only by their contract, the second are the recursive calls into the
rest of the compiler. -/
structure ssaapi where
  /-- The table `ssainfo[op].rettype`. -/
  rettype : ssaop → ssatype
  /-- The method `p.And`. -/
  And : vterm → vterm → vterm
  /-- The method `p.Or`. -/
  Or : vterm → vterm → vterm
  /-- The method `p.nand`. -/
  nand : vterm → vterm → vterm
  /-- The method `p.mask`. -/
  mask : vterm → vterm
  /-- The method `p.vk`. -/
  vk : vterm → vterm → vterm
  /-- The method `p.floatk`. -/
  floatk : vterm → vterm → vterm
  /-- The method `p.unsymbolized`. -/
  unsymbolized : vterm → vterm
  /-- The method `p.coercefp`. -/
  coercefp : vterm → vterm × vterm
  /-- The method `p.blendv2fp`. -/
  blendv2fp : vterm → vterm → vterm → vterm × vterm
  /-- The function `isNumericImmediate`. -/
  isNumericImmediate : Imm → Bool
  /-- The method `c.IsPathLimbs` of the expr package. -/
  IsPathLimbs : Case → Bool
  /-- The method `p.compileAsBool`, for the sub-expressions of a CASE. -/
  compileAsBool : Node → Result vterm
  /-- The method `p.compileAsNumber`, for the sub-expressions of a CASE. -/
  compileAsNumber : Node → Result vterm
  /-- The method `p.serialized`, for the sub-expressions of a CASE. -/
  serialized : Node → Result vterm

/-- The all-false mask node `p.ssa0(skfalse)`. -/
def kfalse : vterm := .ssa0 .skfalse .nil

/-- The raw return type of a node: `ret` of exprcompile.go. -/
def vterm.ret (api : ssaapi) (v : vterm) : ssatype := api.rettype v.op

/-- The primary return type of a node: `primary` of exprcompile.go (the return
type minus the mask and list bits, `r &^= stBool | stList`). -/
def vterm.primary (api : ssaapi) (v : vterm) : ssatype :=
  let r := v.ret api
  if r = stBool then r else r ^^^ (r &&& (stBool ||| stList))

/-- The loop over the limbs of `compileLogicalCase`, from the state
`(outk, merged)`. -/
def logicalLimbs (api : ssaapi) : List CaseLimb → vterm → vterm → Result (vterm × vterm)
  | [], outk, merged => .ok (outk, merged)
  | l :: rest, outk, merged =>
    (api.compileAsBool l.When).bind fun when =>
      if when.op = .skfalse then logicalLimbs api rest outk merged
      else
        (api.compileAsBool l.Then).bind fun thn =>
          let live := api.nand merged when
          logicalLimbs api rest (api.Or outk (api.And live thn)) (api.Or merged when)

/-- The method `compileLogicalCase` of exprcompile.go. -/
def compileLogicalCase (api : ssaapi) (c : Case) : Result vterm :=
  let els := c.Else.getD Node.Null
  (api.compileAsBool els).bind fun final =>
    (logicalLimbs api c.Limbs kfalse kfalse).bind fun st =>
      if final.op = .skfalse then .ok st.1
      else .ok (api.Or st.1 (api.And final (api.nand st.2 final)))

/-- Use of a possibly nil `*value` as operand of a builder: a nil pointer is a
run-time panic. -/
def deref (x : Option vterm) : Result vterm :=
  match x with
  | some v => .ok v
  | none => .panic "nil pointer dereference"

/-- The loop over the limbs of `compileGenericCase`, from the state
`(v, k, merged)` (each possibly nil). -/
def genericLimbs (api : ssaapi) :
    List CaseLimb → Option vterm → Option vterm → Option vterm →
      Result (Option vterm × Option vterm × Option vterm)
  | [], v, k, merged => .ok (v, k, merged)
  | l :: rest, v, k, merged =>
    (api.compileAsBool l.When).bind fun when =>
      if when.op = .skfalse then genericLimbs api rest v k merged
      else
        (api.serialized l.Then).bind fun thn0 =>
          let thn := api.unsymbolized thn0
          if thn.primary api ≠ stValue then
            .panic "inside compilePathCase: unexpected return type"
          else
            match v with
            | none =>
              genericLimbs api rest (some thn) (some (api.And when (api.mask thn))) (some when)
            | some v1 =>
              (deref merged).bind fun m =>
                (deref k).bind fun k1 =>
                  let shouldmerge := api.nand m when
                  genericLimbs api rest (some (.ssa3 .sblendv v1 thn shouldmerge .nil))
                    (some (api.Or k1 (api.And shouldmerge (api.mask thn))))
                    (some (api.Or m when))

/-- The state `(v, k, merged)` of `compileGenericCase` before its loop: the
ELSE value and its mask when there is an ELSE other than MISSING. -/
def genericElse (api : ssaapi) (c : Case) :
    Result (Option vterm × Option vterm × Option vterm) :=
  match c.Else with
  | none => .ok (none, none, none)
  | some .Missing => .ok (none, none, none)
  | some e =>
    (api.serialized e).bind fun v0 =>
      let v := api.unsymbolized v0
      .ok (some v, some (api.mask v), some kfalse)

/-- The state `(v, k, merged)` of `compileGenericCase` after its loop: the
value `v` and the validity mask `k` that the function pairs with it. -/
def genericAcc (api : ssaapi) (c : Case) :
    Result (Option vterm × Option vterm × Option vterm) :=
  (genericElse api c).bind fun st => genericLimbs api c.Limbs st.1 st.2.1 st.2.2

/-- The method `compileGenericCase` of exprcompile.go. -/
def compileGenericCase (api : ssaapi) (c : Case) : Result vterm :=
  (genericAcc api c).bind fun st =>
    match st.1 with
    | none => .ok kfalse
    | some v =>
      if some v = st.2.1 then .ok v
      else (deref st.2.1).bind fun k => .ok (api.vk v k)

/-- The test `case stValue, stFloat, stInt` of `compileNumericCase`. -/
def isNumericPrimary (t : ssatype) : Bool :=
  t == stValue || t == stFloat || t == stInt

/-- The state `(outnum, outk, merged)` of `compileNumericCase` before its loop. -/
def numericElse (api : ssaapi) (c : Case) :
    Result (Option vterm × Option vterm × Option vterm) :=
  match c.Else with
  | none => .ok (none, none, none)
  | some .Missing => .ok (none, none, none)
  | some .Null => .ok (none, none, none)
  | some e =>
    (api.compileAsNumber e).bind fun els =>
      if els.op = .sliteral then
        if !api.isNumericImmediate els.imm then .error "is not float nor integer number"
        else .ok (some (api.coercefp els).1, some (api.coercefp els).2, some kfalse)
      else if els.op ≠ .skfalse then
        if isNumericPrimary (els.primary api) then
          .ok (some (api.coercefp els).1, some (api.coercefp els).2, some kfalse)
        else .error "unexpected ELSE in numeric CASE"
      else .ok (none, none, none)

/-- The loop over the limbs of `compileNumericCase`, from the state
`(outnum, outk, merged)` (each possibly nil). -/
def numericLimbs (api : ssaapi) :
    List CaseLimb → Option vterm → Option vterm → Option vterm →
      Result (Option vterm × Option vterm × Option vterm)
  | [], outnum, outk, merged => .ok (outnum, outk, merged)
  | l :: rest, outnum, outk, merged =>
    (api.compileAsBool l.When).bind fun when =>
      if when.op = .skfalse then numericLimbs api rest outnum outk merged
      else
        (api.compileAsNumber l.Then).bind fun thn0 =>
          if thn0.op = .skfalse then
            (deref merged).bind fun m => numericLimbs api rest outnum outk (some (api.Or m when))
          else
            (if thn0.op = .sliteral then
              if !api.isNumericImmediate thn0.imm then
                Result.error "is not float nor integer number"
              else .ok (api.coercefp thn0).1
            else .ok thn0).bind fun thn =>
              match outnum with
              | none =>
                if isNumericPrimary (thn.primary api) then
                  numericLimbs api rest (some (api.coercefp thn).1)
                    (some (api.And (api.coercefp thn).2 when)) (some when)
                else .error "cannot convert in CASE to float"
              | some o =>
                (deref merged).bind fun m =>
                  let shouldmerge := api.nand m when
                  if shouldmerge.op = .skfalse then numericLimbs api rest outnum outk merged
                  else if thn.primary api = stInt then
                    (deref outk).bind fun ok1 =>
                      numericLimbs api rest
                        (some (.ssa3 .sblendfloat o (api.coercefp thn).1 shouldmerge .nil))
                        (some (api.Or ok1 (api.And (api.mask (api.coercefp thn).1) shouldmerge)))
                        (some (api.Or m when))
                  else if thn.primary api = stFloat then
                    (deref outk).bind fun ok1 =>
                      numericLimbs api rest (some (.ssa3 .sblendfloat o thn shouldmerge .nil))
                        (some (api.Or ok1 (api.And (api.mask thn) shouldmerge)))
                        (some (api.Or m when))
                  else if thn.primary api = stValue then
                    (deref outk).bind fun ok1 =>
                      numericLimbs api rest (some (api.blendv2fp o thn shouldmerge).1)
                        (some (api.Or ok1 (api.blendv2fp o thn shouldmerge).2))
                        (some (api.Or m when))
                  else .error "cannot convert in CASE to float"

/-- The method `compileNumericCase` of exprcompile.go. -/
def compileNumericCase (api : ssaapi) (c : Case) : Result vterm :=
  if api.IsPathLimbs c then
    (compileGenericCase api c).bind fun v =>
      .ok (api.floatk (api.coercefp v).1 (api.coercefp v).2)
  else
    (numericElse api c).bind fun st =>
      (numericLimbs api c.Limbs st.1 st.2.1 st.2.2).bind fun st2 =>
        (deref st2.1).bind fun outnum =>
          (deref st2.2.1).bind fun outk => .ok (api.floatk outnum outk)

/-! ## First-match-wins, lane by lane -/

/-- First-match-wins on one lane: the THEN of the first limb whose WHEN is true
on the lane, the ELSE when no WHEN is true. -/
def firstMatch {α : Type} : List (Bool × α) → α → α
  | [], e => e
  | (w, t) :: rest, e => if w then t else firstMatch rest e

/-- The mask of an expression compiled in boolean context, on the lane read by
`den` (an expression that does not compile is true on no lane). -/
def laneOf (api : ssaapi) (den : vterm → Bool) (e : Node) : Bool :=
  match api.compileAsBool e with
  | .ok v => den v
  | _ => false

/-- The limbs of a logical CASE on one lane: the masks of each WHEN and THEN. -/
def laneLimbs (api : ssaapi) (den : vterm → Bool) (limbs : List CaseLimb) : List (Bool × Bool) :=
  limbs.map fun l => (laneOf api den l.When, laneOf api den l.Then)

/-- The value of an expression compiled as a boxed CASE arm, on the lane read
by `val` (none when the expression does not compile). -/
def valOf {σ : Type} (api : ssaapi) (val : vterm → σ) (e : Node) : Option σ :=
  match api.serialized e with
  | .ok t => some (val (api.unsymbolized t))
  | _ => none

/-- The limbs of a generic CASE on one lane: the mask of each WHEN and the
value of each THEN. -/
def laneArms {σ : Type} (api : ssaapi) (den : vterm → Bool) (val : vterm → σ)
    (limbs : List CaseLimb) : List (Bool × Option σ) :=
  limbs.map fun l => (laneOf api den l.When, valOf api val l.Then)

/-- The result of a compiler function, or `d` when it failed. -/
def Result.getD {α : Type} (r : Result α) (d : α) : α :=
  match r with
  | .ok v => v
  | _ => d

/-! ## An instance of the builder interface, for the examples -/

/-- The all-valid mask node `p.ValidLanes()`. -/
def validLanes : vterm := .ssa0 .sinit .nil

/-- The boxed value of the field `name` (`p.Dot`). -/
def dotOf (name : String) : vterm := .ssa0 .sdot (.str name)

/-- An opaque comparison node, numbered `id`. -/
def cmpOf (id : Nat) : vterm := .ssa0 .scmplei (.int id)

/-- The return types of the operators used in the examples. -/
def exRettype (op : ssaop) : ssatype :=
  if op = .sliteral ∨ op = .sdot ∨ op = .sblendv ∨ op = .svk then stValue
  else if op = .sbroadcastf ∨ op = .sblendfloat ∨ op = .sfloatk then stFloat
  else stBool

/-- An instance of the builder interface: `And`, `Or`, `nand`, `vk`, `floatk`
construct the node of their operator; a literal or broadcast is valid on every
lane and any other node carries its own mask; in boolean context a path is
compared with `istrue`, `Other id` is the comparison numbered `id`; as a number
`Other 0` stands for an expression lowered to the all-false node. -/
def exApi : ssaapi where
  rettype := exRettype
  And := fun a b => .ssa2 .sand a b .nil
  Or := fun a b => .ssa2 .sor a b .nil
  nand := fun a b => .ssa2 .snand a b .nil
  mask := fun v => if v.op = .sliteral ∨ v.op = .sbroadcastf then validLanes else v
  vk := fun v k => .ssa2 .svk v k .nil
  floatk := fun f k => .ssa2 .sfloatk f k .nil
  unsymbolized := fun v => v
  coercefp := fun v =>
    if v.op = .sliteral then (.ssa0 .sbroadcastf v.imm, validLanes) else (v, v)
  blendv2fp := fun o t k => (.ssa3 .sblendfloat o t k .nil, .ssa2 .sand t k .nil)
  isNumericImmediate := fun imm =>
    match imm with
    | .int _ => true
    | .float _ => true
    | _ => false
  IsPathLimbs := fun _ => false
  compileAsBool := fun e =>
    match e with
    | .Null => .ok kfalse
    | .Missing => .ok kfalse
    | .Bool b => if b then .ok validLanes else .ok kfalse
    | .Path name => .ok (.ssa2 .sistrue (dotOf name) (dotOf name) .nil)
    | .Other id => .ok (cmpOf id)
    | _ => .error "is not a logical expression"
  compileAsNumber := fun e =>
    match e with
    | .Integer i => .ok (.ssa0 .sliteral (.int i))
    | .Float f => .ok (.ssa0 .sliteral (.float f))
    | .Path name => .ok (dotOf name)
    | .Other 0 => .ok kfalse
    | _ => .error "cannot compile as a number"
  serialized := fun e =>
    match e with
    | .String s => .ok (.ssa0 .sliteral (.str s))
    | .Integer i => .ok (.ssa0 .sliteral (.int i))
    | .Null => .ok (.ssa0 .sliteral .nil)
    | .Path name => .ok (dotOf name)
    | _ => .error "cannot re-serialize"

/-- The mask of a node on one lane, `env` giving the lanes of the nodes that
are not mask operators: `and.k`, `or.k` lane-wise, `nand.k a b` as `b AND NOT
a`, `init` all-valid, `false` all-false. -/
def evalMask (env : vterm → Bool) : vterm → Bool
  | .ssa0 op imm =>
    if op = .sinit then true
    else if op = .skfalse then false
    else env (.ssa0 op imm)
  | .ssa1 op a imm => if op = .skfalse then false else env (.ssa1 op a imm)
  | .ssa2 op a b imm =>
    if op = .sand then evalMask env a && evalMask env b
    else if op = .sor then evalMask env a || evalMask env b
    else if op = .snand then evalMask env b && !evalMask env a
    else if op = .skfalse then false
    else env (.ssa2 op a b imm)
  | .ssa3 op a b c imm => if op = .skfalse then false else env (.ssa3 op a b c imm)
  | .ssa4 op a b c d imm => if op = .skfalse then false else env (.ssa4 op a b c d imm)

/-- The string a boxed node holds on one lane: `blendv x y k` is `y` on the
lanes of `k` and `x` elsewhere, `vk v k` holds the value of `v`, a string
literal is its immediate; a lane without a defined string reads as the empty
string. -/
def evalVal (env : vterm → Bool) : vterm → String
  | .ssa0 op imm =>
    if op = .sliteral then
      match imm with
      | .str s => s
      | _ => ""
    else ""
  | .ssa2 op v _ _ => if op = .svk then evalVal env v else ""
  | .ssa3 op x y k _ =>
    if op = .sblendv then (if evalMask env k then evalVal env y else evalVal env x) else ""
  | _ => ""

/-- The lane of a row whose field `a` is the given integer: comparison 1 is
`a > 5`, comparison 2 is `a > 0`; a field value is present on the lane. -/
def exLane (a : Int) : vterm → Bool := fun t =>
  if t = cmpOf 1 then decide (a > 5)
  else if t = cmpOf 2 then decide (a > 0)
  else true

/-- The lane on which comparison 1 is true and the field `x` is missing. -/
def exMissLane : vterm → Bool := fun t => decide (t = cmpOf 1)

/-- `CASE WHEN a > 5 THEN 'big' WHEN a > 0 THEN 'small' ELSE 'neg' END`. -/
def exGenericCase : Case :=
  ⟨[⟨.Other 1, .String "big"⟩, ⟨.Other 2, .String "small"⟩], some (.String "neg"), ""⟩

/-- `CASE WHEN c1 THEN c3 WHEN c2 THEN c4 ELSE c5 END`, the five operands
being comparisons. -/
def exLogicalCase : Case :=
  ⟨[⟨.Other 1, .Other 3⟩, ⟨.Other 2, .Other 4⟩], some (.Other 5), "logical"⟩

/-- The lane on which comparisons 1, 2, 4 and 5 are true and comparison 3 is false. -/
def exLogicalLane : vterm → Bool := fun t => decide (t ≠ cmpOf 3)

/-- `CASE WHEN c1 THEN x ELSE 'neg' END`, with `x` a field. -/
def exLeakCase : Case := ⟨[⟨.Other 1, .Path "x"⟩], some (.String "neg"), ""⟩

/-- `CASE WHEN c1 THEN t ELSE 1 END`, with `t` lowered as a number to the
all-false node. -/
def exNumericCase : Case := ⟨[⟨.Other 1, .Other 0⟩], some (.Integer 1), ""⟩

/-!
# Part III: coercions, casts and builtin calls of `vm/exprcompile.go`

The functions below are translated one level deep: a call that compiles a
sub-expression goes through `compile` of `progapi`, the recursive call into
the compiler. An error carries the fixed words of its format string; the
operands printed into it (`%s`, `%T`, `%q` of an expression or a node) are left
out, the counts and indices (`%d`) are kept.
-/

/-- Modelled from the spec: the type sets named by `compileCast` (the constants
of the expr package are absent from the sources), one bit per value type;
NULL. -/
def NullType : TypeSet := 1

/-- Modelled from the spec: the type set of the booleans. -/
def BoolType : TypeSet := 2

/-- Modelled from the spec: the type set of the integers (unsigned and signed). -/
def IntegerType : TypeSet := 12

/-- Modelled from the spec: the type set of the floats. -/
def FloatType : TypeSet := 16

/-- Modelled from the spec: the type set of the decimals. -/
def DecimalType : TypeSet := 32

/-- Modelled from the spec: the type set of the timestamps. -/
def TimeType : TypeSet := 64

/-- Modelled from the spec: the type set of the symbols. -/
def SymbolType : TypeSet := 128

/-- Modelled from the spec: the type set of the strings. -/
def StringType : TypeSet := 256

/-- Modelled from the spec: the type set of the lists. -/
def ListType : TypeSet := 2048

/-- Modelled from the spec: the type set of the structures. -/
def StructType : TypeSet := 8192

/-- Modelled from the spec: the type set of MISSING. -/
def MissingType : TypeSet := 32768

/-- The type set of the numbers (`expr.NumericType`). -/
def NumericType : TypeSet := IntegerType ||| FloatType ||| DecimalType

/-- A CAST expression (`expr.Cast`). -/
structure Cast where
  From : Node
  To : TypeSet

/-- The further methods of the program container (ssa.go) and functions of the
expr, ion and net packages that the compiler calls, all absent from the
sources, with `compile` for the sub-expressions. -/
structure progapi extends ssaapi where
  /-- The function `compile`, for the sub-expressions. -/
  compile : Node → Result vterm
  /-- The method `p.Constant`. -/
  Constant : Imm → vterm
  /-- The method `p.notMissing`. -/
  notMissing : vterm → vterm
  /-- The method `p.hash`. -/
  hash : vterm → vterm
  /-- The method `p.Not`. -/
  Not : vterm → vterm
  /-- The builder method of the given name (`p.Abs`, `p.DateAdd`, ...), applied
  to its node operands and its other operands. -/
  emit : String → List vterm → List Imm → vterm
  /-- The constant `pi`. -/
  pi : Imm
  /-- The constant `radiansToDegrees`. -/
  radiansToDegrees : Imm
  /-- The constant `degreesToRadians`. -/
  degreesToRadians : Imm
  /-- The four bytes of `net.ParseIP(s).To4()`, none for a nil result. -/
  parseIP4 : String → Option Imm
  /-- The function `expr.JSONTypeBits`, on the number of an ion type. -/
  JSONTypeBits : Nat → Nat
  /-- The function `ionType`, as the number of the ion type of an immediate. -/
  ionType : Imm → Nat

/-- The CASE expression held by a `Case` node. -/
def Case.ofNode (limbs : List (Node × Node)) (els : Option Node) (valence : String) : Case :=
  ⟨limbs.map fun l => ⟨l.1, l.2⟩, els, valence⟩

/-- The function `compileAsBool` of exprcompile.go. -/
def compileAsBool (api : progapi) (e : Node) : Result vterm :=
  match e with
  | .Null => .ok kfalse
  | .Missing => .ok kfalse
  | .Case limbs els valence => compileLogicalCase api.tossaapi (Case.ofNode limbs els valence)
  | .Bool b => if b then .ok validLanes else .ok kfalse
  | .Path _ =>
    (api.compile e).bind fun v =>
      if v.op ≠ .skfalse then .ok (.ssa2 .sistrue v (api.mask v) .nil) else .ok v
  | .Cast _ target =>
    if target ≠ BoolType then .error "cannot be interpreted as a logical expression"
    else api.compile e
  | .Other _ => api.compile e
  | .IsKey _ => api.compile e
  | .Builtin _ _ _ => api.compile e
  | _ => .error "is not a logical expression"

/-- The function `compileAsNumber` of exprcompile.go. -/
def compileAsNumber (api : progapi) (e : Node) : Result vterm :=
  match e with
  | .Case limbs els valence => compileNumericCase api.tossaapi (Case.ofNode limbs els valence)
  | _ =>
    (api.compile e).bind fun v =>
      if v.op = .sliteral ∨ v.primary api.tossaapi = stValue then .ok v
      else if v.primary api.tossaapi &&& (stInt ||| stFloat) = 0 then
        if v.op = .sinvalid then .error "compiling: invalid node"
        else .error "can't compile as a number"
      else .ok v

/-- The function `compileAsTime` of exprcompile.go. -/
def compileAsTime (api : progapi) (e : Node) : Result vterm :=
  (api.compile e).bind fun v =>
    if v.op = .sliteral then .ok v
    else if v.primary api.tossaapi ≠ stValue ∧ v.primary api.tossaapi ≠ stTime ∧
        v.primary api.tossaapi ≠ stTimeInt then
      if v.op = .sinvalid then .error "compiling: invalid node"
      else .error "can't compile as a timestamp"
    else .ok v

/-- The function `compileAsString` of exprcompile.go. -/
def compileAsString (api : progapi) (e : Node) : Result vterm :=
  (api.compile e).bind fun v =>
    if v.op = .sliteral then .ok v
    else if v.primary api.tossaapi = stString then .ok v
    else if v.primary api.tossaapi = stValue then
      .ok (.ssa2 .stostr (api.unsymbolized v) (api.mask (api.unsymbolized v)) .nil)
    else .error "cannot compile expression as a string"

/-- The method `checkTag` of exprcompile.go. -/
def checkTag (api : progapi) (frm : vterm) (typ : TypeSet) : vterm :=
  .ssa2 .schecktag frm (api.mask frm) (.int (Int.ofNat typ))

/-- The method `compileCast` of exprcompile.go (the assignment of
`ret.notMissing` in the boolean case has no counterpart in a term). -/
def compileCast (api : progapi) (c : Cast) : Result vterm :=
  (api.compile c.From).bind fun frm =>
    if c.To = MissingType then .ok kfalse
    else if c.To = NullType then .ok (api.Constant .nil)
    else if c.To = BoolType then
      if frm.primary api.tossaapi = stBool then .ok frm
      else if frm.primary api.tossaapi = stInt then
        .ok (.ssa2 .scvtitok frm (api.mask frm) .nil)
      else if frm.primary api.tossaapi = stFloat then
        .ok (.ssa2 .scvtftok frm (api.mask frm) .nil)
      else if frm.primary api.tossaapi = stValue then
        .ok (api.nand
          (api.Or (.ssa2 .sequalconst frm (api.mask frm) (.int 0))
            (.ssa2 .sisfalse frm (api.mask frm) .nil))
          (checkTag api frm (BoolType ||| NumericType)))
      else .ok kfalse
    else if c.To = IntegerType then
      if frm.primary api.tossaapi = stBool then
        .ok (.ssa2 .scvtktoi frm (api.notMissing frm) .nil)
      else if frm.primary api.tossaapi = stInt then .ok frm
      else if frm.primary api.tossaapi = stFloat then
        .ok (.ssa2 .sroundi frm (api.mask frm) .nil)
      else if frm.primary api.tossaapi = stValue then
        .ok (.ssa2 .sunboxcvti64 frm (api.mask frm) .nil)
      else .ok kfalse
    else if c.To = FloatType then
      if frm.primary api.tossaapi = stBool then
        .ok (.ssa2 .scvtktof frm (api.notMissing frm) .nil)
      else if frm.primary api.tossaapi = stInt then
        .ok (.ssa2 .scvtitof frm (api.mask frm) .nil)
      else if frm.primary api.tossaapi = stFloat then .ok frm
      else if frm.primary api.tossaapi = stValue then
        .ok (.ssa2 .sunboxcvtf64 frm (api.mask frm) .nil)
      else .ok kfalse
    else if c.To = StringType then
      if frm.primary api.tossaapi = stString then .ok frm
      else if frm.primary api.tossaapi = stInt then
        .ok (.ssa2 .scvti64tostr frm (api.mask frm) .nil)
      else if frm.primary api.tossaapi = stValue then
        .ok (checkTag api frm (c.To ||| SymbolType))
      else .ok kfalse
    else if c.To = TimeType then
      if frm.primary api.tossaapi = stTime then .ok frm
      else if frm.primary api.tossaapi = stValue then .ok (checkTag api frm c.To)
      else .ok kfalse
    else if c.To = ListType then
      if frm.ret api.tossaapi &&& stList ≠ 0 then .ok frm
      else if frm.primary api.tossaapi = stValue then .ok (checkTag api frm c.To)
      else .ok kfalse
    else if c.To = StructType ∨ c.To = DecimalType ∨ c.To = SymbolType then
      if frm.ret api.tossaapi &&& stValue ≠ 0 then .ok (checkTag api frm c.To)
      else .ok kfalse
    else .error "unsupported cast"

/-- The coercion a builtin asks for an argument (`compileType`). -/
inductive compileType
  | compileExpression
  | compileNumber
  | compileString
  | compileTime
  | compileBool
  | literalString
  | omit
  deriving DecidableEq

/-- One turn of the loop of `compileargs`: the node compiled for the argument
(nil for a literal-string or omitted slot), or the error of its coercion. -/
def compileSlot (api : progapi) (t : compileType) (a : Node) : Result (Option vterm) :=
  match t with
  | .compileNumber => (compileAsNumber api a).bind fun v => .ok (some v)
  | .compileString => (compileAsString api a).bind fun v => .ok (some v)
  | .compileTime => (compileAsTime api a).bind fun v => .ok (some v)
  | .compileBool => (compileAsBool api a).bind fun v => .ok (some v)
  | .compileExpression => (api.compile a).bind fun v => .ok (some v)
  | .literalString =>
    match a with
    | .String _ => .ok none
    | _ => .error "expected literal string"
  | .omit => .ok none

/-- The loop of `compileargs` from argument `i` (counted from 0) on. -/
def compileargsFrom (api : progapi) :
    Nat → List Node → List compileType → Result (List (Option vterm))
  | i, a :: rest, t :: ts =>
    match compileSlot api t a with
    | .ok v => (compileargsFrom api (i + 1) rest ts).bind fun r => .ok (v :: r)
    | .error e => .error ("argument " ++ toString (i + 1) ++ ": " ++ e)
    | .panic e => .panic e
  | _, _, _ => .ok []

/-- The function `compileargs` of exprcompile.go. -/
def compileargs (api : progapi) (args : List Node) (types : List compileType) :
    Result (List (Option vterm)) :=
  if types.length ≠ args.length then
    .error ("expects " ++ toString types.length ++ " arguments, got " ++ toString args.length)
  else compileargsFrom api 0 args types

/-- Modelled from the spec: the constants (`expr.Constant`, of the expr package
absent from the sources) and their datum: the literal scalars, NULL, and the
composite constants. -/
def Node.datum : Node → Option Datum
  | .Null => some .null
  | .Bool b => some (.bool b)
  | .String s => some (.str s)
  | .Integer i => some (.int i)
  | .Float f => some (.float f)
  | .Timestamp us => some (.time us)
  | .Struct id => some (.composite id)
  | .List id => some (.composite id)
  | _ => none

/-- The method `hashLookup` of exprcompile.go. -/
def hashLookup (api : progapi) (e : Node) (lookup : List Datum) : Result vterm :=
  (api.serialized e).bind fun v =>
    if lookup.length % 2 ≠ 0 then
      .ok (api.vk
        (.ssa3 .sblendv
          (.ssa2 .shashlookup (api.hash v) (api.mask (api.hash v)) (.datums lookup.dropLast))
          (api.Constant (.datum (lookup.getLastD .null)))
          (api.Not
            (.ssa2 .shashlookup (api.hash v) (api.mask (api.hash v)) (.datums lookup.dropLast)))
          .nil)
        (api.mask v))
    else .ok (.ssa2 .shashlookup (api.hash v) (api.mask (api.hash v)) (.datums lookup))

/-- The loop of `compileHashLookup`: the datums of the constants. -/
def constDatums : List Node → Result (List Datum)
  | [] => .ok []
  | a :: rest =>
    match a.datum with
    | none => .error "is not a constant"
    | some d => (constDatums rest).bind fun r => .ok (d :: r)

/-- The method `compileHashLookup` of exprcompile.go. -/
def compileHashLookup (api : progapi) (lst : List Node) : Result vterm :=
  match lst with
  | base :: a :: rest => (constDatums (a :: rest)).bind fun datums => hashLookup api base datums
  | _ => .error ("HASH_LOOKUP with " ++ toString lst.length ++ " arguments?")

/-- Indexing of the argument list (`args[i]`): out of range is a run-time panic. -/
def argAt (args : List Node) (i : Nat) : Result Node :=
  match args[i]? with
  | some a => .ok a
  | none => .panic "index out of range"

/-- The string of a string literal (`s, _ := e.(expr.String)`), empty for any
other expression. -/
def stringOf : Node → String
  | .String s => s
  | _ => ""

/-- The time part handed to a date builder, as an immediate. -/
def Timepart.toImm : Timepart → Imm
  | .Microsecond => .int 0
  | .Millisecond => .int 1
  | .Second => .int 2
  | .Minute => .int 3
  | .Hour => .int 4
  | .Day => .int 5
  | .DOW => .int 6
  | .DOY => .int 7
  | .Week => .int 8
  | .Month => .int 9
  | .Quarter => .int 10
  | .Year => .int 11

/-- The builder method that `compilefuncaux` calls for a builtin with a single
dedicated builder (`p.Round` for `expr.Round`, ...), and the trim type of the
trim functions (`trimtype(fn)`). -/
def builderName : BuiltinOp → String
  | .Round => "Round" | .RoundEven => "RoundEven" | .Trunc => "Trunc" | .Floor => "Floor"
  | .Ceil => "Ceil" | .Sqrt => "Sqrt" | .Cbrt => "Cbrt" | .Exp => "Exp" | .Exp2 => "Exp2"
  | .Exp10 => "Exp10" | .ExpM1 => "ExpM1" | .Ln => "Ln" | .Ln1p => "Ln1p" | .Log2 => "Log2"
  | .Log10 => "Log10" | .Sin => "Sin" | .Cos => "Cos" | .Tan => "Tan" | .Asin => "Asin"
  | .Acos => "Acos" | .Atan => "Atan" | .Abs => "Abs" | .Sign => "Sign"
  | .BitCount => "BitCount" | .Hypot => "Hypot" | .Pow => "Pow" | .Atan2 => "Atan2"
  | .GeoHash => "GeoHash" | .GeoTileES => "GeoTileES" | .GeoTileX => "GeoTileX"
  | .GeoTileY => "GeoTileY" | .Lower => "Lower" | .Upper => "Upper"
  | .ToUnixEpoch => "DateToUnixEpoch" | .ToUnixMicro => "DateToUnixMicro"
  | .Trim => "Trim" | .Ltrim => "Ltrim" | .Rtrim => "Rtrim"
  | _ => ""

/-- The test `fn == expr.Contains`. -/
def BuiltinOp.isContains : BuiltinOp → Bool
  | .Contains => true
  | _ => false

/-- The tests `fn == expr.EqualsFuzzy` and `fn == expr.ContainsFuzzy`. -/
def BuiltinOp.isAscii : BuiltinOp → Bool
  | .EqualsFuzzy => true
  | .ContainsFuzzy => true
  | _ => false

/-- The nodes of a list of compiled arguments, when none of them is nil. -/
def allSome : List (Option vterm) → Option (List vterm)
  | [] => some []
  | none :: _ => none
  | some v :: rest =>
    match allSome rest with
    | some r => some (v :: r)
    | none => none

/-- A builtin whose arguments are all coerced by `compileargs` and handed, in
order, to one builder method. -/
def callBuilder (api : progapi) (args : List Node) (types : List compileType)
    (method : String) (imms : List Imm) : Result vterm :=
  (compileargs api args types).bind fun v =>
    match allSome v with
    | some vals => .ok (api.emit method vals imms)
    | none => .panic "nil pointer dereference"

/-- The loop of the `Concat` case: every argument compiled as a string. -/
def compileStrings (api : progapi) : List Node → Result (List vterm)
  | [] => .ok []
  | a :: rest =>
    (compileAsString api a).bind fun s =>
      (compileStrings api rest).bind fun r => .ok (s :: r)

/-- The loop of the `Least` and `Greatest` cases, from the value `val`. -/
def minmaxFrom (api : progapi) (least : Bool) : List Node → vterm → Result vterm
  | [], val => .ok val
  | a :: rest, val =>
    (compileAsNumber api a).bind fun rhs =>
      minmaxFrom api least rest
        (if least then api.emit "MinValue" [val, rhs] [] else api.emit "MaxValue" [val, rhs] [])

/-- The loop of the `MakeList` case: every argument serialized. -/
def serializedAll (api : progapi) : List Node → Result (List vterm)
  | [] => .ok []
  | a :: rest =>
    (api.serialized a).bind fun item =>
      (serializedAll api rest).bind fun r => .ok (item :: r)

/-- The loop of the `MakeStruct` case over the key/value pairs: key node, value
and mask of the value for each pair. -/
def structArgsFrom (api : progapi) : List Node → Result (List vterm)
  | [] => .ok []
  | [_] => .panic "index out of range"
  | k :: v :: rest =>
    match k with
    | .String key =>
      (api.serialized v).bind fun val =>
        (structArgsFrom api rest).bind fun r =>
          .ok (.ssa0 .smakestructkey (.str key) :: val :: api.mask val :: r)
    | _ => .error "key must be a string"

/-- The loop of the `AssertIonType` case over the arguments after the first:
the 16-bit set of the type numbers (`args[i].(expr.Integer)`, a panic on any
other expression and on a negative shift count). -/
def typesetFrom : List Node → Result TypeSet
  | [] => .ok 0
  | a :: rest =>
    match a with
    | .Integer n =>
      if n < 0 then .panic "negative shift amount"
      else (typesetFrom rest).bind fun t => .ok (t ||| ((1 <<< n.toNat) % 65536))
    | _ => .panic "interface conversion"

/-- The function `compilefuncaux` of exprcompile.go, for the builtin `fn` named
`name` with arguments `bargs` (`b.Func`, `b.Name()`, `b.Args`) and the
argument list `args`. -/
def compilefuncaux (api : progapi) (fn : BuiltinOp) (name : String) (bargs args : List Node) :
    Result vterm :=
  match fn with
  | .DateAdd part =>
    callBuilder api args [.compileNumber, .compileTime] "DateAdd" [part.toImm]
  | .DateDiff part =>
    callBuilder api args [.compileTime, .compileTime] "DateDiff" [part.toImm]
  | .DateExtract part => callBuilder api args [.compileTime] "DateExtract" [part.toImm]
  | .DateTrunc part =>
    (argAt args 0).bind fun a0 =>
      (compileAsTime api a0).bind fun val =>
        match part with
        | .DOW =>
          (argAt args 1).bind fun a1 =>
            match a1 with
            | .Integer dow => .ok (api.emit "DateTruncWeekday" [val] [.int dow])
            | _ => .error "day of week has to be a constant"
        | _ => .ok (api.emit "DateTrunc" [val] [part.toImm])
  | .Pi =>
    if args.length ≠ 0 then .error "accepts no arguments" else .ok (api.Constant api.pi)
  | .Log =>
    if args.length < 1 ∨ args.length > 2 then .error "expects either 1 or 2 arguments"
    else
      (argAt args 0).bind fun a0 =>
        (compileAsNumber api a0).bind fun n =>
          if args.length = 1 then .ok (api.emit "Log10" [n] [])
          else
            (argAt args 1).bind fun a1 =>
              (compileAsNumber api a1).bind fun n1 =>
                .ok (api.emit "Div" [api.emit "Log2" [n1] [], api.emit "Log2" [n] []] [])
  | .Degrees =>
    (compileargs api args [.compileNumber]).bind fun v =>
      match v with
      | [some a] => .ok (api.emit "Mul" [a, api.Constant api.radiansToDegrees] [])
      | _ => .panic "nil pointer dereference"
  | .Radians =>
    (compileargs api args [.compileNumber]).bind fun v =>
      match v with
      | [some a] => .ok (api.emit "Mul" [a, api.Constant api.degreesToRadians] [])
      | _ => .panic "nil pointer dereference"
  | .Round | .RoundEven | .Trunc | .Floor | .Ceil | .Sqrt | .Cbrt | .Exp | .Exp2 | .Exp10
  | .ExpM1 | .Ln | .Ln1p | .Log2 | .Log10 | .Sin | .Cos | .Tan | .Asin | .Acos | .Atan | .Abs
  | .Sign | .BitCount => callBuilder api args [.compileNumber] (builderName fn) []
  | .Hypot | .Pow | .Atan2 =>
    callBuilder api args [.compileNumber, .compileNumber] (builderName fn) []
  | .Concat => (compileStrings api args).bind fun sargs => .ok (api.emit "Concat" sargs [])
  | .Least =>
    if args.length < 1 then .error "expects at least one argument"
    else
      (argAt args 0).bind fun a0 =>
        (compileAsNumber api a0).bind fun val => minmaxFrom api true (args.drop 1) val
  | .Greatest =>
    if args.length < 1 then .error "expects at least one argument"
    else
      (argAt args 0).bind fun a0 =>
        (compileAsNumber api a0).bind fun val => minmaxFrom api false (args.drop 1) val
  | .WidthBucket =>
    callBuilder api args [.compileNumber, .compileNumber, .compileNumber, .compileNumber]
      "WidthBucket" []
  | .TimeBucket => callBuilder api args [.compileTime, .compileNumber] "TimeBucket" []
  | .Trim | .Ltrim | .Rtrim =>
    if args.length = 1 then
      (argAt args 0).bind fun a0 =>
        (compileAsString api a0).bind fun s =>
          .ok (api.emit "TrimSpace" [s] [.str (builderName fn)])
    else if args.length = 2 then
      (compileargs api args [.compileString, .literalString]).bind fun v =>
        match v with
        | some s :: _ =>
          .ok (api.emit "TrimChar" [s] [.str (stringOf (args.getD 1 .Null)), .str (builderName fn)])
        | _ => .panic "nil pointer dereference"
    else .error "expects one or two arguments"
  | .Contains | .ContainsCI =>
    (compileargs api args [.compileString, .literalString]).bind fun v =>
      match v, args with
      | some lhs :: _, [_, .String s] =>
        .ok (api.emit "Contains" [lhs] [.str s, .bool fn.isContains])
      | _, _ => .panic "interface conversion"
  | .EqualsCI =>
    (compileargs api args [.compileString, .compileString]).bind fun v =>
      match v, args with
      | [some lhs, some rhs], [_, .String _] => .ok (api.emit "EqualStr" [lhs, rhs] [.bool false])
      | [some _, some _], _ => .error "second argument should be a literal string"
      | _, _ => .panic "nil pointer dereference"
  | .EqualsFuzzy | .EqualsFuzzyUnicode =>
    (compileargs api args [.compileString, .literalString, .compileNumber]).bind fun v =>
      match v, args with
      | [some s, _, some n], [_, .String t, _] =>
        .ok (api.emit "EqualsFuzzy" [s, n] [.str t, .bool fn.isAscii])
      | _, _ => .panic "interface conversion"
  | .ContainsFuzzy | .ContainsFuzzyUnicode =>
    (compileargs api args [.compileString, .literalString, .compileNumber]).bind fun v =>
      match v, args with
      | [some s, _, some n], [_, .String t, _] =>
        .ok (api.emit "ContainsFuzzy" [s, n] [.str t, .bool fn.isAscii])
      | _, _ => .panic "interface conversion"
  | .IsSubnetOf =>
    (compileargs api args [.literalString, .literalString, .compileString]).bind fun v =>
      match v with
      | [_, _, some lhs] =>
        match api.parseIP4 (stringOf (args.getD 0 .Null)),
          api.parseIP4 (stringOf (args.getD 1 .Null)) with
        | some lo, some hi => .ok (api.emit "IsSubnetOfIP4" [lhs] [lo, hi])
        | _, _ => .panic "cannot convert slice to array pointer"
      | _ => .panic "nil pointer dereference"
  | .CharLength => callBuilder api args [.compileString] "CharLength" []
  | .Substring =>
    callBuilder api args [.compileString, .compileNumber, .compileNumber] "Substring" []
  | .SplitPart =>
    (compileargs api args [.compileString, .literalString, .compileNumber]).bind fun v =>
      match v, args with
      | [some lhs, _, some idx], [_, .String delimiter, _] =>
        match delimiter.data with
        | [] => .panic "index out of range"
        | c :: _ =>
          .ok (api.emit "SplitPart" [lhs, idx] [.int ((String.utf8EncodeChar c).headD 0).toNat])
      | _, _ => .panic "interface conversion"
  | .Unspecified =>
    if name = "UPVALUE" then
      if args.length ≠ 1 then .error "UPVALUE should have 1 argument"
      else
        match args with
        | [.Integer n] => .ok (api.emit "Upvalue" [api.emit "InitMem" [] []] [.int n])
        | _ => .error "first arg to UPVALUE should be an integer"
    else .error "unhandled builtin"
  | .ToUnixEpoch | .ToUnixMicro => callBuilder api args [.compileTime] (builderName fn) []
  | .GeoHash | .GeoTileES =>
    callBuilder api args [.compileNumber, .compileNumber, .compileNumber] (builderName fn) []
  | .GeoDistance =>
    callBuilder api args [.compileNumber, .compileNumber, .compileNumber, .compileNumber]
      "GeoDistance" []
  | .GeoTileX | .GeoTileY =>
    callBuilder api args [.compileNumber, .compileNumber] (builderName fn) []
  | .ObjectSize =>
    (compileargs api args [.compileExpression]).bind fun v =>
      match v with
      | [some a] => .ok (.ssa2 .sobjectsize a (api.mask a) .nil)
      | _ => .panic "nil pointer dereference"
  | .HashLookup => compileHashLookup api bargs
  | .Lower | .Upper => callBuilder api args [.compileString] (builderName fn) []
  | .MakeList =>
    if args.length = 0 then .error "failed to perform constant propagation"
    else (serializedAll api args).bind fun items => .ok (api.emit "MakeList" items [])
  | .MakeStruct =>
    if args.length = 0 then .error "failed to perform constant propagation"
    else if args.length % 2 ≠ 0 then .error "must have an even number of arguments"
    else
      (structArgsFrom api args).bind fun structArgs =>
        .ok (api.emit "MakeStruct" (validLanes :: structArgs) [])
  | .TypeBit =>
    (argAt args 0).bind fun a0 =>
      (api.compile a0).bind fun arg =>
        if arg.op = .skfalse then .ok (api.Constant (.int 0))
        else if arg.op = .sliteral then
          .ok (api.Constant (.int (api.JSONTypeBits (api.ionType arg.imm))))
        else if arg.primary api.tossaapi = stValue then
          .ok (.ssa2 .stypebits arg (api.mask arg) .nil)
        else
          let n : Nat :=
            if arg.primary api.tossaapi = stList then api.JSONTypeBits 11
            else if arg.primary api.tossaapi = stInt ∨ arg.primary api.tossaapi = stFloat then
              api.JSONTypeBits 4
            else if arg.primary api.tossaapi = stTime ∨
                arg.primary api.tossaapi = stTimeInt then api.JSONTypeBits 6
            else if arg.primary api.tossaapi = stString then api.JSONTypeBits 8
            else 0
          if (api.mask arg).op ≠ .sinit then .ok (api.vk (api.Constant (.int n)) (api.mask arg))
          else .ok (api.Constant (.int n))
  | .AssertIonType =>
    (argAt args 0).bind fun a0 =>
      (api.compile a0).bind fun arg =>
        (typesetFrom (args.drop 1)).bind fun typeset =>
          if arg.primary api.tossaapi = stValue then .ok (checkTag api arg typeset)
          else if arg.primary api.tossaapi = stString then
            if typeset &&& StringType ≠ 0 then .ok arg else .ok kfalse
          else if arg.primary api.tossaapi = stFloat then
            if typeset &&& FloatType ≠ 0 then .ok arg else .ok kfalse
          else if arg.primary api.tossaapi = stInt then
            if typeset &&& IntegerType ≠ 0 then .ok arg else .ok kfalse
          else if arg.primary api.tossaapi = stTime ∨ arg.primary api.tossaapi = stTimeInt then
            if typeset &&& TimeType ≠ 0 then .ok arg else .ok kfalse
          else .error "cannot handle value of this type"
  | .Unhandled _ => .error "unhandled builtin function name"

/-- The function `compilefunc` of exprcompile.go. -/
def compilefunc (api : progapi) (fn : BuiltinOp) (name : String) (bargs args : List Node) :
    Result vterm :=
  match compilefuncaux api fn name bargs args with
  | .error e => .error ("compiling " ++ name ++ ": " ++ e)
  | r => r

/-! ## An instance of the compiler interface, for the examples of Part III -/

/-- The return types of the example: the object size and the integer
conversions are integers, `tostr` is a string, the rest as in `exRettype`. -/
def exProgRettype (op : ssaop) : ssatype :=
  if op = .sobjectsize ∨ op = .sunboxcvti64 ∨ op = .sroundi then stInt
  else if op = .stostr then stString
  else exRettype op

/-- An instance of the compiler interface: the builders of `exApi`; a literal
compiles to the constant of its value, a path to its `dot` node, `Other id` to
the comparison numbered `id`, `Arithmetic id` to a raw float node, and
`OBJECT_SIZE` of a path to the `objectsize` node that `compilefunc` builds for
it; the hash of a node stands for the node. -/
def exProg : progapi where
  tossaapi := { exApi with rettype := exProgRettype }
  compile := fun e =>
    match e with
    | .Null => .ok (.ssa0 .sliteral .nil)
    | .Missing => .ok kfalse
    | .Bool b => .ok (.ssa0 .sliteral (.bool b))
    | .String s => .ok (.ssa0 .sliteral (.str s))
    | .Integer i => .ok (.ssa0 .sliteral (.int i))
    | .Float f => .ok (.ssa0 .sliteral (.float f))
    | .Timestamp us => .ok (.ssa0 .sliteral (.time us))
    | .Path name => .ok (dotOf name)
    | .Other id => .ok (cmpOf id)
    | .Arithmetic id => .ok (.ssa0 .sbroadcastf (.int id))
    | .Builtin .ObjectSize _ [.Path name] =>
      .ok (.ssa2 .sobjectsize (dotOf name) (exApi.mask (dotOf name)) .nil)
    | _ => .error "unhandled expression"
  Constant := fun imm => .ssa0 .sliteral imm
  notMissing := fun v => v
  hash := fun v => v
  Not := fun v => .ssa2 .snand v validLanes .nil
  emit := fun _ vals _ => vals.headD kfalse
  pi := .str "pi"
  radiansToDegrees := .str "radiansToDegrees"
  degreesToRadians := .str "degreesToRadians"
  parseIP4 := fun _ => none
  JSONTypeBits := fun n => n
  ionType := fun _ => 0

/-- Whether the operator `o` occurs in a node or in one of its operands. -/
def vterm.hasOp (o : ssaop) : vterm → Bool
  | .ssa0 op _ => op == o
  | .ssa1 op a _ => op == o || a.hasOp o
  | .ssa2 op a b _ => op == o || a.hasOp o || b.hasOp o
  | .ssa3 op a b c _ => op == o || a.hasOp o || b.hasOp o || c.hasOp o
  | .ssa4 op a b c d _ => op == o || a.hasOp o || b.hasOp o || c.hasOp o || d.hasOp o

/-- Whether an outcome is a result (no error returned, no panic). -/
def Result.isOk {α : Type} : Result α → Bool
  | .ok _ => true
  | _ => false

/-! ## The path-limbs test, for the dead-limb examples -/

/-- An arm that is a path expression, MISSING or NULL. -/
def isPathArm : Node → Bool
  | .Path _ => true
  | .Missing => true
  | .Null => true
  | _ => false

/-- Modelled from the spec: `IsPathLimbs` (expr package, absent from the
sources), in the words of exprcompile.go: the CASE has THEN and ELSE arms that
are only path expressions, MISSING or NULL. -/
def isPathLimbs (c : Case) : Bool :=
  c.Limbs.all (fun l => isPathArm l.Then) &&
    match c.Else with
    | none => true
    | some e => isPathArm e

/-- The instance `exApi` with the path-limbs test `isPathLimbs`. -/
def exPathApi : ssaapi := { exApi with IsPathLimbs := isPathLimbs }

/-- `CASE WHEN FALSE THEN 1 WHEN c1 THEN x END`: the first limb is dead. -/
def exDeadCase : Case := ⟨[⟨.Bool false, .Integer 1⟩, ⟨.Other 1, .Path "x"⟩], none, ""⟩

/-- `CASE WHEN c1 THEN x END`: `exDeadCase` without its dead limb. -/
def exLiveCase : Case := ⟨[⟨.Other 1, .Path "x"⟩], none, ""⟩

/-- The instance `exPathApi` in which an arm is compiled as a number by
`compileAsNumber` of exprcompile.go, over the compiler `exProg`. -/
def exNumberApi : ssaapi := { exPathApi with compileAsNumber := compileAsNumber exProg }

/-- `CASE WHEN FALSE THEN 1 WHEN c1 THEN NULL WHEN c2 THEN x END`: the first
limb is dead, and its THEN is the only arm that is not a path, NULL or
MISSING. -/
def exDeadNullCase : Case :=
  ⟨[⟨.Bool false, .Integer 1⟩, ⟨.Other 1, .Null⟩, ⟨.Other 2, .Path "x"⟩], none, ""⟩

/-- `CASE WHEN c1 THEN NULL WHEN c2 THEN x END`: `exDeadNullCase` without its
dead limb. -/
def exLiveNullCase : Case := ⟨[⟨.Other 1, .Null⟩, ⟨.Other 2, .Path "x"⟩], none, ""⟩

/-! ## Serialization -/

/-- Whether an expression is an IS predicate (`e.(*expr.IsKey)`). -/
def isIsKey : Node → Bool
  | .IsKey _ => true
  | _ => false

/-- The method `serialized` of exprcompile.go (`v.imm.(string)` panics when the
immediate of an invalid node is not a string). -/
def serialized (api : progapi) (e : Node) : Result vterm :=
  (api.compile e).bind fun v =>
    if v.primary api.tossaapi = stValue then
      if isIsKey e then .ok (.ssa2 .sboxmask v validLanes .nil) else .ok v
    else if v.primary api.tossaapi = stBool then
      .ok (.ssa2 .sboxmask v (if isIsKey e then validLanes else api.notMissing v) .nil)
    else if v.primary api.tossaapi = stInt then .ok (.ssa2 .sboxint v (api.mask v) .nil)
    else if v.primary api.tossaapi = stFloat then .ok (.ssa2 .sboxfloat v (api.mask v) .nil)
    else if v.primary api.tossaapi = stString then .ok (.ssa2 .sboxstring v (api.mask v) .nil)
    else if v.primary api.tossaapi = stTimeInt then .ok (.ssa2 .sboxts v (api.mask v) .nil)
    else if v.primary api.tossaapi = stList then .ok (.ssa2 .sboxlist v (api.mask v) .nil)
    else if v.op = .sinvalid then
      match v.imm with
      | .str s => .error s
      | _ => .panic "interface conversion"
    else .error "don't know how to re-serialize"

/-- An instance with a list-typed node: the table of `exProg`, except that one
operator (here `smakestructkey`, standing for an operator that yields a raw
list; the sources name none) has the return type `stList ||| stBool`, and
`Other id` compiles to a node of that operator. -/
def exListProg : progapi :=
  { exProg with
    rettype := fun op => if op = .smakestructkey then stList ||| stBool else exProgRettype op
    compile := fun e =>
      match e with
      | .Other id => .ok (.ssa0 .smakestructkey (.int id))
      | e => exProg.compile e }

/-!
# Part V: the opcode enumeration of `vm/ops_gen.go` and its generator
-/

/-- The type of an opcode number (`bcop`). -/
abbrev bcop := Nat

/-- The constant block of ops_gen.go: the name and the value of each `bcop`
constant, in the order of declaration. -/
def bcopTable : List (String × bcop) :=
  [("opret", 0), ("opjz", 1), ("oploadk", 2), ("opsavek", 3), ("opxchgk", 4), ("oploadb", 5),
   ("opsaveb", 6), ("oploadv", 7), ("opsavev", 8), ("oploadzerov", 9), ("opsavezerov", 10),
   ("oploadpermzerov", 11), ("opsaveblendv", 12), ("oploads", 13), ("opsaves", 14),
   ("oploadzeros", 15), ("opsavezeros", 16), ("opbroadcastimmk", 17), ("opfalse", 18),
   ("opandk", 19), ("opork", 20), ("opandnotk", 21), ("opnandk", 22), ("opxork", 23),
   ("opnotk", 24), ("opxnork", 25), ("opbroadcastimmf", 26), ("opbroadcastimmi", 27),
   ("opabsf", 28), ("opabsi", 29), ("opnegf", 30), ("opnegi", 31), ("opsignf", 32),
   ("opsigni", 33), ("opsquaref", 34), ("opsquarei", 35), ("opbitnoti", 36), ("opbitcounti", 37),
   ("oproundf", 38), ("oproundevenf", 39), ("optruncf", 40), ("opfloorf", 41), ("opceilf", 42),
   ("opaddf", 43), ("opaddimmf", 44), ("opaddi", 45), ("opaddimmi", 46), ("opsubf", 47),
   ("opsubimmf", 48), ("opsubi", 49), ("opsubimmi", 50), ("oprsubf", 51), ("oprsubimmf", 52),
   ("oprsubi", 53), ("oprsubimmi", 54), ("opmulf", 55), ("opmulimmf", 56), ("opmuli", 57),
   ("opmulimmi", 58), ("opdivf", 59), ("opdivimmf", 60), ("oprdivf", 61), ("oprdivimmf", 62),
   ("opdivi", 63), ("opdivimmi", 64), ("oprdivi", 65), ("oprdivimmi", 66), ("opmodf", 67),
   ("opmodimmf", 68), ("oprmodf", 69), ("oprmodimmf", 70), ("opmodi", 71), ("opmodimmi", 72),
   ("oprmodi", 73), ("oprmodimmi", 74), ("opaddmulimmi", 75), ("opminvaluef", 76),
   ("opminvalueimmf", 77), ("opmaxvaluef", 78), ("opmaxvalueimmf", 79), ("opminvaluei", 80),
   ("opminvalueimmi", 81), ("opmaxvaluei", 82), ("opmaxvalueimmi", 83), ("opandi", 84),
   ("opandimmi", 85), ("opori", 86), ("oporimmi", 87), ("opxori", 88), ("opxorimmi", 89),
   ("opslli", 90), ("opsllimmi", 91), ("opsrai", 92), ("opsraimmi", 93), ("opsrli", 94),
   ("opsrlimmi", 95), ("opsqrtf", 96), ("opcbrtf", 97), ("opexpf", 98), ("opexp2f", 99),
   ("opexp10f", 100), ("opexpm1f", 101), ("oplnf", 102), ("opln1pf", 103), ("oplog2f", 104),
   ("oplog10f", 105), ("opsinf", 106), ("opcosf", 107), ("optanf", 108), ("opasinf", 109),
   ("opacosf", 110), ("opatanf", 111), ("opatan2f", 112), ("ophypotf", 113), ("oppowf", 114),
   ("opcvtktof64", 115), ("opcvtktoi64", 116), ("opcvti64tok", 117), ("opcvti64tof64", 118),
   ("opcvtf64toi64", 119), ("opfproundu", 120), ("opfproundd", 121), ("opcvti64tostr", 122),
   ("opsortcmpvnf", 123), ("opsortcmpvnl", 124), ("opcmpv", 125), ("opcmpvk", 126),
   ("opcmpvimmk", 127), ("opcmpvi64", 128), ("opcmpvimmi64", 129), ("opcmpvf64", 130),
   ("opcmpvimmf64", 131), ("opcmpltstr", 132), ("opcmplestr", 133), ("opcmpgtstr", 134),
   ("opcmpgestr", 135), ("opcmpltk", 136), ("opcmpltimmk", 137), ("opcmplek", 138),
   ("opcmpleimmk", 139), ("opcmpgtk", 140), ("opcmpgtimmk", 141), ("opcmpgek", 142),
   ("opcmpgeimmk", 143), ("opcmpeqf", 144), ("opcmpeqimmf", 145), ("opcmpltf", 146),
   ("opcmpltimmf", 147), ("opcmplef", 148), ("opcmpleimmf", 149), ("opcmpgtf", 150),
   ("opcmpgtimmf", 151), ("opcmpgef", 152), ("opcmpgeimmf", 153), ("opcmpeqi", 154),
   ("opcmpeqimmi", 155), ("opcmplti", 156), ("opcmpltimmi", 157), ("opcmplei", 158),
   ("opcmpleimmi", 159), ("opcmpgti", 160), ("opcmpgtimmi", 161), ("opcmpgei", 162),
   ("opcmpgeimmi", 163), ("opisnanf", 164), ("opchecktag", 165), ("optypebits", 166),
   ("opisnull", 167), ("opisnotnull", 168), ("opistrue", 169), ("opisfalse", 170),
   ("opeqslice", 171), ("opequalv", 172), ("opeqv4mask", 173), ("opeqv4maskplus", 174),
   ("opeqv8", 175), ("opeqv8plus", 176), ("opleneq", 177), ("opdateaddmonth", 178),
   ("opdateaddmonthimm", 179), ("opdateaddyear", 180), ("opdateaddquarter", 181),
   ("opdatediffparam", 182), ("opdatediffmonthyear", 183), ("opdateextractmicrosecond", 184),
   ("opdateextractmillisecond", 185), ("opdateextractsecond", 186), ("opdateextractminute", 187),
   ("opdateextracthour", 188), ("opdateextractday", 189), ("opdateextractdow", 190),
   ("opdateextractdoy", 191), ("opdateextractmonth", 192), ("opdateextractquarter", 193),
   ("opdateextractyear", 194), ("opdatetounixepoch", 195), ("opdatetruncmillisecond", 196),
   ("opdatetruncsecond", 197), ("opdatetruncminute", 198), ("opdatetrunchour", 199),
   ("opdatetruncday", 200), ("opdatetruncdow", 201), ("opdatetruncmonth", 202),
   ("opdatetruncquarter", 203), ("opdatetruncyear", 204), ("opunboxts", 205), ("opboxts", 206),
   ("optimelt", 207), ("optimegt", 208), ("opconsttm", 209), ("optmextract", 210),
   ("opwidthbucketf", 211), ("opwidthbucketi", 212), ("optimebucketts", 213), ("opgeohash", 214),
   ("opgeohashimm", 215), ("opgeotilex", 216), ("opgeotiley", 217), ("opgeotilees", 218),
   ("opgeotileesimm", 219), ("opgeodistance", 220), ("opconcatlenget1", 221),
   ("opconcatlenget2", 222), ("opconcatlenget3", 223), ("opconcatlenget4", 224),
   ("opconcatlenacc1", 225), ("opconcatlenacc2", 226), ("opconcatlenacc3", 227),
   ("opconcatlenacc4", 228), ("opallocstr", 229), ("opappendstr", 230), ("opfindsym", 231),
   ("opfindsym2", 232), ("opfindsym2rev", 233), ("opfindsym3", 234), ("opblendv", 235),
   ("opblendrevv", 236), ("opblendnum", 237), ("opblendnumrev", 238), ("opblendslice", 239),
   ("opblendslicerev", 240), ("opunpack", 241), ("opunsymbolize", 242), ("opunboxktoi64", 243),
   ("opunboxcoercef64", 244), ("opunboxcoercei64", 245), ("opunboxcvtf64", 246),
   ("opunboxcvti64", 247), ("optoint", 248), ("optof64", 249), ("opboxfloat", 250),
   ("opboxint", 251), ("opboxmask", 252), ("opboxmask2", 253), ("opboxmask3", 254),
   ("opboxstring", 255), ("opboxlist", 256), ("opmakelist", 257), ("opmakestruct", 258),
   ("ophashvalue", 259), ("ophashvalueplus", 260), ("ophashmember", 261), ("ophashlookup", 262),
   ("opaggandk", 263), ("opaggork", 264), ("opaggsumf", 265), ("opaggsumi", 266),
   ("opaggminf", 267), ("opaggmini", 268), ("opaggmaxf", 269), ("opaggmaxi", 270),
   ("opaggandi", 271), ("opaggori", 272), ("opaggxori", 273), ("opaggcount", 274),
   ("opaggbucket", 275), ("opaggslotandk", 276), ("opaggslotork", 277), ("opaggslotaddf", 278),
   ("opaggslotaddi", 279), ("opaggslotavgf", 280), ("opaggslotavgi", 281),
   ("opaggslotminf", 282), ("opaggslotmini", 283), ("opaggslotmaxf", 284),
   ("opaggslotmaxi", 285), ("opaggslotandi", 286), ("opaggslotori", 287), ("opaggslotxori", 288),
   ("opaggslotcount", 289), ("oplitref", 290), ("opauxval", 291), ("opsplit", 292),
   ("optuple", 293), ("opdupv", 294), ("opzerov", 295), ("opobjectsize", 296),
   ("opCmpStrEqCs", 297), ("opCmpStrEqCi", 298), ("opCmpStrEqUTF8Ci", 299),
   ("opSkip1charLeft", 300), ("opSkip1charRight", 301), ("opSkipNcharLeft", 302),
   ("opSkipNcharRight", 303), ("opTrimWsLeft", 304), ("opTrimWsRight", 305),
   ("opTrim4charLeft", 306), ("opTrim4charRight", 307), ("opContainsSuffixCs", 308),
   ("opContainsSuffixCi", 309), ("opContainsSuffixUTF8Ci", 310), ("opContainsPrefixCs", 311),
   ("opContainsPrefixCi", 312), ("opContainsPrefixUTF8Ci", 313), ("opLengthStr", 314),
   ("opSubstr", 315), ("opSplitPart", 316), ("opMatchpatCs", 317), ("opMatchpatCi", 318),
   ("opMatchpatUTF8Ci", 319), ("opIsSubnetOfIP4", 320), ("opDfaT6", 321), ("opDfaT7", 322),
   ("opDfaT8", 323), ("opDfaT6Z", 324), ("opDfaT7Z", 325), ("opDfaT8Z", 326), ("opDfaLZ", 327),
   ("opslower", 328), ("opsupper", 329), ("opsadjustsize", 330), ("opaggapproxcount", 331),
   ("optrap", 332)]

/-- The constant `_maxbcop` of ops_gen.go. -/
def _maxbcop : Nat := 333

/-- An opcode found in the assembly source (`type opcode struct` of genops.go). -/
structure opcode where
  name : String
  offset : Int
  deriving DecidableEq

/-- The constant `autogenerated` of genops.go. -/
def autogenerated : String := "// Code generated automatically; DO NOT EDIT"

/-- The loop `for i := range ops` of `generateGoFile`, from index `i` on: one
line per opcode, with the value `i`. -/
def constLines : Nat → List opcode → List String
  | _, [] => []
  | i, o :: rest => ("\top" ++ o.name ++ " bcop = " ++ toString i) :: constLines (i + 1) rest

/-- The function `generateGoFile` of genops.go: the lines written to the file. -/
def generateGoFile (ops : List opcode) : List String :=
  ["package vm", "", autogenerated, "", "const ("] ++ constLines 0 ops ++
    ["\t_maxbcop = " ++ toString ops.length, ")"]

/-- The constants that a generated file declares: `op` followed by the name of
the opcode, with the value written for it, from index `i` on. -/
def declaredFrom : Nat → List opcode → List (String × bcop)
  | _, [] => []
  | i, o :: rest => ("op" ++ o.name, i) :: declaredFrom (i + 1) rest

/-!
# Part VI: the header of the tenant protocol (`tenant/tnproto/reader.go`)

A byte is a natural number below 256; a byte array or slice is the list of its
bytes, and a write through a slice of an array is a new list for the array.
-/

/-- The constant `HeaderSize`. -/
def HeaderSize : Nat := 96

/-- The constant `IDSize`. -/
def IDSize : Nat := 24

/-- The constant `KeySize`. -/
def KeySize : Nat := 32

/-- The constant `magicOffset`. -/
def magicOffset : Nat := 0

/-- The constant `magicSize`. -/
def magicSize : Nat := 8

/-- The constant `idOffset`. -/
def idOffset : Nat := magicOffset + magicSize

/-- The constant `keyOffset`. -/
def keyOffset : Nat := idOffset + IDSize

/-- The constant `headerMagic`. -/
def headerMagic : Nat := 0xf02edb72b983e448

/-- The builtin `copy(dst, src)`: the contents of `dst` after the copy of the
first `min(len(dst), len(src))` elements of `src` over its start. -/
def copyBytes (dst src : List Nat) : List Nat :=
  src.take dst.length ++ dst.drop src.length

/-- The copy `copy(a[off:], src)` into the slice of an array from `off` on: the
contents of the array after it. -/
def copyAt (a : List Nat) (off : Nat) (src : List Nat) : List Nat :=
  a.take off ++ copyBytes (a.drop off) src

/-- The 8 bytes of a 64-bit number, least significant first (what
`binary.LittleEndian.PutUint64` stores). -/
def le64 (v : Nat) : List Nat :=
  (List.range 8).map fun i => (v >>> (8 * i)) % 256

/-- The number read by `binary.LittleEndian.Uint64(b)` from the first 8 bytes
of `b`, least significant first. -/
def Uint64 (b : List Nat) : Nat :=
  ((List.range 8).map fun i => b.getD i 0 <<< (8 * i)).sum

/-- The tenant identifier (`type ID [IDSize]byte`), as the list of its bytes. -/
abbrev ID := List Nat

/-- The tenant key (`type Key [KeySize]byte`), as the list of its bytes. -/
abbrev Key := List Nat

/-- The zero value `ID{}`. -/
def zeroID : ID := List.replicate IDSize 0

/-- The zero value `Key{}`. -/
def zeroKey : Key := List.replicate KeySize 0

/-- The method `ID.IsZero`. -/
def ID.IsZero (id : ID) : Bool := id == zeroID

/-- The method `Key.IsZero`. -/
def Key.IsZero (k : Key) : Bool := k == zeroKey

/-- The header (`type header struct`): the bytes of `body`. -/
structure header where
  body : List Nat
  deriving DecidableEq

/-- The method `header.validate`: the error, or none for nil. -/
def header.validate (h : header) : Option String :=
  if Uint64 (h.body.drop magicOffset) ≠ headerMagic then
    some "magic is not valid header magic"
  else none

/-- The method `header.ID`. -/
def header.ID (h : header) : Sneller.ID := copyBytes zeroID (h.body.drop idOffset)

/-- The method `header.Key`. -/
def header.Key (h : header) : Sneller.Key := copyBytes zeroKey (h.body.drop keyOffset)

/-- The method `header.populate`. -/
def header.populate (h : header) (id : Sneller.ID) (key : Sneller.Key) : header :=
  ⟨copyAt (copyAt (copyAt h.body magicOffset (le64 headerMagic)) idOffset id) keyOffset key⟩

/-- The call `io.ReadFull(src, buf)` on a connection that delivers the bytes
`src` before it ends or fails: the buffer filled with the first `n` of them,
or the error of the short read. -/
def readFull (src : List Nat) (n : Nat) : Except String (List Nat) :=
  if src.length < n then .error (if src.length = 0 then "EOF" else "unexpected EOF")
  else .ok (src.take n)

/-- The function `ReadHeader`, on a connection that delivers the bytes `src`:
the ID, the key and the error (none for nil) that it returns. -/
def ReadHeader (src : List Nat) : ID × Key × Option String :=
  match readFull src HeaderSize with
  | .error e => (zeroID, zeroKey, some e)
  | .ok body =>
    let hdr : header := ⟨body⟩
    if hdr.Key.IsZero && !hdr.ID.IsZero then (zeroID, zeroKey, some "zero key")
    else (hdr.ID, hdr.Key, hdr.validate)

/-- A message of 96 bytes, each 1: the magic is not the header magic. -/
def exBadMagic : List Nat := List.replicate 96 1

/-- A populated header: the ID of bytes 7 and the key of bytes 9 over a body of
bytes 5. -/
def exHeader : header := (header.mk (List.replicate 96 5)).populate
  (List.replicate 24 7) (List.replicate 32 9)

/-!
# Part VII: the field selection of the decoder (`ion/zion/decoder.go`)

Slices of strings live in a heap of backing arrays, so that what a call writes
through one slice can be read through another: a slice is the address of its
array, an offset, a length and a capacity, and the arrays are numbered in the
order of their allocation.
-/

/-- A slice of strings (`[]string`): the backing array (none for the nil
slice), the offset of the slice in it, its length and its capacity. -/
structure StrSlice where
  arr : Option Nat
  off : Nat
  len : Nat
  cap : Nat
  deriving DecidableEq

/-- The backing arrays, by address. -/
abbrev Heap := List (List String)

/-- The nil slice. -/
def StrSlice.nil : StrSlice := ⟨none, 0, 0, 0⟩

/-- The elements of a slice. -/
def Heap.read (m : Heap) (s : StrSlice) : List String :=
  match s.arr with
  | none => []
  | some a => ((m.getD a []).drop s.off).take s.len

/-- The heap after `vals` is stored through a slice, from its first element on. -/
def Heap.writeAt (m : Heap) (s : StrSlice) (vals : List String) : Heap :=
  match s.arr with
  | none => m
  | some a =>
    m.set a ((m.getD a []).take s.off ++ vals ++ (m.getD a []).drop (s.off + vals.length))

/-- The slice expression `s[:n]` (`n` is at most the capacity wherever it is
used below). -/
def StrSlice.upTo (s : StrSlice) (n : Nat) : StrSlice := { s with len := n }

/-- The function `slices.Grow(s, n)` of the library: the same slice when `n`
more elements fit in its capacity, otherwise a slice of the same length over
a new array that starts with the elements of the old one up to its capacity
and has room for `n` more elements after the length. -/
def slicesGrow (m : Heap) (s : StrSlice) (n : Nat) : Heap × StrSlice :=
  if n ≤ s.cap - s.len then (m, s)
  else
    (m ++ [m.read (s.upTo s.cap) ++ List.replicate (n - (s.cap - s.len)) ""],
      ⟨some m.length, 0, s.len, s.len + n⟩)

/-- The builtin `copy(dst, src)` on slices of strings: the heap after it. -/
def copyStr (m : Heap) (dst src : StrSlice) : Heap :=
  m.writeAt dst ((m.read src).take dst.len)

/-- The function `slices.Sort` of the library on a list of strings: the
ascending arrangement of its elements, in the order of strings (by code
points, which is the order of Go on the bytes of UTF-8). -/
def slicesSort (l : List String) : List String := l.insertionSort (· ≤ ·)

/-- The function `slices.Compact` of the library on a list: each run of equal
consecutive elements is replaced by one of them. -/
def slicesCompact (l : List String) : List String := l.destutter (· ≠ ·)

/-- A component of the symbol table (`component`): a name and its symbol. -/
structure component where
  name : String
  symbol : Nat
  deriving DecidableEq

/-- The symbol `^ion.Symbol(0)`, all bits set. -/
def noSymbol : Nat := 2 ^ 64 - 1

/-- Modelled from the spec: the symbol table of the decoder (`symtab`, declared
in a file that is absent from the sources), with the two fields that
decoder.go names. -/
structure symtab where
  components : List component
  selected : List Nat
  deriving DecidableEq

/-- The decoder (`type Decoder struct`), without the scratch areas of the
assembly (`nums`, `base`, `shape`, `buckets`): the byte slices `out` and `tmp`
by their contents, the writer `dst` by a number. -/
structure Decoder where
  TargetWriteSize : Int
  out : List Nat
  tmp : List Nat
  dst : Option Nat
  nn : Int
  fault : Int
  st : symtab
  components : StrSlice
  precise : Bool
  deriving DecidableEq

/-- The zero value of `Decoder`. -/
def Decoder.zero : Decoder :=
  ⟨0, [], [], none, 0, 0, ⟨[], []⟩, StrSlice.nil, false⟩

/-- The method `Reset`; `reset` is the method `reset` of the symbol table
(absent from the sources). -/
def Decoder.Reset (reset : symtab → symtab) (d : Decoder) : Decoder :=
  { d with
    TargetWriteSize := 0
    components := StrSlice.nil
    st := reset d.st
    out := []
    tmp := []
    dst := none
    fault := 0 }

/-- The method `SetWildcard`. -/
def Decoder.SetWildcard (d : Decoder) : Decoder :=
  { d with
    precise := false
    components := d.components.upTo 0
    st := { d.st with components := [] } }

/-- The method `Wildcard`. -/
def Decoder.Wildcard (d : Decoder) : Bool := !d.precise

/-- The method `SetComponents`, on the heap `m` that holds the slice `x` of the
caller and the array of `d.components`: the heap and the decoder after it. -/
def Decoder.SetComponents (m : Heap) (d : Decoder) (x : StrSlice) : Heap × Decoder :=
  let g := slicesGrow m (d.components.upTo 0) x.len
  let c := g.2.upTo x.len
  let m1 := copyStr g.1 c x
  let m2 := m1.writeAt c (slicesSort (m1.read c))
  let m3 := m2.writeAt c (slicesCompact (m2.read c))
  let c3 := c.upTo (slicesCompact (m2.read c)).length
  (m3, { d with
    components := c3
    precise := true
    st := { d.st with components := (m3.read x).map fun n => ⟨n, noSymbol⟩ } })

/-- A call of one of the methods that assign the selection of the decoder. -/
inductive DecoderCall
  | Reset
  | SetWildcard
  | SetComponents (x : StrSlice)
  deriving DecidableEq

/-- The heap and the decoder after a call. -/
def DecoderCall.run (reset : symtab → symtab) (c : DecoderCall) (s : Heap × Decoder) :
    Heap × Decoder :=
  match c with
  | .Reset => (s.1, s.2.Reset reset)
  | .SetWildcard => (s.1, s.2.SetWildcard)
  | .SetComponents x => s.2.SetComponents s.1 x

/-- The heap and the decoder after a sequence of calls. -/
def runCalls (reset : symtab → symtab) (cs : List DecoderCall) (s : Heap × Decoder) :
    Heap × Decoder :=
  cs.foldl (fun s c => c.run reset s) s

/-- The wildcard flag after a sequence of calls, in the words of the
documentation: `SetWildcard` sets it, `SetComponents` clears it, and it is as
it was after any other call. -/
def wildcardAfter (cs : List DecoderCall) (w : Bool) : Bool :=
  cs.foldl (fun w c =>
    match c with
    | .SetWildcard => true
    | .SetComponents _ => false
    | .Reset => w) w

/-- A heap with the array of a caller: `["b", "a", "b"]` at address 0. -/
def exHeap : Heap := [["b", "a", "b"]]

/-- The slice of the caller over the whole array at address 0. -/
def exSlice : StrSlice := ⟨some 0, 0, 3, 3⟩

/-- A symbol table `reset` that keeps the components and forgets the selection. -/
def exReset (st : symtab) : symtab := { st with selected := [] }

/-- A slice that lies within the heap: its array is allocated and holds its
capacity from its offset on; the nil slice is empty. -/
def StrSlice.validIn (s : StrSlice) (m : Heap) : Bool :=
  match s.arr with
  | none => s.len == 0 && s.cap == 0
  | some a => decide (a < m.length) && decide (s.len ≤ s.cap) &&
      decide (s.off + s.cap ≤ (m.getD a []).length)

/-- Two slices that do not share a backing array. -/
def StrSlice.disjoint (s t : StrSlice) : Bool :=
  match s.arr, t.arr with
  | some a, some b => a != b
  | _, _ => true

/-!
# Part VIII: the two-level case table of `vm/_generate/strcase.go`

A rune is an integer (`int32`); the conversions to `uint32` and `uint16` and
the `int32` sum of `transform` are written out. A Go string is a string; a
string that is not valid UTF-8 decodes like the string of the replacement
character. A nil result stands for a run-time panic.
-/

/-- The constant `totalBits`. -/
def totalBits : Nat := 17

/-- The constant `tableBits`. -/
def tableBits : Nat := 8

/-- The constant `tableSize`. -/
def tableSize : Nat := 1 <<< tableBits

/-- The constant `tableMask`. -/
def tableMask : Nat := tableSize - 1

/-- The constant `lookupBits`. -/
def lookupBits : Nat := totalBits - tableBits

/-- The constant `lookupSize`. -/
def lookupSize : Nat := 1 <<< lookupBits

/-- The constant `lookupMask`. -/
def lookupMask : Nat := lookupSize - 1

/-- The conversion `uint32(x)`. -/
def toUint32 (x : Int) : Nat := (x % 2 ^ 32).toNat

/-- The conversion `uint16(x)`. -/
def toUint16 (x : Int) : Nat := (x % 2 ^ 16).toNat

/-- The value of a sum in `int32`. -/
def toInt32 (x : Int) : Int := (x + 2 ^ 31) % 2 ^ 32 - 2 ^ 31

/-- The function `utf8.ValidRune`: a rune that is not negative, is not a
surrogate (`0xD800` to `0xDFFF`) and is at most `0x10FFFF`. -/
def ValidRune (r : Int) : Bool :=
  match r with
  | .ofNat n => n < 0xD800 || (0xDFFF < n && n ≤ 0x10FFFF)
  | .negSucc _ => false

/-- The conversion `string(r)` of a rune. -/
def runeString (r : Nat) : String := String.singleton (Char.ofNat r)

/-- The function `utf8.DecodeRuneInString`: the first rune of the string, the
replacement character for the empty string. -/
def DecodeRuneInString (s : String) : Int :=
  match s.data with
  | [] => 0xFFFD
  | c :: _ => c.toNat

/-- The second-level table of one row (`type Bucket struct`). -/
structure Bucket where
  values : List Int

/-- The function `NewBucket`. -/
def NewBucket : Bucket := ⟨List.replicate tableSize 0⟩

/-- The method `Bucket.set`; nil when it panics. -/
def Bucket.set (b : Bucket) (index : Nat) (diff : Int) : Option Bucket :=
  if b.values.getD index 0 ≠ 0 ∧ b.values.getD index 0 ≠ diff then none
  else some ⟨b.values.set index diff⟩

/-- The loop of `Bucket.First` from index `i` on. -/
def firstFrom : List Int → Nat → Int
  | [], _ => -1
  | v :: vs, i => if v ≠ 0 then i else firstFrom vs (i + 1)

/-- The method `Bucket.First`. -/
def Bucket.First (b : Bucket) : Int := firstFrom b.values 0

/-- The loop of `Bucket.Last` from index `i` on, `last` being the last index
found so far. -/
def lastFrom : List Int → Nat → Int → Int
  | [], _, last => last
  | v :: vs, i, last => lastFrom vs (i + 1) (if v ≠ 0 then i else last)

/-- The method `Bucket.Last`. -/
def Bucket.Last (b : Bucket) : Int := lastFrom b.values 0 (-1)

/-- The method `Bucket.empty`. -/
def Bucket.empty (b : Bucket) : Bool := b.First == -1

/-- The method `Bucket.size`. -/
def Bucket.size (b : Bucket) : Int :=
  if b.First = -1 then 0 else b.Last - b.First + 1

/-- One turn of the loop of `build`, for the rune `r`; the map `buckets` is the
function that gives the bucket of a row, nil when the row has none. -/
def buildStep (fn : String → String) (buckets : Nat → Option Bucket) (r : Nat) :
    Option (Nat → Option Bucket) :=
  if !ValidRune r then some buckets
  else
    let diff : Int := DecodeRuneInString (fn (runeString r)) - r
    if diff = 0 then some buckets
    else
      let row := toUint32 r >>> tableBits
      let col := toUint32 r &&& tableMask
      match buckets row with
      | some bucket => (bucket.set col diff).map fun b => Function.update buckets row (some b)
      | none => (NewBucket.set col diff).map fun b => Function.update buckets row (some b)

/-- The loop of `build`: `k` more turns, from the rune `r` on. -/
def buildLoop (fn : String → String) :
    Nat → Nat → (Nat → Option Bucket) → Option (Nat → Option Bucket)
  | 0, _, buckets => some buckets
  | k + 1, r, buckets =>
    match buildStep fn buckets r with
    | none => none
    | some b => buildLoop fn k (r + 1) b

/-- The function `build`. -/
def build (fn : String → String) : Option (Nat → Option Bucket) :=
  buildLoop fn 0x1ffff 0 fun _ => none

/-- An entry of the first-level table (`type LookupItem struct`). -/
structure LookupItem where
  offset : Nat
  lo : Nat
  hi : Nat
  deriving DecidableEq

/-- The two-level table (`type LookupDiff struct`). -/
structure LookupDiff where
  lookup : List LookupItem
  values : List Int

/-- One turn of the first loop of `assembleStructure`, for the row `i`: the
entry `lookup[i]` and the running `offset` after it. -/
def lookupStep (buckets : Nat → Option Bucket) (i : Nat) (offset : Int) : LookupItem × Int :=
  match buckets i with
  | none => (⟨0, 255, 0⟩, offset)
  | some v =>
    if !v.empty then
      (⟨toUint32 offset, toUint16 v.First, toUint16 v.Last⟩, offset + v.size)
    else (⟨0, 0, 0⟩, offset)

/-- The first loop of `assembleStructure`: `k` more turns, from the row `i` on,
with the entries `lookup[0]`, ..., `lookup[i-1]` and the running `offset`. -/
def lookupLoop (buckets : Nat → Option Bucket) :
    Nat → Nat → List LookupItem → Int → List LookupItem × Int
  | 0, _, lookup, offset => (lookup, offset)
  | k + 1, i, lookup, offset =>
    lookupLoop buckets k (i + 1) (lookup ++ [(lookupStep buckets i offset).1])
      (lookupStep buckets i offset).2

/-- The slice expression `a[f:l]` of an array of `tableSize` elements; nil when
the bounds are out of range. -/
def sliceOf (a : List Int) (f l : Nat) : Option (List Int) :=
  if f ≤ l ∧ l ≤ tableSize then some ((a.drop f).take (l - f)) else none

/-- One turn of the second loop of `assembleStructure`, for the row `i`. -/
def valuesStep (buckets : Nat → Option Bucket) (lookup : List LookupItem) (i : Nat)
    (vals : List Int) : Option (List Int) :=
  match buckets i with
  | none => some vals
  | some v =>
    if v.empty then some vals
    else
      (sliceOf v.values (lookup.getD i ⟨0, 0, 0⟩).lo
        (((lookup.getD i ⟨0, 0, 0⟩).hi + 1) % 2 ^ 16)).map fun s => vals ++ s

/-- The second loop of `assembleStructure`: `k` more turns, from the row `i`
on, with the values appended so far. -/
def valuesLoop (buckets : Nat → Option Bucket) (lookup : List LookupItem) :
    Nat → Nat → List Int → Option (List Int)
  | 0, _, vals => some vals
  | k + 1, i, vals =>
    match valuesStep buckets lookup i vals with
    | none => none
    | some vals1 => valuesLoop buckets lookup k (i + 1) vals1

/-- The function `assembleStructure`. -/
def assembleStructure (buckets : Nat → Option Bucket) : Option LookupDiff :=
  (valuesLoop buckets (lookupLoop buckets lookupSize 0 [] 0).1 lookupSize 0 []).map fun vals =>
    ⟨(lookupLoop buckets lookupSize 0 [] 0).1, vals⟩

/-- The method `LookupDiff.transform`; nil when an index is out of range. -/
def LookupDiff.transform (ld : LookupDiff) (r : Int) : Option Int :=
  let v := toUint32 r
  let row := v >>> tableBits
  if row > lookupMask then some r
  else
    match ld.lookup[row]? with
    | none => none
    | some item =>
      let col := v &&& tableMask
      if ¬ (col ≥ item.lo ∧ col ≤ item.hi) then some r
      else
        match ld.values[(item.offset + col - item.lo) % 2 ^ 32]? with
        | none => none
        | some d => some (toInt32 (r + d))

/-- The loop of `LookupDiff.validate`: `k` more turns, from the rune `r` on,
`err` telling whether an error was found; nil when `transform` panics. -/
def validateLoop (ld : LookupDiff) (fn : String → String) : Nat → Nat → Bool → Option Bool
  | 0, _, err => some err
  | k + 1, r, err =>
    if !ValidRune r then validateLoop ld fn k (r + 1) err
    else
      match ld.transform r with
      | none => none
      | some got =>
        validateLoop ld fn k (r + 1)
          (if DecodeRuneInString (fn (runeString r)) ≠ got then true else err)

/-- The method `LookupDiff.validate`: whether it returns an error. -/
def LookupDiff.validate (ld : LookupDiff) (fn : String → String) : Option Bool :=
  validateLoop ld fn 0x1ffff 0 false

/-- A mapping for the examples: `a` to `A`, any other string to itself. -/
def exUpper (s : String) : String := if s = "a" then "A" else s

/-- The difference of codes that `build` computes for the rune `r`. -/
def runeDiff (fn : String → String) (r : Nat) : Int :=
  DecodeRuneInString (fn (runeString r)) - r

/-- The difference held by the cell of a row and a column once the runes below
`n` have been visited: that of its rune when the rune is among them and is
valid, 0 otherwise. -/
def cellUpTo (fn : String → String) (n row col : Nat) : Int :=
  if row * 256 + col < n ∧ ValidRune ((row * 256 + col : Nat) : Int) = true then
    runeDiff fn (row * 256 + col)
  else 0

/-- The map of buckets holds the differences of the runes below `n`: a row has
a bucket exactly when one of its cells is not 0, and the bucket holds the 256
cells of the row. -/
def BucketsUpTo (fn : String → String) (n : Nat) (m : Nat → Option Bucket) : Prop :=
  (∀ row, m row = none → ∀ col, col < 256 → cellUpTo fn n row col = 0) ∧
  (∀ row b, m row = some b →
    b.values.length = 256 ∧ (∀ col, col < 256 → b.values[col]? = some (cellUpTo fn n row col)) ∧
    ∃ col, col < 256 ∧ cellUpTo fn n row col ≠ 0)

/-- The running `offset` of `assembleStructure` before the row `i`. -/
def offsetOf (buckets : Nat → Option Bucket) : Nat → Int
  | 0 => 0
  | i + 1 => (lookupStep buckets i (offsetOf buckets i)).2

/-- Every bucket of the map has 256 values, not all 0. -/
def BucketsWF (m : Nat → Option Bucket) : Prop :=
  ∀ row b, m row = some b →
    b.values.length = 256 ∧ ∃ col, col < 256 ∧ b.values[col]? ≠ some 0

/-- The values appended for the rows below `i`: as many as the running offset,
and for each row with a bucket the values of the bucket from its first to its
last column, from the offset of the row on. -/
def ValuesUpTo (m : Nat → Option Bucket) (i : Nat) (vals : List Int) : Prop :=
  (vals.length : Int) = offsetOf m i ∧
  ∀ row, row < i → ∀ (b : Bucket) (f l : Nat), m row = some b → b.First = (f : Int) →
    b.Last = (l : Int) → ∀ col, f ≤ col → col ≤ l →
      vals[(offsetOf m row).toNat + col - f]? = b.values[col]?

/-- The value held for a row and a column by a map of buckets: 0 when the row
has no bucket. -/
def cellOf (m : Nat → Option Bucket) (row col : Nat) : Int :=
  match m row with
  | none => 0
  | some b => b.values.getD col 0

/-!
# Part IX: the float arithmetic of the peephole pass (`vm/simplify1.go`)

The rules of `rewrite1` that fold a broadcast constant into the immediate form
of `add.f`, `sub.f`, `mul.f` and `div.f`, read on one lane over exact
arithmetic.
-/

/-- Modelled from the spec: the number a float node computes on one lane, over
exact arithmetic, given the number `fden` of every node on that lane (the
operators are executed by bytecode absent from the sources; the reading
follows their names and the rule `rsub.imm.f f _ 0 -> neg.f f` of
simplify1.go): `broadcast.f` is its immediate; `add.f`, `sub.f`, `mul.f`,
`div.f` combine their first two operands (the third is the mask); the immediate
forms combine their first operand with the immediate, `rsub.imm.f` and
`rdiv.imm.f` with the immediate on the left; any other node is left
uninterpreted. -/
def nodeFloat (fden : Nat → Rat) (n : value) (self : Rat) : Rat :=
  match n.op, n.args with
  | .sbroadcastf, _ => tof64 n.imm
  | .saddf, [a, b, _] => fden a + fden b
  | .ssubf, [a, b, _] => fden a - fden b
  | .smulf, [a, b, _] => fden a * fden b
  | .sdivf, [a, b, _] => fden a / fden b
  | .saddimmf, [f, _] => fden f + tof64 n.imm
  | .ssubimmf, [f, _] => fden f - tof64 n.imm
  | .srsubimmf, [f, _] => tof64 n.imm - fden f
  | .smulimmf, [f, _] => fden f * tof64 n.imm
  | .sdivimmf, [f, _] => fden f / tof64 n.imm
  | .srdivimmf, [f, _] => tof64 n.imm / fden f
  | _, _ => self

/-- An assignment of a number to every node is a model of the program (on one
lane) when every node carries the number its operator computes. -/
def FloatModel (p : prog) (fden : Nat → Rat) : Prop :=
  ∀ v, fden v = nodeFloat fden (p.node v) (fden v)

/-- The immediate form that takes the constant as right operand: `add.imm.f`,
`sub.imm.f`, `mul.imm.f`, `div.imm.f`. -/
def immediateForm : ssaop → ssaop
  | .saddf => .saddimmf
  | .ssubf => .ssubimmf
  | .smulf => .smulimmf
  | .sdivf => .sdivimmf
  | op => op

/-- The immediate form that takes the constant as left operand: the reversed
`rsub.imm.f`, `rdiv.imm.f` for the non-commutative operators, the same
`add.imm.f`, `mul.imm.f` for the commutative ones. -/
def reversedForm : ssaop → ssaop
  | .saddf => .saddimmf
  | .ssubf => .srsubimmf
  | .smulf => .smulimmf
  | .sdivf => .srdivimmf
  | op => op

/-- The program `init; x := dot; c := broadcast.f 3; sub.f c x init`. -/
def exFoldProg : prog :=
  ⟨[⟨.sinit, [], .nil⟩, ⟨.sdot, [], .str "x"⟩, ⟨.sbroadcastf, [], .float 3⟩,
    ⟨.ssubf, [2, 1, 0], .nil⟩]⟩

/-- A lane of `exFoldProg` on which `x` is 5. -/
def exFoldDen : Nat → Rat := fun i => if i = 1 then 5 else if i = 2 then 3 else if i = 3 then -2 else 0

/-!
# Part X: the opcode address table (`vm/_generate/genops.go`)

The generator parses the assembly source into the list of opcodes and writes
three files from it.  A file is the list of its lines.  `int` and `int64` are
64-bit: additions and doublings wrap.
-/

/-- The value a 64-bit signed integer takes after an operation whose exact
result is `x` (two's complement wrap-around). -/
def wrap64 (x : Int) : Int :=
  (x + 9223372036854775808) % 18446744073709551616 - 9223372036854775808

/-- The loop `for n < x { n *= 2 }` of `nextPower`, from the value `n`, run for
at most `fuel` tests of its condition: `none` when the loop has not ended by
then. -/
def nextPowerLoop : Nat → Int → Int → Option Int
  | 0, _, _ => none
  | fuel + 1, x, n => if n < x then nextPowerLoop fuel x (wrap64 (n * 2)) else some n

/-- The function `nextPower` of genops.go (`n := 1`, then the loop); 66 tests
of the condition are enough for every 64-bit `x` on which the loop ends. -/
def nextPower (x : Int) : Option Int := nextPowerLoop 66 x 1

/-- The loop of `parseAsmFile` over the lines of the source, each given with
the submatch of the regular expression when the line matches it: a matching
line appends an opcode at the current offset and advances the offset by 8. -/
def parseLoop : List (Option String) → Int → List opcode
  | [], _ => []
  | none :: rest, ofs => parseLoop rest ofs
  | some name :: rest, ofs => ⟨name, ofs⟩ :: parseLoop rest (wrap64 (ofs + 8))

/-- The function `parseAsmFile` of genops.go, on a file that is read without
error. -/
def parseAsmFile (lines : List (Option String)) : List opcode := parseLoop lines 0

/-- The digits of `%x`. -/
def hexDigits (n : Nat) : String := String.mk (Nat.toDigits 16 n)

/-- The formats `%03x` and `%04x` of an integer: hexadecimal, padded with
zeros to the width `w`, the sign counting in the width. -/
def fmtHex (w : Nat) (x : Int) : String :=
  match x with
  | .ofNat n => String.mk (List.replicate (w - (hexDigits n).length) '0') ++ hexDigits n
  | .negSucc n =>
    "-" ++ String.mk (List.replicate (w - 1 - (hexDigits (n + 1)).length) '0') ++
      hexDigits (n + 1)

/-- One 8-byte entry of the table: the line
`DATA opaddrs+0x%03x(SB)/8, $bc%s(SB)` of `generateAsmFile`. -/
def dataLine (offset : Int) (name : String) : String :=
  "DATA opaddrs+0x" ++ fmtHex 3 offset ++ "(SB)/8, $bc" ++ name ++ "(SB)"

/-- The line `GLOBL opaddrs(SB), RODATA|NOPTR, $0x%04x` that declares the size
of the table. -/
def globlLine (size : Int) : String :=
  "GLOBL opaddrs(SB), RODATA|NOPTR, $0x" ++ fmtHex 4 size

/-- The loop `for i := len(ops); i < n; i++` of `generateAsmFile`, with `count`
iterations left: each advances the offset by 8 and writes a trap entry; the
result is the lines written and the offset after the loop. -/
def trapLoop : Nat → Int → List String × Int
  | 0, offset => ([], offset)
  | count + 1, offset =>
    let r := trapLoop count (wrap64 (offset + 8))
    (dataLine (wrap64 (offset + 8)) "trap" :: r.1, r.2)

/-- The four lines `generateAsmFile` writes first. -/
def asmPrologue : List String := ["#include \"textflag.h\"", "", autogenerated, ""]

/-- The function `generateAsmFile` of genops.go: the lines written to the file;
`none` when `ops[len(ops)-1]` is out of range (no opcode) or `nextPower` does
not return. -/
def generateAsmFile (ops : List opcode) : Option (List String) :=
  match ops.getLast? with
  | none => none
  | some last =>
    (nextPower (ops.length : Int)).map fun n =>
      let t := trapLoop (n - (ops.length : Int)).toNat last.offset
      asmPrologue ++
        ops.map (fun o => dataLine o.offset o.name) ++ t.1 ++ [globlLine (wrap64 (t.2 + 8))]

/-- The function `generateAsmHeader` of genops.go: the lines written to the
file; `none` when `nextPower` does not return. -/
def generateAsmHeader (ops : List opcode) : Option (List String) :=
  (nextPower (ops.length : Int)).map fun n =>
    [autogenerated, "#define OPMASK 0x" ++ fmtHex 3 (wrap64 (n - 1))]

/-- The entry the table is to hold at index `i`: the opcode `i`, or the trap
past the last opcode. -/
def entryName (ops : List opcode) (i : Nat) : String :=
  match ops.get? i with
  | some o => o.name
  | none => "trap"

/-- The lines of a source with three opcodes. -/
def exAsmLines : List (Option String) := [some "ret", none, some "jz", some "loadk"]

/-!
# Part XI: the bucket memory and the walk of the decoder (`ion/zion/decoder.go`)

A byte slice is the list of its bytes, with its capacity taken equal to its
length where only its contents matter, and given by its length and capacity
where only its size matters.  The assembly routines and the package `zll` are
absent from the sources: their results are inputs of the model.
-/

/-- The fields of `zll.Buckets` that `zip` reads: the start of each bucket in
the decompressed memory (negative when the bucket is not present) and that
memory. -/
structure Buckets where
  Pos : List Int
  Decompressed : List Nat
  deriving DecidableEq

/-- The slice expression `s[lo:hi]` on bytes; `none` when the bounds are out of
range (a run-time panic). -/
def sliceBytes (s : List Nat) (lo hi : Int) : Option (List Nat) :=
  if 0 ≤ lo ∧ lo ≤ hi ∧ hi ≤ s.length then some ((s.take hi.toNat).drop lo.toNat) else none

/-- The statements of the single-component path of `zip` from
`pos := d.buckets.Pos[bucket]` to the call of `zipfast1`: the memory `mem`
handed to the assembly, for the bucket `bucket` of the symbol (`NumBuckets` is
the constant of `zll`); `none` when an index or a slice bound is out of range. -/
def zipMem (NumBuckets : Nat) (b : Buckets) (bucket : Nat) : Option (List Nat) :=
  match b.Pos[bucket]? with
  | none => none
  | some pos =>
    match sliceBytes b.Decompressed pos b.Decompressed.length with
    | none => none
    | some mem =>
      if bucket < NumBuckets - 1 then
        match b.Pos[bucket + 1]? with
        | none => none
        | some next => if 0 ≤ next then sliceBytes b.Decompressed 0 next else some mem
      else some mem

/-- The memory of the bucket as the specification words it:
`Decompressed[Pos[bucket] : end]`, where `end` is `Pos[bucket+1]` when the next
bucket is present and `len(Decompressed)` otherwise. -/
def bucketMem (NumBuckets : Nat) (b : Buckets) (bucket : Nat) : Option (List Nat) :=
  match b.Pos[bucket]? with
  | none => none
  | some pos =>
    if bucket < NumBuckets - 1 ∧ 0 ≤ b.Pos.getD (bucket + 1) (-1) then
      sliceBytes b.Decompressed pos (b.Pos.getD (bucket + 1) (-1))
    else sliceBytes b.Decompressed pos b.Decompressed.length

/-- Four buckets of which the second and the third are present, at 4 and 8 of
twelve bytes of memory. -/
def exBuckets : Buckets := ⟨[-1, 4, 8, -1], [10, 11, 12, 13, 20, 21, 22, 23, 30, 31, 32, 33]⟩

/-! ## The walk over the shape -/

/-- The constant `noFault`. -/
def noFault : Int := 0

/-- The constant `faultTooLarge`. -/
def faultTooLarge : Int := 1

/-- The constant `faultBadData`. -/
def faultBadData : Int := 2

/-- The errors `walk` returns: `errCorrupt`, `errNoProgress`, or the error of
the writer `d.dst`. -/
inductive WalkErr
  | errCorrupt
  | errNoProgress
  | writeErr (code : Nat)
  deriving DecidableEq

/-- The ways a call of `walk` ends: it returns nil, returns an error, or
panics. -/
inductive WalkResult
  | nil
  | err (e : WalkErr)
  | panic (msg : String)
  deriving DecidableEq

/-- What a call of `zip` reports: the two results and the fault field of the
decoder after the call. -/
structure ZipOut where
  consumed : Int
  wrote : Int
  fault : Int
  deriving DecidableEq

/-- The state `walk` works on: the rest of the shape, the length and the
capacity of `d.out`, `d.nn`, `d.fault`, and the numbers of calls made so far to
`zip` and to the writer. -/
structure WalkState where
  shape : List Nat
  outLen : Nat
  outCap : Nat
  nn : Int
  fault : Int
  calls : Nat
  writes : Nat
  deriving DecidableEq

/-- What `walk` calls and cannot be read in the sources: the constant
`zll.MaxBucketSize`; whether `d.dst` is set; `zip`, as a function of the number
of the call, the shape, the length and capacity of `d.out` and the fault field
before the call; `d.dst.Write`, as a function of the number of the call and of
the length written; and the capacity `slices.Grow` allocates beyond the one
asked for, by the number of the `zip` call. -/
structure WalkEnv where
  MaxBucketSize : Int
  hasDst : Bool
  zip : Nat → List Nat → Nat → Nat → Int → ZipOut
  write : Nat → Nat → Int × Option Nat
  slack : Nat → Nat

/-- The capacity after `slices.Grow(s, n)` of a slice of length `len` and
capacity `cap`: unchanged when `n` more elements fit, at least `len + n`
otherwise. -/
def growCap (slack len cap n : Nat) : Nat :=
  if n ≤ cap - len then cap else len + n + slack

/-- The body of the loop of `walk`: the state for the next iteration, or the
way the call ends. -/
def walkStep (env : WalkEnv) (s : WalkState) : WalkState ⊕ WalkResult :=
  let z := env.zip s.calls s.shape s.outLen s.outCap s.fault
  let s1 : WalkState := { s with fault := z.fault, calls := s.calls + 1 }
  let afterZip : WalkState ⊕ WalkResult :=
    if 0 < z.consumed then
      if (s.outCap : Int) - s.outLen < z.wrote then .inr (.panic "wrote out-of-bounds")
      else if (s.shape.length : Int) < z.consumed then .inr (.panic "read out-of-bounds")
      else if (s.outLen : Int) + z.wrote < 0 then .inr (.panic "slice bounds out of range")
      else
        let s2 : WalkState :=
          { s1 with
            outLen := ((s.outLen : Int) + z.wrote).toNat
            shape := s.shape.drop z.consumed.toNat }
        if env.hasDst then
          let w := env.write s.writes s2.outLen
          match w.2 with
          | some e => .inr (.err (.writeErr e))
          | none => .inl { s2 with outLen := 0, nn := wrap64 (s2.nn + w.1), writes := s.writes + 1 }
        else .inl s2
    else if 0 < z.wrote then .inr (.panic "consumed == 0 but wrote > 0")
    else .inl s1
  match afterZip with
  | .inr r => .inr r
  | .inl t =>
    if t.fault = faultBadData then .inr (.err .errCorrupt)
    else if t.fault = noFault then
      if z.consumed = 0 then .inr (.err .errNoProgress) else .inl t
    else if t.fault = faultTooLarge then
      if env.hasDst = false ∨ z.consumed = 0 then
        if env.MaxBucketSize ≤ (t.outCap : Int) - t.outLen then .inr (.err .errNoProgress)
        else
          let avail : Nat := if t.outCap - t.outLen = 0 then 1024 else t.outCap - t.outLen
          .inl { t with outCap := growCap (env.slack s.calls) t.outLen t.outCap (avail * 2) }
      else .inl t
    else .inl t

/-- The method `walk`, from the state `s`, for at most `fuel` tests of the
condition `len(shape) > 0`: `none` when the loop has not ended by then. -/
def walkLoop (env : WalkEnv) : Nat → WalkState → Option WalkResult
  | 0, _ => none
  | fuel + 1, s =>
    if s.shape = [] then some .nil
    else
      match walkStep env s with
      | .inl s' => walkLoop env fuel s'
      | .inr r => some r

/-- A number of tests of the loop condition that is enough from the state `s`:
each byte of the shape allows for as many iterations as there are sizes of the
free capacity below `MaxBucketSize`. -/
def walkFuel (env : WalkEnv) (s : WalkState) : Nat :=
  s.shape.length * (env.MaxBucketSize.toNat + 1) +
    (env.MaxBucketSize.toNat - (s.outCap - s.outLen)) + 1

/-- A `zip` that consumes two bytes at a time and asks once for more room. -/
def exWalkEnv : WalkEnv where
  MaxBucketSize := 4096
  hasDst := false
  zip := fun _ shape len cap _ =>
    if cap - len < 8 then ⟨0, 0, faultTooLarge⟩ else ⟨min 2 shape.length, 8, noFault⟩
  write := fun _ n => (n, none)
  slack := fun _ => 0

/-- A `zip` that reports one byte of output for no byte of shape. -/
def exBadZip : WalkEnv where
  MaxBucketSize := 4096
  hasDst := false
  zip := fun _ _ _ _ _ => ⟨0, 1, noFault⟩
  write := fun _ n => (n, none)
  slack := fun _ => 0

/-- A decoder with a writer that fails, and a `zip` that consumes one byte. -/
def exFailWrite : WalkEnv where
  MaxBucketSize := 4096
  hasDst := true
  zip := fun _ _ _ _ _ => ⟨1, 0, noFault⟩
  write := fun _ _ => (0, some 5)
  slack := fun _ => 0

/-- The state at the start of a walk over three bytes of shape with an empty
buffer. -/
def exWalkState : WalkState := ⟨[1, 2, 3], 0, 0, 0, 0, 0, 0⟩

/-!
# Part XII: the incremental scan of a table (`db/scan.go`)

The method `tableState.scan` lists the inputs of a table definition from the
cursors of the index and appends what is new.  The packages it calls are absent
from the sources: what they answer (the listing of each input, every error) is
an input of the model, and what the call does to them is recorded as a trace
of events.  An error that comes from outside `scan.go` is numbered; it is never
the sentinel `errStop`, which is unexported and returned by the callback only.
The collector and the bookkeeping of identifiers (`ids`, `prepend`, `nextID`)
only feed `st.force` and are left out.
-/

/-- The constants `math.MaxInt64` and, on a 64-bit platform, `math.MaxInt`. -/
def MaxInt64 : Int := 9223372036854775807

/-- An error value in `scan`: the sentinel `errStop`, the error
`couldn't determine format of file`, or an error from outside. -/
inductive ScanErr
  | errStop
  | noFormat (path : String)
  | other (code : Nat)
  deriving DecidableEq

/-- What the callback of `scan` meets at one path handed to it, in the order
of its tests: an error passed by `WalkGlob`; `Stat` failing with
`fs.ErrNotExist` or otherwise; `ETag` failing; `c.match` failing;
`Inputs.Append` failing with `ErrETagChanged` or otherwise, or answering that
the file is not new; `Format` failing or returning nil; or the file added,
with its size and the error of `c.add`. -/
inductive Visit
  | walkErr (e : Nat)
  | statNotExist
  | statErr (e : Nat)
  | etagErr (e : Nat)
  | matchErr (e : Nat)
  | etagChanged
  | appendErr (e : Nat)
  | notNew
  | formatErr (e : Nat)
  | formatNil
  | added (size : Int) (addErr : Option Nat)
  deriving DecidableEq

/-- A path handed to the callback, with what the callback meets there. -/
structure Entry where
  path : String
  visit : Visit
  deriving DecidableEq

/-- What a call of `scan` does outside the index: a listing of input `i` from a
cursor, a file appended to the inputs of the index, the flush of the finished
scan with the cursors, the write of the collected parts. -/
inductive Event
  | list (i : Nat) (seek : String)
  | append (path : String)
  | flush (cursors : List String)
  | force
  deriving DecidableEq

/-- The fields of `blockfmt.Index` that `scan` reads or assigns: the hash under
`definition.hash` of the user data (none when absent), the cursors, the flag
`Scanning`, `LastScan` and `Inputs.Backing`. -/
structure Index where
  definitionHash : Option (List Nat)
  Cursors : List String
  Scanning : Bool
  LastScan : Nat
  Backing : Option Nat
  deriving DecidableEq

/-- The fields of `tableState` that `scan` reads: the hash of the definition,
the number of its inputs, the two limits of the configuration and the file
system. -/
structure tableState where
  defHash : List Nat
  inputs : Nat
  MaxScanBytes : Int
  MaxScanObjects : Int
  ofs : Nat
  deriving DecidableEq

/-- What the packages called by `scan` answer: the time, the error of
`c.init`, for each input the errors of `Split` and `toglob`, the entries
`WalkGlob` hands to the callback from a cursor and the error it returns when
the callback has returned none, and the errors of `flushScanDone` and of
`st.force`. -/
structure World where
  now : Nat
  initErr : Option Nat
  splitErr : Nat → Option Nat
  globErr : Nat → Option Nat
  entries : Nat → String → List Entry
  walkErr : Nat → String → Option Nat
  flushErr : Option Nat
  forceErr : Option Nat

/-- The variables the callback shares with the loop: `total`, `size`, `seek`,
and the trace. -/
structure WalkAcc where
  total : Int
  size : Int
  seek : String
  events : List Event
  deriving DecidableEq

/-- The callback `walk` of `scan` at one entry: the variables after the call
and the error returned. -/
def visitEntry (maxInputs maxSize : Int) (a : WalkAcc) (e : Entry) : WalkAcc × Option ScanErr :=
  match e.visit with
  | .walkErr c => (a, some (.other c))
  | .statNotExist => (a, none)
  | .statErr c => (a, some (.other c))
  | .etagErr c => (a, some (.other c))
  | .matchErr c => (a, some (.other c))
  | .etagChanged => (a, none)
  | .appendErr c => (a, some (.other c))
  | .notNew => ({ a with seek := e.path }, none)
  | .formatErr c => ({ a with events := a.events ++ [.append e.path] }, some (.other c))
  | .formatNil => ({ a with events := a.events ++ [.append e.path] }, some (.noFormat e.path))
  | .added size addErr =>
    let a1 : WalkAcc :=
      { a with
        events := a.events ++ [.append e.path]
        total := wrap64 (a.total + 1)
        size := wrap64 (a.size + size) }
    match addErr with
    | some c => (a1, some (.other c))
    | none =>
      if maxInputs ≤ a1.total ∨ maxSize ≤ a1.size then ({ a1 with seek := e.path }, some .errStop)
      else ({ a1 with seek := e.path }, none)

/-- Modelled from the spec: `fsutil.WalkGlob` (absent from the sources) hands
the entries to the callback in order and stops at the first error the callback
returns, which it returns. -/
def walkGlob (maxInputs maxSize : Int) : List Entry → WalkAcc → WalkAcc × Option ScanErr
  | [], a => (a, none)
  | e :: rest, a =>
    match visitEntry maxInputs maxSize a e with
    | (a1, some err) => (a1, some err)
    | (a1, none) => walkGlob maxInputs maxSize rest a1

/-- The variables of the loop of `scan` over the inputs: `total`, `size`,
`complete`, the cursors of the index and the trace. -/
structure LoopState where
  total : Int
  size : Int
  complete : Bool
  cursors : List String
  events : List Event
  deriving DecidableEq

/-- The loop `for i := range st.def.Inputs` of `scan`, from input `i` with
`n` inputs left: the variables after the loop and the error with which `scan`
returns from inside it.  (The cursors have one entry per input when the loop
is reached, so that `idx.Cursors[i]` is in range.) -/
def scanInputs (w : World) (maxInputs maxSize : Int) :
    Nat → Nat → LoopState → LoopState × Option ScanErr
  | 0, _, s => (s, none)
  | n + 1, i, s =>
    if maxInputs ≤ s.total ∨ maxSize ≤ s.size then ({ s with complete := false }, none)
    else
      match w.splitErr i with
      | some e => (s, some (.other e))
      | none =>
        match w.globErr i with
        | some e => (s, some (.other e))
        | none =>
          let seek := s.cursors.getD i ""
          let r := walkGlob maxInputs maxSize (w.entries i seek)
            ⟨s.total, s.size, seek, s.events ++ [.list i seek]⟩
          let err : Option ScanErr :=
            match r.2 with
            | some e => some e
            | none => (w.walkErr i seek).map .other
          let s1 : LoopState :=
            ⟨r.1.total, r.1.size, s.complete, s.cursors.set i r.1.seek, r.1.events⟩
          match err with
          | some .errStop => ({ s1 with complete := false }, none)
          | some e => (s1, some e)
          | none => scanInputs w maxInputs maxSize n (i + 1) s1

/-- The ways a call of `scan` ends: it returns a count and an error (none for
nil), or panics. -/
inductive ScanResult
  | returned (n : Int) (err : Option ScanErr)
  | panicked (msg : String)
  deriving DecidableEq

/-- The method `defChanged`. -/
def defChanged (st : tableState) (idx : Index) : Bool :=
  match idx.definitionHash with
  | none => true
  | some hash => !(st.defHash == hash)

/-- The limit a configuration value stands for: a value that is not positive
means no limit (`math.MaxInt64`, `math.MaxInt`). -/
def scanLimit (x : Int) : Int := if x ≤ 0 then MaxInt64 else x

/-- The first statements of `scan`: when the definition has changed or the
index does not have one cursor per input, the scan starts over. -/
def scanReset (st : tableState) (w : World) (idx : Index) : Index :=
  if defChanged st idx = true ∨ idx.Cursors.length ≠ st.inputs then
    { idx with LastScan := w.now, Cursors := List.replicate st.inputs "", Scanning := true }
  else idx

/-- The statements of `scan` from the end of the loop over the inputs, which
left the variables `r.1` and, when it returned from inside, the error `r.2`. -/
def scanFinish (w : World) (flushOnComplete : Bool) (idx : Index)
    (r : LoopState × Option ScanErr) : ScanResult × Index × List Event :=
  let idx3 : Index := { idx with Cursors := r.1.cursors }
  match r.2 with
  | some e => (.returned 0 (some e), idx3, r.1.events)
  | none =>
    let idx4 : Index := { idx3 with Scanning := !r.1.complete }
    if r.1.total = 0 then
      if idx4.Scanning = true then
        (.panicked "should not be possible: idx.Scanning && total == 0", idx4, r.1.events)
      else if flushOnComplete = true then
        (.returned 0 (w.flushErr.map .other), idx4, r.1.events ++ [.flush idx4.Cursors])
      else (.returned 0 none, idx4, r.1.events)
    else
      match w.forceErr with
      | some e => (.returned 0 (some (.other e)), idx4, r.1.events ++ [.force])
      | none => (.returned r.1.total none, idx4, r.1.events ++ [.force])

/-- The method `tableState.scan`: how the call ends, the index after it, and
the trace of what it did outside the index. -/
def scan (st : tableState) (w : World) (idx : Index) (flushOnComplete : Bool) :
    ScanResult × Index × List Event :=
  let flushOnComplete := if defChanged st idx = true then true else flushOnComplete
  let idx1 := scanReset st w idx
  if idx1.Scanning = false then (.returned 0 none, idx1, [])
  else
    let idx2 : Index := { idx1 with Backing := some st.ofs }
    match w.initErr with
    | some e => (.returned 0 (some (.other e)), idx2, [])
    | none =>
      scanFinish w flushOnComplete idx2
        (scanInputs w (scanLimit st.MaxScanObjects) (scanLimit st.MaxScanBytes) st.inputs 0
          ⟨0, 0, true, idx2.Cursors, []⟩)

/-- A table of two inputs without limits. -/
def exTable : tableState := ⟨[1, 2, 3], 2, 0, 0, 7⟩

/-- An index of `exTable` whose scan has completed. -/
def exDoneIndex : Index := ⟨some [1, 2, 3], ["a/x", "b/y"], false, 5, none⟩

/-- A world in which the first input lists one new file of 10 bytes and the
second nothing. -/
def exWorld : World where
  now := 9
  initErr := none
  splitErr := fun _ => none
  globErr := fun _ => none
  entries := fun i seek => if i = 0 ∧ seek = "" then [⟨"a/x", .added 10 none⟩] else []
  walkErr := fun _ _ => none
  flushErr := none
  forceErr := none

/-- An index of `exTable` that has never been scanned. -/
def exNewIndex : Index := ⟨none, [], false, 0, none⟩

/-! ## Basic facts about the arena -/

theorem node_setssa_self (p : prog) (v : Nat) (op : ssaop) (imm : Imm) (args : List Nat)
    (hv : v < p.values.length) : (p.setssa v op imm args).node v = ⟨op, args, imm⟩ := by
  simp [prog.setssa, prog.node, List.getD_eq_getElem?_getD, List.getElem?_set, hv]

theorem node_setssa_other (p : prog) (v u : Nat) (op : ssaop) (imm : Imm) (args : List Nat)
    (hne : u ≠ v) : (p.setssa v op imm args).node u = p.node u := by
  simp [prog.setssa, prog.node, List.getD_eq_getElem?_getD, List.getElem?_set, Ne.symm hne]

theorem lt_length_of_op (p : prog) (v : Nat) (h : (p.node v).op ≠ .sinvalid) :
    v < p.values.length := by
  by_contra hlt
  apply h
  simp [prog.node, List.getD_eq_getElem?_getD, List.getElem?_eq_none (Nat.le_of_not_lt hlt)]

theorem maskModel_setssa (p : prog) (den : Nat → Bool) (v : Nat) (op : ssaop) (imm : Imm)
    (args : List Nat) (hden : MaskModel p den) (hv : v < p.values.length)
    (hnew : den v = nodeMask den ⟨op, args, imm⟩ (den v)) :
    MaskModel (p.setssa v op imm args) den := by
  intro u
  by_cases hu : u = v
  · subst hu
    simpa [maskSem, node_setssa_self p u op imm args hv] using hnew
  · simpa [maskSem, node_setssa_other p v u op imm args hu] using hden u

theorem den_of_init (p : prog) (den : Nat → Bool) (hden : MaskModel p den) (a : Nat)
    (h : (p.node a).op = .sinit) : den a = true := by
  have := hden a
  simpa [maskSem, nodeMask, h] using this

theorem den_of_kfalse (p : prog) (den : Nat → Bool) (hden : MaskModel p den) (a : Nat)
    (h : (p.node a).op = .skfalse) : den a = false := by
  have := hden a
  simpa [maskSem, nodeMask, h] using this

theorem strModel_setssa (p : prog) (sden : Nat → String) (v : Nat) (op : ssaop) (imm : Imm)
    (args : List Nat) (hden : StrModel p sden) (hv : v < p.values.length)
    (hnew : sden v = nodeStr sden ⟨op, args, imm⟩ (sden v)) :
    StrModel (p.setssa v op imm args) sden := by
  intro u
  by_cases hu : u = v
  · subst hu
    simpa [node_setssa_self p u op imm args hv] using hnew
  · simpa [node_setssa_other p v u op imm args hu] using hden u

theorem sden_of_empty (p : prog) (sden : Nat → String) (hden : StrModel p sden) (a : Nat)
    (h : (p.node a).op = .sliteral) (hi : (p.node a).imm = .str "") : sden a = "" := by
  have := hden a
  simpa [nodeStr, h, hi] using this

theorem sden_of_concat2 (p : prog) (sden : Nat → String) (hden : StrModel p sden) (a x y m : Nat)
    (h : (p.node a).op = .sconcatstr2) (hi : (p.node a).args = [x, y, m]) :
    sden a = sden x ++ sden y := by
  have := hden a
  simpa [nodeStr, h, hi] using this

theorem args3_of_length (l : List Nat) (h : l.length = 3) : ∃ a b c, l = [a, b, c] := by
  match l, h with
  | [a, b, c], _ => exact ⟨a, b, c, rfl⟩

theorem rewrite1_concat2_sound (mask : prog → Nat → Nat) (p : prog) (v : Nat)
    (sden : Nat → String) (hden : StrModel p sden)
    (hwf : ∀ u, (p.node u).op = .sconcatstr2 → (p.node u).args.length = 3)
    (hop : (p.node v).op = .sconcatstr2) :
    ∃ p' v' b, rewrite1 mask p v = some (p', v', b) ∧ StrModel p' sden ∧ sden v' = sden v ∧
      (∀ a0 a1 k y z m, (p.node v).args = [a0, a1, k] → (p.node a1).op = .sconcatstr2 →
        (p.node a1).args = [y, z, m] →
        v' = v ∧ b = true ∧ p'.node v = ⟨.sconcatstr3, [a0, y, z, k], .nil⟩) ∧
      (∀ a0 a1 k x y m, (p.node v).args = [a0, a1, k] → (p.node a1).op ≠ .sconcatstr2 →
        ¬ ((p.node a1).op = .sliteral ∧ (p.node a1).imm = .str "" ∧ mask p a0 = k) →
        (p.node a0).op = .sconcatstr2 → (p.node a0).args = [x, y, m] →
        v' = v ∧ b = true ∧ p'.node v = ⟨.sconcatstr3, [x, y, a1, k], .nil⟩) := by
  have hv : v < p.values.length := lt_length_of_op p v (by simp [hop])
  obtain ⟨a0, a1, k, hargs⟩ := args3_of_length _ (hwf v hop)
  have hdv := sden_of_concat2 p sden hden v a0 a1 k hop hargs
  simp only [rewrite1, hop, hargs, replaceBy, keep, clobber, prog.opOf]
  split_ifs with h1 h2 h3
  · refine ⟨_, _, _, rfl, hden, by simp [hdv, sden_of_empty p sden hden a1 h1.1 h1.2.1], ?_, ?_⟩
    · intro b0 b1 k' y z m e hb
      simp only [List.cons.injEq, and_true] at e
      obtain ⟨rfl, rfl, rfl⟩ := e
      simp [h1.1] at hb
    · intro b0 b1 k' x y m e _ hn
      simp only [List.cons.injEq, and_true] at e
      obtain ⟨rfl, rfl, rfl⟩ := e
      exact absurd h1 hn
  · obtain ⟨y, z, m, hin⟩ := args3_of_length _ (hwf a1 h2)
    simp only [hin]
    refine ⟨_, _, _, rfl, strModel_setssa _ _ _ _ _ _ hden hv ?_, rfl, ?_, ?_⟩
    · simp [nodeStr, hdv, sden_of_concat2 p sden hden a1 y z m h2 hin, String.append_assoc]
    · intro b0 b1 k' y' z' m' e _ hb
      simp only [List.cons.injEq, and_true] at e
      obtain ⟨rfl, rfl, rfl⟩ := e
      rw [hin] at hb
      simp only [List.cons.injEq, and_true] at hb
      obtain ⟨rfl, rfl, rfl⟩ := hb
      exact ⟨rfl, rfl, node_setssa_self _ _ _ _ _ hv⟩
    · intro b0 b1 k' x y m e hn
      simp only [List.cons.injEq, and_true] at e
      obtain ⟨rfl, rfl, rfl⟩ := e
      exact absurd h2 hn
  · obtain ⟨x, y, m, hin⟩ := args3_of_length _ (hwf a0 h3)
    simp only [hin]
    refine ⟨_, _, _, rfl, strModel_setssa _ _ _ _ _ _ hden hv ?_, rfl, ?_, ?_⟩
    · simp [nodeStr, hdv, sden_of_concat2 p sden hden a0 x y m h3 hin]
    · intro b0 b1 k' y' z' m' e hb
      simp only [List.cons.injEq, and_true] at e
      obtain ⟨rfl, rfl, rfl⟩ := e
      exact absurd hb h2
    · intro b0 b1 k' x' y' m' e _ _ _ hb
      simp only [List.cons.injEq, and_true] at e
      obtain ⟨rfl, rfl, rfl⟩ := e
      rw [hin] at hb
      simp only [List.cons.injEq, and_true] at hb
      obtain ⟨rfl, rfl, rfl⟩ := hb
      exact ⟨rfl, rfl, node_setssa_self _ _ _ _ _ hv⟩
  · refine ⟨_, _, _, rfl, hden, rfl, ?_, ?_⟩
    · intro b0 b1 k' y z m e hb
      simp only [List.cons.injEq, and_true] at e
      obtain ⟨rfl, rfl, rfl⟩ := e
      exact absurd hb h2
    · intro b0 b1 k' x y m e _ _ hb
      simp only [List.cons.injEq, and_true] at e
      obtain ⟨rfl, rfl, rfl⟩ := e
      exact absurd hb h3

theorem rewrite1_concat34_sound (mask : prog → Nat → Nat) (p : prog) (v : Nat)
    (sden : Nat → String) (hden : StrModel p sden)
    (hop : (p.node v).op = .sconcatstr3 ∨ (p.node v).op = .sconcatstr4) :
    ∃ p' v' b, rewrite1 mask p v = some (p', v', b) ∧ StrModel p' sden ∧ sden v' = sden v ∧
      v' = v ∧ List.Sublist (p'.node v).args (p.node v).args := by
  have hv : v < p.values.length :=
    lt_length_of_op p v (by rcases hop with h | h <;> simp [h])
  have hdv := hden v
  have e0 := sden_of_empty p sden hden
  rcases hop with h | h
  · simp only [rewrite1, h, replaceBy, keep, clobber, prog.opOf]
    split
    · rename_i a0 a1 a2 k hargs
      simp only [nodeStr, h, hargs] at hdv
      split_ifs with h1 h2 h3
      · refine ⟨_, _, _, rfl, strModel_setssa _ _ _ _ _ _ hden hv ?_, rfl, rfl, ?_⟩
        · simp [nodeStr, hdv, e0 a0 h1.1 h1.2]
        · rw [node_setssa_self _ _ _ _ _ hv, hargs]
          exact (List.Sublist.refl _).cons _
      · refine ⟨_, _, _, rfl, strModel_setssa _ _ _ _ _ _ hden hv ?_, rfl, rfl, ?_⟩
        · simp [nodeStr, hdv, e0 a2 h2.1 h2.2]
        · rw [node_setssa_self _ _ _ _ _ hv, hargs]
          exact ((List.Sublist.refl _).cons _).cons₂ _ |>.cons₂ _
      · refine ⟨_, _, _, rfl, strModel_setssa _ _ _ _ _ _ hden hv ?_, rfl, rfl, ?_⟩
        · simp [nodeStr, hdv, e0 a1 h3.1 h3.2]
        · rw [node_setssa_self _ _ _ _ _ hv, hargs]
          exact ((List.Sublist.refl _).cons _).cons₂ _
      · exact ⟨_, _, _, rfl, hden, rfl, rfl, by rw [hargs]⟩
    · exact ⟨_, _, _, rfl, hden, rfl, rfl, List.Sublist.refl _⟩
  · simp only [rewrite1, h, replaceBy, keep, clobber, prog.opOf]
    split
    · rename_i x y z a3 k hargs
      simp only [nodeStr, h, hargs] at hdv
      split_ifs with h1
      · refine ⟨_, _, _, rfl, strModel_setssa _ _ _ _ _ _ hden hv ?_, rfl, rfl, ?_⟩
        · simp [nodeStr, hdv, e0 a3 h1.1 h1.2]
        · rw [node_setssa_self _ _ _ _ _ hv, hargs]
          exact ((List.Sublist.refl _).cons _).cons₂ _ |>.cons₂ _ |>.cons₂ _
      · exact ⟨_, _, _, rfl, hden, rfl, rfl, by rw [hargs]⟩
    · exact ⟨_, _, _, rfl, hden, rfl, rfl, List.Sublist.refl _⟩

set_option maxHeartbeats 4000000 in
theorem rewrite1_outcome (mask : prog → Nat → Nat) (p : prog) (v : Nat) (r : prog × Nat × Bool)
    (h : rewrite1 mask p v = some r) : Outcome p v r := by
  cases hop : (p.node v).op
  all_goals
    simp only [rewrite1, hop, dropMasked, dropNeutral, dropReflexive, dropBlend, keep,
      replaceBy, clobber, prog.opOf, prog.ValidLanes] at h
  all_goals (try split at h)
  all_goals (try split_ifs at h)
  all_goals (try split at h)
  all_goals (try simp only [Option.some.injEq, reduceCtorEq] at h)
  all_goals (try subst h)
  all_goals first
    | exact Or.inl rfl
    | (refine Or.inr (Or.inl ⟨_, rfl, ?_⟩)
       simp_all)
    | (refine Or.inr (Or.inr (Or.inl ⟨_, _, _, rfl, ?_, ?_⟩))
       · simp_all
       · simp_all)
    | exact Or.inr (Or.inr (Or.inr ⟨hop, _, _, _, by assumption, rfl⟩))
    | (refine Or.inr (Or.inr (Or.inl ⟨_, _, _, rfl, ?_, Or.inr ⟨hop, _, _, _, _, by assumption,
         by assumption, rfl, rfl, rfl, by assumption⟩⟩))
       simp_all)

theorem acyclic_setssa (p : prog) (v : Nat) (op : ssaop) (imm : Imm) (args : List Nat)
    (hac : Acyclic p) (hv : v < p.values.length)
    (hargs : ∀ a ∈ args, a ∈ (p.node v).args ∨ (∃ m ∈ (p.node v).args, a ∈ (p.node m).args) ∨
      (a ≠ v ∧ (p.node a).args = [])) :
    Acyclic (p.setssa v op imm args) := by
  obtain ⟨rank, hr⟩ := hac
  refine ⟨fun n => if ((p.setssa v op imm args).node n).args = [] then 0 else rank n + 1, ?_⟩
  intro u a ha
  have hu : ((p.setssa v op imm args).node u).args ≠ [] := by
    intro h; rw [h] at ha; simp at ha
  simp only [hu, if_false]
  split_ifs with hleaf
  · omega
  · have : rank a < rank u := by
      by_cases huv : u = v
      · subst huv
        rw [node_setssa_self p u op imm args hv] at ha
        rcases hargs a ha with h | ⟨m, hm, h⟩ | ⟨hne, h⟩
        · exact hr _ _ h
        · exact lt_trans (hr _ _ h) (hr _ _ hm)
        · rw [node_setssa_other p u a op imm args hne] at hleaf
          exact absurd h hleaf
      · rw [node_setssa_other p v u op imm args huv] at ha
        exact hr _ _ ha
    omega

theorem findNode_spec (op : ssaop) (l : List value) (i j : Nat)
    (h : findNode op l i = some j) : i ≤ j ∧ l.getD (j - i) ⟨.sinvalid, [], .nil⟩ = ⟨op, [], .nil⟩ := by
  induction l generalizing i with
  | nil => simp [findNode] at h
  | cons n rest ih =>
    simp only [findNode] at h
    split_ifs at h with hc
    · simp only [Option.some.injEq] at h
      subst h
      obtain ⟨h1, h2, h3⟩ := hc
      refine ⟨le_refl _, ?_⟩
      cases n
      simp_all
    · obtain ⟨h1, h2⟩ := ih (i + 1) h
      refine ⟨by omega, ?_⟩
      have : j - i = (j - (i + 1)) + 1 := by omega
      rw [this]
      simpa using h2

theorem ssa0_node_result (p : prog) (op : ssaop) :
    (p.ssa0 op).1.node (p.ssa0 op).2 = ⟨op, [], .nil⟩ := by
  unfold prog.ssa0
  split
  · rename_i i h
    have := (findNode_spec op p.values 0 i h).2
    simpa [prog.node] using this
  · simp [prog.node, List.getD_eq_getElem?_getD]

theorem ssa0_node_old (p : prog) (op : ssaop) (u : Nat) (hu : u < p.values.length) :
    (p.ssa0 op).1.node u = p.node u := by
  unfold prog.ssa0
  split
  · rfl
  · simp [prog.node, List.getD_eq_getElem?_getD, List.getElem?_append_left hu]

theorem ssa0_args (p : prog) (op : ssaop) (u : Nat) :
    ((p.ssa0 op).1.node u).args = (p.node u).args := by
  by_cases hu : u < p.values.length
  · rw [ssa0_node_old p op u hu]
  · unfold prog.ssa0
    split
    · rfl
    · have h1 : p.values.length ≤ u := Nat.le_of_not_lt hu
      rcases Nat.eq_or_lt_of_le h1 with h | h
      · subst h
        simp [prog.node, List.getD_eq_getElem?_getD]
      · have h2 : (p.values ++ [(⟨op, [], .nil⟩ : value)]).length ≤ u := by simp; omega
        simp [prog.node, List.getD_eq_getElem?_getD, List.getElem?_eq_none h2,
          List.getElem?_eq_none h1]

theorem choose_args (p : prog) (yes : Bool) (u : Nat) :
    ((p.choose yes).1.node u).args = (p.node u).args := by
  unfold prog.choose
  split
  · rfl
  · exact ssa0_args p _ u

theorem choose_node_old (p : prog) (yes : Bool) (u : Nat) (hu : u < p.values.length) :
    (p.choose yes).1.node u = p.node u := by
  unfold prog.choose
  split
  · rfl
  · exact ssa0_node_old p _ u hu

theorem choose_node_result (p : prog) (yes : Bool)
    (h0 : (p.node 0).op = .sinit ∧ (p.node 0).args = []) :
    (((p.choose yes).1.node (p.choose yes).2).op = .sinit ∨
      ((p.choose yes).1.node (p.choose yes).2).op = .skfalse) ∧
    ((p.choose yes).1.node (p.choose yes).2).args = [] := by
  unfold prog.choose
  split
  · exact ⟨Or.inl h0.1, h0.2⟩
  · rw [ssa0_node_result]
    exact ⟨Or.inr rfl, rfl⟩

theorem acyclic_choose (p : prog) (yes : Bool) (hac : Acyclic p) : Acyclic (p.choose yes).1 := by
  obtain ⟨rank, hr⟩ := hac
  refine ⟨rank, fun u a ha => hr u a ?_⟩
  rwa [choose_args] at ha

theorem rewrite1_keep_of_no_rule (mask : prog → Nat → Nat) (p : prog) (v : Nat)
    (h : (p.node v).op = .sinvalid ∨ (p.node v).op = .sinit ∨ (p.node v).op = .skfalse) :
    rewrite1 mask p v = some (p, v, false) := by
  rcases h with h | h | h <;> simp [rewrite1, h, keep]

theorem exXorDen_model : MaskModel exXorProg exXorDen := by
  intro v
  match v with
  | 0 => rfl
  | 1 => rfl
  | 2 => rfl
  | 3 => rfl
  | _ + 4 => rfl

/-! ## C6: the rules on the mask operators preserve the mask -/

/-- C6: for an `and.k`, `or.k`, `nand.k`, `xor.k` or `xnor.k` node `v` with two
operands, in a program whose node 0 is the initial mask, `rewrite1` returns, and
on every lane (every model `den` of the program) the program after the call
still has `den` as model while the node returned carries the mask of the
original node: every rule on the mask operators preserves the mask. -/
theorem rewrite1_mask_sound (mask : prog → Nat → Nat) (p : prog) (v : Nat) (den : Nat → Bool)
    (hinit : p.opOf 0 = .sinit) (hden : MaskModel p den)
    (hop : (p.node v).op = .sand ∨ (p.node v).op = .sor ∨ (p.node v).op = .snand ∨
      (p.node v).op = .sxor ∨ (p.node v).op = .sxnor)
    (hargs : (p.node v).args.length = 2) :
    ∃ p' v' b, rewrite1 mask p v = some (p', v', b) ∧ MaskModel p' den ∧ den v' = den v := by
  obtain ⟨a0, a1, hargs⟩ : ∃ a0 a1, (p.node v).args = [a0, a1] := by
    match h : (p.node v).args, hargs with
    | [a, b], _ => exact ⟨a, b, rfl⟩
  have hv : v < p.values.length := by
    apply lt_length_of_op
    rcases hop with h | h | h | h | h <;> simp [h]
  have hdv := hden v
  have e1 := den_of_init p den hden
  have e2 := den_of_kfalse p den hden
  have hdi := e1 0 hinit
  simp only [maskSem] at hdv
  rcases hop with h | h | h | h | h
  all_goals
    simp only [rewrite1, h, hargs, replaceBy, keep, clobber, prog.opOf, prog.ValidLanes]
    simp only [nodeMask, h, hargs] at hdv
    split_ifs with h1 h2 h3 h4
    all_goals
      refine ⟨_, _, _, rfl, ?_, ?_⟩
    all_goals first
      | exact hden
      | rfl
      | (apply maskModel_setssa _ _ _ _ _ _ hden hv
         simp_all [nodeMask])
      | (simp_all [nodeMask])

theorem rewrite1_mask_sound_witness :
    ∃ p' v' b, rewrite1 idMask exXorProg 3 = some (p', v', b) ∧ MaskModel p' exXorDen ∧
      exXorDen v' = exXorDen 3 :=
  rewrite1_mask_sound idMask exXorProg 3 exXorDen (by decide) exXorDen_model (by decide)
    (by decide)

/-! ## C8: `x AND x` rewrites to `x` -/

/-- C8: for an `and.k` node `v` whose two operands are the same node `x`
(whatever `x` is), `rewrite1` returns `(x, true)` and leaves the graph as it
is: the result is the existing node `x`. -/
theorem rewrite1_and_same (mask : prog → Nat → Nat) (p : prog) (v x : Nat)
    (hop : (p.node v).op = .sand) (hargs : (p.node v).args = [x, x]) :
    rewrite1 mask p v = some (p, x, true) := by
  simp only [rewrite1, hop, hargs, replaceBy, keep]
  split_ifs <;> rfl

theorem rewrite1_and_same_witness : rewrite1 idMask exAndProg 2 = some (exAndProg, 1, true) :=
  rewrite1_and_same idMask exAndProg 2 1 (by decide) (by decide)

theorem exXorProg_acyclic : Acyclic exXorProg := by
  refine ⟨fun n => n, fun v a ha => ?_⟩
  match v with
  | 0 => simp [exXorProg, prog.node] at ha
  | 1 => simp [exXorProg, prog.node] at ha
  | 2 => simp [exXorProg, prog.node] at ha
  | 3 =>
    simp [exXorProg, prog.node] at ha
    rcases ha with rfl | rfl <;> simp
  | _ + 4 => simp [exXorProg, prog.node] at ha

/-! ## C10: `rewrite1` never introduces a cycle -/

/-- C10: in an acyclic program whose node 0 is the operand-free initial mask,
when `rewrite1` returns a node other than `v` the graph is untouched and that
node is an operand of `v` or node 0; when it returns `v`, every operand of the
(possibly clobbered) `v` is an operand of the old `v`, an operand of an operand
of the old `v`, node 0, or a node without operands; and the program after the
call is acyclic. -/
theorem rewrite1_acyclic (mask : prog → Nat → Nat) (p : prog) (v : Nat) (p' : prog) (v' : Nat)
    (b : Bool) (hac : Acyclic p) (h0 : (p.node 0).op = .sinit ∧ (p.node 0).args = [])
    (h : rewrite1 mask p v = some (p', v', b)) :
    (v' ≠ v → p' = p ∧ (v' ∈ (p.node v).args ∨ v' = 0)) ∧
    (v' = v → ∀ a ∈ (p'.node v).args, a ∈ (p.node v).args ∨
      (∃ m ∈ (p.node v).args, a ∈ (p.node m).args) ∨ a = 0 ∨ (p'.node a).args = []) ∧
    Acyclic p' := by
  have hop : b = true → (p.node v).op ≠ .sinvalid ∧ (p.node v).op ≠ .sinit := by
    intro hb
    constructor <;> intro hc
    · rw [rewrite1_keep_of_no_rule mask p v (Or.inl hc)] at h
      simp at h; simp [h.2.2] at hb
    · rw [rewrite1_keep_of_no_rule mask p v (Or.inr (Or.inl hc))] at h
      simp at h; simp [h.2.2] at hb
  rcases rewrite1_outcome mask p v _ h with hr | ⟨x, hr, hx⟩ | ⟨op, imm, args, hr, hargs, _⟩ |
    ⟨hcv, a0, k, yes, hcargs, hr⟩
  · simp only [Prod.mk.injEq] at hr
    obtain ⟨rfl, rfl, rfl⟩ := hr
    exact ⟨fun hne => absurd rfl hne, fun _ a ha => Or.inl ha, hac⟩
  · simp only [Prod.mk.injEq] at hr
    obtain ⟨rfl, rfl, rfl⟩ := hr
    exact ⟨fun _ => ⟨rfl, hx⟩, fun _ a ha => Or.inl ha, hac⟩
  · simp only [Prod.mk.injEq] at hr
    obtain ⟨rfl, rfl, rfl⟩ := hr
    have hv : v' < p.values.length := lt_length_of_op p v' (hop rfl).1
    have hv0 : (0 : Nat) ≠ v' := by
      intro hc; subst hc; exact (hop rfl).2 h0.1
    refine ⟨fun hne => absurd rfl hne, fun _ a ha => ?_, ?_⟩
    · rw [node_setssa_self p v' op imm args hv] at ha
      rcases hargs a ha with h1 | h1 | h1
      · exact Or.inl h1
      · exact Or.inr (Or.inl h1)
      · exact Or.inr (Or.inr (Or.inl h1))
    · apply acyclic_setssa p v' op imm args hac hv
      intro a ha
      rcases hargs a ha with h1 | h1 | h1
      · exact Or.inl h1
      · exact Or.inr (Or.inl h1)
      · subst h1; exact Or.inr (Or.inr ⟨hv0, h0.2⟩)
  · simp only [Prod.mk.injEq] at hr
    obtain ⟨rfl, rfl, rfl⟩ := hr
    have hv : v' < p.values.length := lt_length_of_op p v' (hop rfl).1
    have hq : (p.choose yes).1.node v' = p.node v' := choose_node_old p yes v' hv
    have hvq : v' < (p.choose yes).1.values.length :=
      lt_length_of_op _ v' (by rw [hq]; exact (hop rfl).1)
    obtain ⟨hcop, hcleaf⟩ := choose_node_result p yes h0
    have hcv' : (p.choose yes).2 ≠ v' := by
      intro hc
      rw [hc, hq, hcv] at hcop
      simp at hcop
    refine ⟨fun hne => absurd rfl hne, fun _ a ha => ?_, ?_⟩
    · rw [node_setssa_self _ v' _ _ _ hvq] at ha
      simp only [List.mem_cons, List.mem_singleton, List.not_mem_nil, or_false] at ha
      rcases ha with rfl | rfl
      · right; right; right
        rw [node_setssa_other _ v' _ _ _ _ hcv']
        exact hcleaf
      · left; rw [hcargs]; simp
    · apply acyclic_setssa _ v' _ _ _ (acyclic_choose p yes hac) hvq
      intro a ha
      simp only [List.mem_cons, List.mem_singleton, List.not_mem_nil, or_false] at ha
      rcases ha with rfl | rfl
      · exact Or.inr (Or.inr ⟨hcv', hcleaf⟩)
      · left; rw [choose_args, hcargs]; simp

theorem rewrite1_acyclic_witness :
    (3 ≠ 3 → exXorProg.setssa 3 .snand .nil [2, 0] = exXorProg ∧
      (3 ∈ (exXorProg.node 3).args ∨ 3 = 0)) ∧
    (3 = 3 → ∀ a ∈ ((exXorProg.setssa 3 .snand .nil [2, 0]).node 3).args,
      a ∈ (exXorProg.node 3).args ∨
      (∃ m ∈ (exXorProg.node 3).args, a ∈ (exXorProg.node m).args) ∨ a = 0 ∨
      ((exXorProg.setssa 3 .snand .nil [2, 0]).node a).args = []) ∧
    Acyclic (exXorProg.setssa 3 .snand .nil [2, 0]) :=
  rewrite1_acyclic idMask exXorProg 3 (exXorProg.setssa 3 .snand .nil [2, 0]) 3 true
    exXorProg_acyclic (by decide) (by decide)

/-! ## C5: rewriting at a site -/

/-- C5, counterexample: three second applications that report a rewrite.  On
`xor.k init init` the first call of `rewrite1` clobbers the node into
`nand.k init init`, and a second call on the node returned changes the graph
again (the node becomes `false`).  On `and.k a a` with `a = and.k m m` the
first call returns the operand `a` and leaves the graph as it is, and the
second call, on `a`, fires the same rule and returns `m`.  On a node that is
its own operand (a cyclic graph) the rule returns the node itself, unchanged,
and matches it again at every call. -/
theorem rewrite1_not_idempotent :
    rewrite1 idMask exXorInitProg 1 =
      some (exXorInitProg.setssa 1 .snand .nil [0, 0], 1, true) ∧
    rewrite1 idMask (exXorInitProg.setssa 1 .snand .nil [0, 0]) 1 =
      some (exXorInitProg.setssa 1 .skfalse .nil [], 1, true) ∧
    exXorInitProg.setssa 1 .skfalse .nil [] ≠ exXorInitProg.setssa 1 .snand .nil [0, 0] ∧
    rewrite1 idMask exAndNestProg 3 = some (exAndNestProg, 2, true) ∧
    rewrite1 idMask exAndNestProg 2 = some (exAndNestProg, 1, true) ∧
    rewrite1 idMask exAndSelfProg 1 = some (exAndSelfProg, 1, true) := by
  decide

theorem exXorInitProg_acyclic : Acyclic exXorInitProg := by
  refine ⟨fun n => n, fun v a ha => ?_⟩
  match v with
  | 0 => simp [exXorInitProg, prog.node] at ha
  | 1 =>
    simp [exXorInitProg, prog.node] at ha
    subst ha
    decide
  | _ + 2 => simp [exXorInitProg, prog.node] at ha

/-- C5, amended: in an acyclic program whose node 0 is the initial mask, when
`rewrite1` reports a rewrite at `v` there are two cases.  Either it returns a
node other than `v`, an operand of `v` or node 0, and the graph is untouched
(the site is not rewritten in place and nothing is said of the node returned).
Or it returns `v` itself, clobbered in place, and the rule that fired no longer
matches the site: the operator of `v` has changed, or (`store.z`) a second
call on `v` reports no rewrite and leaves the graph unchanged. -/
theorem rewrite1_rule_fires_once (mask : prog → Nat → Nat) (p : prog) (v : Nat) (p' : prog)
    (v' : Nat) (hac : Acyclic p) (h0 : (p.node 0).op = .sinit)
    (h : rewrite1 mask p v = some (p', v', true)) :
    (v' ≠ v ∧ p' = p ∧ (v' ∈ (p.node v).args ∨ v' = 0)) ∨
    (v' = v ∧ ((p'.node v).op ≠ (p.node v).op ∨
      rewrite1 mask p' v = some (p', v, false))) := by
  have hop : (p.node v).op ≠ .sinvalid := by
    intro hc
    rw [rewrite1_keep_of_no_rule mask p v (Or.inl hc)] at h
    simp at h
  have hinit : (p.node v).op ≠ .sinit := by
    intro hc
    rw [rewrite1_keep_of_no_rule mask p v (Or.inr (Or.inl hc))] at h
    simp at h
  have hv : v < p.values.length := lt_length_of_op p v hop
  rcases rewrite1_outcome mask p v _ h with hr | ⟨x, hr, hx⟩ | ⟨op, imm, args, hr, _, hch⟩ |
    ⟨hcv, a0, k, yes, hcargs, hr⟩
  · simp at hr
  · simp only [Prod.mk.injEq, and_true] at hr
    obtain ⟨rfl, rfl⟩ := hr
    left
    refine ⟨?_, rfl, hx⟩
    rcases hx with hx | hx
    · obtain ⟨rank, hr⟩ := hac
      intro hc
      rw [hc] at hx
      exact absurd (hr v v hx) (lt_irrefl _)
    · intro hc
      rw [hx] at hc
      rw [← hc] at hinit
      exact hinit h0
  · simp only [Prod.mk.injEq, and_true] at hr
    obtain ⟨rfl, rfl⟩ := hr
    right
    refine ⟨rfl, ?_⟩
    rcases hch with hne | ⟨hst, mem, ov, k, slot, hargs, hne, rfl, rfl, rfl, hk⟩
    · left
      rw [node_setssa_self p v' op imm args hv]
      exact hne
    · right
      have hkv : k ≠ v' := by
        intro hc; subst hc
        simp only [prog.opOf] at hk
        rw [hk] at hst; simp at hst
      have hk' : ((p.setssa v' .sstorev (.int slot) [mem, k, k]).node k).op = .skfalse := by
        rw [node_setssa_other _ _ _ _ _ _ hkv]; exact hk
      simp [rewrite1, node_setssa_self p v' _ _ _ hv, prog.opOf, hk', keep]
  · simp only [Prod.mk.injEq, and_true] at hr
    obtain ⟨rfl, rfl⟩ := hr
    right
    refine ⟨rfl, Or.inl ?_⟩
    have hq : (p.choose yes).1.node v' = p.node v' := choose_node_old p yes v' hv
    have hvq : v' < (p.choose yes).1.values.length :=
      lt_length_of_op _ v' (by rw [hq]; exact hop)
    rw [node_setssa_self _ v' _ _ _ hvq, hcv]
    simp

theorem rewrite1_rule_fires_once_witness :
    (1 ≠ 1 ∧ exXorInitProg.setssa 1 .snand .nil [0, 0] = exXorInitProg ∧
      (1 ∈ (exXorInitProg.node 1).args ∨ 1 = 0)) ∨
    (1 = 1 ∧ (((exXorInitProg.setssa 1 .snand .nil [0, 0]).node 1).op ≠ (exXorInitProg.node 1).op ∨
      rewrite1 idMask (exXorInitProg.setssa 1 .snand .nil [0, 0]) 1 =
        some (exXorInitProg.setssa 1 .snand .nil [0, 0], 1, false))) :=
  rewrite1_rule_fires_once idMask exXorInitProg 1 _ 1 exXorInitProg_acyclic (by decide)
    (by decide)

theorem exConcatDen_model : StrModel exConcatProg exConcatDen := by
  intro v
  match v with
  | 0 => rfl
  | 1 => rfl
  | 2 => rfl
  | 3 => rfl
  | 4 => rfl
  | 5 => rfl
  | _ + 6 => rfl

theorem exConcatProg_arity (u : Nat) (h : (exConcatProg.node u).op = .sconcatstr2) :
    (exConcatProg.node u).args.length = 3 := by
  match u with
  | 0 => simp [exConcatProg, prog.node] at h
  | 1 => simp [exConcatProg, prog.node] at h
  | 2 => simp [exConcatProg, prog.node] at h
  | 3 => simp [exConcatProg, prog.node] at h
  | 4 => rfl
  | 5 => rfl
  | _ + 6 => simp [exConcatProg, prog.node] at h

/-! ## C9: concat flattening -/

/-- C9, counterexample: on `concat2.str (concat2.str a b) ""` whose first
operand has the mask of the node (be it the initial mask for every value, or
each node carrying its own mask), `rewrite1` returns the nested `concat2.str`
itself; no `concat3.str` is produced. -/
theorem rewrite1_concat_keeps_nested :
    (exConcatEmptyProg.node 5).op = .sconcatstr2 ∧
    (exConcatEmptyProg.node 5).args = [3, 4, 0] ∧
    (exConcatEmptyProg.node 3).op = .sconcatstr2 ∧
    rewrite1 validMask exConcatEmptyProg 5 = some (exConcatEmptyProg, 3, true) ∧
    (exConcatEmptyProg.node 3).op ≠ .sconcatstr3 ∧
    (exConcatEmptySelfProg.node 5).op = .sconcatstr2 ∧
    (exConcatEmptySelfProg.node 5).args = [3, 4, 3] ∧
    (exConcatEmptySelfProg.node 3).op = .sconcatstr2 ∧
    rewrite1 idMask exConcatEmptySelfProg 5 = some (exConcatEmptySelfProg, 3, true) ∧
    (exConcatEmptySelfProg.node 3).op ≠ .sconcatstr3 := by
  decide

/-- C9, amended: for a `concat2.str`, `concat3.str` or `concat4.str` node (the
`concat2.str` nodes having their three operands) `rewrite1` returns, and on
every lane the string of the node returned is the string of the original node.
A `concat2.str` whose second operand is a `concat2.str y z` becomes
`concat3.str x y z`; one whose first operand is a `concat2.str x y` becomes
`concat3.str x y z` unless the second operand is the empty literal under the
mask of the first (then the first operand is returned); the `concat3.str` and
`concat4.str` rules keep the remaining operands in their original order. -/
theorem rewrite1_concat_order (mask : prog → Nat → Nat) (p : prog) (v : Nat)
    (sden : Nat → String) (hden : StrModel p sden)
    (hwf : ∀ u, (p.node u).op = .sconcatstr2 → (p.node u).args.length = 3)
    (hop : (p.node v).op = .sconcatstr2 ∨ (p.node v).op = .sconcatstr3 ∨
      (p.node v).op = .sconcatstr4) :
    ∃ p' v' b, rewrite1 mask p v = some (p', v', b) ∧ StrModel p' sden ∧ sden v' = sden v ∧
      ((p.node v).op = .sconcatstr2 →
        (∀ a0 a1 k y z m, (p.node v).args = [a0, a1, k] → (p.node a1).op = .sconcatstr2 →
          (p.node a1).args = [y, z, m] →
          v' = v ∧ b = true ∧ p'.node v = ⟨.sconcatstr3, [a0, y, z, k], .nil⟩) ∧
        (∀ a0 a1 k x y m, (p.node v).args = [a0, a1, k] → (p.node a1).op ≠ .sconcatstr2 →
          ¬ ((p.node a1).op = .sliteral ∧ (p.node a1).imm = .str "" ∧ mask p a0 = k) →
          (p.node a0).op = .sconcatstr2 → (p.node a0).args = [x, y, m] →
          v' = v ∧ b = true ∧ p'.node v = ⟨.sconcatstr3, [x, y, a1, k], .nil⟩)) ∧
      ((p.node v).op ≠ .sconcatstr2 → v' = v ∧ List.Sublist (p'.node v).args (p.node v).args) := by
  rcases hop with h | h
  · obtain ⟨p', v', b, h1, h2, h3, h4, h5⟩ := rewrite1_concat2_sound mask p v sden hden hwf h
    exact ⟨p', v', b, h1, h2, h3, fun _ => ⟨h4, h5⟩, fun hn => absurd h hn⟩
  · obtain ⟨p', v', b, h1, h2, h3, h4, h5⟩ := rewrite1_concat34_sound mask p v sden hden h
    refine ⟨p', v', b, h1, h2, h3, fun hc => ?_, fun _ => ⟨h4, h5⟩⟩
    rcases h with h | h <;> rw [h] at hc <;> simp at hc

theorem rewrite1_concat_order_witness :
    ∃ p' v' b, rewrite1 idMask exConcatProg 5 = some (p', v', b) ∧
      StrModel p' exConcatDen ∧ exConcatDen v' = exConcatDen 5 ∧
      ((exConcatProg.node 5).op = .sconcatstr2 →
        (∀ a0 a1 k y z m, (exConcatProg.node 5).args = [a0, a1, k] →
          (exConcatProg.node a1).op = .sconcatstr2 → (exConcatProg.node a1).args = [y, z, m] →
          v' = 5 ∧ b = true ∧ p'.node 5 = ⟨.sconcatstr3, [a0, y, z, k], .nil⟩) ∧
        (∀ a0 a1 k x y m, (exConcatProg.node 5).args = [a0, a1, k] →
          (exConcatProg.node a1).op ≠ .sconcatstr2 →
          ¬ ((exConcatProg.node a1).op = .sliteral ∧ (exConcatProg.node a1).imm = .str "" ∧
            idMask exConcatProg a0 = k) →
          (exConcatProg.node a0).op = .sconcatstr2 → (exConcatProg.node a0).args = [x, y, m] →
          v' = 5 ∧ b = true ∧ p'.node 5 = ⟨.sconcatstr3, [x, y, a1, k], .nil⟩)) ∧
      ((exConcatProg.node 5).op ≠ .sconcatstr2 →
        v' = 5 ∧ List.Sublist (p'.node 5).args (exConcatProg.node 5).args) :=
  rewrite1_concat_order idMask exConcatProg 5 exConcatDen exConcatDen_model exConcatProg_arity
    (by decide)

/-! ## C7: rules that ignore the mask operand -/

/-- C7, evaluation at the failing inputs: `cvt.k@i false false` is defined on no
lane, and `rewrite1` clobbers it into the unmasked `broadcast.i 0`, defined on
every lane; `sub.imm.i x false 0` is defined on no lane, and `rewrite1`
returns `x`, a broadcast defined on every lane. -/
theorem rewrite1_drops_mask :
    MaskModel exCvtProg exInitDen ∧
    rewrite1 idMask exCvtProg 2 =
      some (exCvtProg.setssa 2 .sbroadcasti (.int 0) [], 2, true) ∧
    nodeDefined exInitDen (exCvtProg.node 2) false = false ∧
    nodeDefined exInitDen ((exCvtProg.setssa 2 .sbroadcasti (.int 0) []).node 2) false = true ∧
    MaskModel exSubProg exInitDen ∧
    rewrite1 idMask exSubProg 3 = some (exSubProg, 2, true) ∧
    nodeDefined exInitDen (exSubProg.node 3) false = false ∧
    nodeDefined exInitDen (exSubProg.node 2) false = true := by
  refine ⟨?_, by decide, by decide, by decide, ?_, by decide, by decide, by decide⟩
  · intro v
    match v with
    | 0 => rfl
    | 1 => rfl
    | 2 => rfl
    | _ + 3 => rfl
  · intro v
    match v with
    | 0 => rfl
    | 1 => rfl
    | 2 => rfl
    | 3 => rfl
    | _ + 4 => rfl

/-! # Part II: theorems on the CASE lowering -/

theorem firstMatch_bool (l : List (Bool × Bool)) (e : Bool) :
    firstMatch l e = (firstMatch l false || (!(l.any fun x => x.1) && e)) := by
  induction l with
  | nil => simp [firstMatch]
  | cons x rest ih =>
    obtain ⟨w, t⟩ := x
    cases w <;> simp [firstMatch, ih]

theorem logicalLimbs_sound (api : ssaapi) (den : vterm → Bool)
    (hAnd : ∀ a b, den (api.And a b) = (den a && den b))
    (hOr : ∀ a b, den (api.Or a b) = (den a || den b))
    (hnand : ∀ a b, den (api.nand a b) = (den b && !den a))
    (hfalse : ∀ t : vterm, t.op = .skfalse → den t = false)
    (limbs : List CaseLimb) (outk merged : vterm) (st : vterm × vterm)
    (h : logicalLimbs api limbs outk merged = .ok st) :
    den st.1 = (den outk || (!den merged && firstMatch (laneLimbs api den limbs) false)) ∧
    den st.2 = (den merged || (laneLimbs api den limbs).any fun x => x.1) := by
  induction limbs generalizing outk merged with
  | nil =>
    simp only [logicalLimbs, Result.ok.injEq] at h
    subst h
    simp [laneLimbs, firstMatch]
  | cons l rest ih =>
    simp only [logicalLimbs] at h
    cases hw : api.compileAsBool l.When with
    | error e => simp [hw, Result.bind] at h
    | panic e => simp [hw, Result.bind] at h
    | ok when =>
      simp only [hw, Result.bind] at h
      have hlw : laneOf api den l.When = den when := by simp [laneOf, hw]
      split_ifs at h with hk
      · have := ih outk merged h
        have hwf := hfalse when hk
        simp only [laneLimbs, List.map_cons, firstMatch, List.any_cons, hlw, hwf] at this ⊢
        simpa [laneLimbs] using this
      · cases ht : api.compileAsBool l.Then with
        | error e => simp [ht] at h
        | panic e => simp [ht] at h
        | ok thn =>
          simp only [ht] at h
          have hlt : laneOf api den l.Then = den thn := by simp [laneOf, ht]
          have := ih _ _ h
          simp only [laneLimbs, List.map_cons, firstMatch, List.any_cons, hlw, hlt, hOr, hAnd,
            hnand] at this ⊢
          rw [this.1, this.2]
          cases den when <;> cases den merged <;> cases den outk <;> cases den thn <;> simp [laneLimbs]

theorem evalMask_kfalse (env : vterm → Bool) (t : vterm) (h : t.op = .skfalse) :
    evalMask env t = false := by
  cases t <;> simp_all [evalMask, vterm.op]

/-! ## C1: logical CASE is first-match-wins -/

/-- C1: reading `And` and `Or` lane-wise, `nand(a, b)` as `b AND NOT a` and the
`false` node as false, the mask returned by `compileLogicalCase` is true on a
lane exactly when the THEN of the first limb whose WHEN is true on that lane is
true, or, when no WHEN is true, when the ELSE is true (an absent ELSE is NULL,
never true); in particular with two limbs whose WHENs are both true on the lane
the result is the first THEN. -/
theorem compileLogicalCase_first_match (api : ssaapi) (den : vterm → Bool) (c : Case) (r : vterm)
    (hAnd : ∀ a b, den (api.And a b) = (den a && den b))
    (hOr : ∀ a b, den (api.Or a b) = (den a || den b))
    (hnand : ∀ a b, den (api.nand a b) = (den b && !den a))
    (hfalse : ∀ t : vterm, t.op = .skfalse → den t = false)
    (hnull : api.compileAsBool .Null = .ok kfalse)
    (h : compileLogicalCase api c = .ok r) :
    den r = firstMatch (laneLimbs api den c.Limbs)
      (match c.Else with
        | none => false
        | some e => laneOf api den e) ∧
    (∀ l1 l2, c.Limbs = [l1, l2] → laneOf api den l1.When = true →
      laneOf api den l2.When = true → den r = laneOf api den l1.Then) := by
  have key : den r = firstMatch (laneLimbs api den c.Limbs)
      (match c.Else with
        | none => false
        | some e => laneOf api den e) := by
    have hk0 : den kfalse = false := hfalse kfalse rfl
    have hels : (match c.Else with
        | none => false
        | some e => laneOf api den e) = laneOf api den (c.Else.getD Node.Null) := by
      cases c.Else with
      | none => simp [laneOf, hnull, hk0]
      | some e => rfl
    rw [hels]
    unfold compileLogicalCase at h
    cases hf : api.compileAsBool (c.Else.getD Node.Null) with
    | error e => simp [hf, Result.bind] at h
    | panic e => simp [hf, Result.bind] at h
    | ok final =>
      have hlf : laneOf api den (c.Else.getD Node.Null) = den final := by simp [laneOf, hf]
      cases hl : logicalLimbs api c.Limbs kfalse kfalse with
      | error e => simp [hf, hl, Result.bind] at h
      | panic e => simp [hf, hl, Result.bind] at h
      | ok st =>
        simp only [hf, hl, Result.bind] at h
        obtain ⟨h1, h2⟩ := logicalLimbs_sound api den hAnd hOr hnand hfalse _ _ _ _ hl
        rw [hk0] at h1 h2
        rw [firstMatch_bool, hlf]
        split_ifs at h with hk
        · simp only [Result.ok.injEq] at h
          subst h
          rw [h1, hfalse final hk]
          simp
        · simp only [Result.ok.injEq] at h
          subst h
          rw [hOr, hAnd, hnand, h1, h2]
          cases den final <;> simp
  refine ⟨key, ?_⟩
  intro l1 l2 hl hw1 _
  rw [key, hl]
  simp [laneLimbs, firstMatch, hw1]

theorem compileLogicalCase_first_match_witness :
    evalMask exLogicalLane ((compileLogicalCase exApi exLogicalCase).getD kfalse) =
      firstMatch (laneLimbs exApi (evalMask exLogicalLane) exLogicalCase.Limbs)
        (match exLogicalCase.Else with
          | none => false
          | some e => laneOf exApi (evalMask exLogicalLane) e) ∧
    (∀ l1 l2, exLogicalCase.Limbs = [l1, l2] →
      laneOf exApi (evalMask exLogicalLane) l1.When = true →
      laneOf exApi (evalMask exLogicalLane) l2.When = true →
      evalMask exLogicalLane ((compileLogicalCase exApi exLogicalCase).getD kfalse) =
        laneOf exApi (evalMask exLogicalLane) l1.Then) :=
  compileLogicalCase_first_match exApi (evalMask exLogicalLane) exLogicalCase
    ((compileLogicalCase exApi exLogicalCase).getD kfalse)
    (fun _ _ => rfl) (fun _ _ => rfl) (fun _ _ => rfl) (evalMask_kfalse exLogicalLane) rfl
    (by decide)

theorem genericLimbs_sound {σ : Type} (api : ssaapi) (den : vterm → Bool) (val : vterm → σ)
    (hOr : ∀ a b, den (api.Or a b) = (den a || den b))
    (hnand : ∀ a b, den (api.nand a b) = (den b && !den a))
    (hfalse : ∀ t : vterm, t.op = .skfalse → den t = false)
    (hblend : ∀ x y k, val (.ssa3 .sblendv x y k .nil) = if den k then val y else val x)
    (limbs : List CaseLimb) (v0 k0 m0 : vterm)
    (st : Option vterm × Option vterm × Option vterm)
    (h : genericLimbs api limbs (some v0) (some k0) (some m0) = .ok st) :
    ∃ v k m, st = (some v, some k, some m) ∧
      some (val v) = (if den m0 then some (val v0)
        else firstMatch (laneArms api den val limbs) (some (val v0))) ∧
      (den k0 = true → den k = true) := by
  induction limbs generalizing v0 k0 m0 with
  | nil =>
    simp only [genericLimbs, Result.ok.injEq] at h
    subst h
    exact ⟨v0, k0, m0, rfl, by simp [laneArms, firstMatch], id⟩
  | cons l rest ih =>
    simp only [genericLimbs] at h
    cases hw : api.compileAsBool l.When with
    | error e => simp [hw, Result.bind] at h
    | panic e => simp [hw, Result.bind] at h
    | ok when =>
      simp only [hw, Result.bind] at h
      have hlw : laneOf api den l.When = den when := by simp [laneOf, hw]
      split_ifs at h with hk
      · obtain ⟨v, k, m, h1, h2, h3⟩ := ih v0 k0 m0 h
        refine ⟨v, k, m, h1, ?_, h3⟩
        rw [h2]
        simp [laneArms, firstMatch, hlw, hfalse when hk]
      · cases ht : api.serialized l.Then with
        | error e => simp [ht] at h
        | panic e => simp [ht] at h
        | ok thn0 =>
          simp only [ht] at h
          split_ifs at h with hp
          simp only [deref] at h
          obtain ⟨v, k, m, h1, h2, h3⟩ := ih _ _ _ h
          have hlt : valOf api val l.Then = some (val (api.unsymbolized thn0)) := by
            simp [valOf, ht]
          refine ⟨v, k, m, h1, ?_, ?_⟩
          · rw [h2, hOr, hblend, hnand]
            simp only [laneArms, List.map_cons, firstMatch, hlw, hlt]
            cases den when <;> cases den m0 <;> simp [laneArms]
          · intro hk0
            apply h3
            rw [hOr, hk0]
            rfl

/-! ## C2: generic CASE selects the first matching arm -/

/-- C2: for a CASE with an ELSE (other than MISSING) whose value is defined on
the lane, reading `blendv(x, y, k)` as `y` on the lanes of `k` and `x`
elsewhere, `compileGenericCase` returns the value `v` paired with the mask `k`
(alone when they are the same node), the value `v` is on the lane the THEN of
the first limb whose WHEN is true there, or the ELSE if no WHEN is true, and
the lane is valid in `k`. -/
theorem compileGenericCase_first_match {σ : Type} (api : ssaapi) (den : vterm → Bool)
    (val : vterm → σ) (c : Case) (e : Node) (r : vterm)
    (hOr : ∀ a b, den (api.Or a b) = (den a || den b))
    (hnand : ∀ a b, den (api.nand a b) = (den b && !den a))
    (hfalse : ∀ t : vterm, t.op = .skfalse → den t = false)
    (hblend : ∀ x y k, val (.ssa3 .sblendv x y k .nil) = if den k then val y else val x)
    (hE : c.Else = some e) (hne : e ≠ .Missing)
    (hdefE : ∀ t, api.serialized e = .ok t → den (api.mask (api.unsymbolized t)) = true)
    (h : compileGenericCase api c = .ok r) :
    ∃ v k m, genericAcc api c = .ok (some v, some k, some m) ∧
      r = (if v = k then v else api.vk v k) ∧
      some (val v) = firstMatch (laneArms api den val c.Limbs) (valOf api val e) ∧
      den k = true := by
  unfold compileGenericCase at h
  cases hacc : genericAcc api c with
  | error e => simp [hacc, Result.bind] at h
  | panic e => simp [hacc, Result.bind] at h
  | ok st =>
    have hacc2 := hacc
    unfold genericAcc genericElse at hacc2
    rw [hE] at hacc2
    cases hs : api.serialized e with
    | error msg => cases e <;> simp_all [Result.bind]
    | panic msg => cases e <;> simp_all [Result.bind]
    | ok t =>
      have hst : genericLimbs api c.Limbs (some (api.unsymbolized t))
          (some (api.mask (api.unsymbolized t))) (some kfalse) = .ok st := by
        cases e <;> simp_all [Result.bind]
      obtain ⟨v, k, m, h1, h2, h3⟩ :=
        genericLimbs_sound api den val hOr hnand hfalse hblend _ _ _ _ _ hst
      subst h1
      refine ⟨v, k, m, rfl, ?_, ?_, h3 (hdefE t hs)⟩
      · simp only [hacc, Result.bind, deref] at h
        by_cases hvk : v = k
        · simp [hvk] at h ⊢; exact h.symm
        · simp [hvk] at h ⊢; exact h.symm
      · rw [h2, hfalse kfalse rfl]
        simp [valOf, hs]

theorem compileGenericCase_first_match_witness :
    (∃ v k m, genericAcc exApi exGenericCase = .ok (some v, some k, some m) ∧
      (compileGenericCase exApi exGenericCase).getD kfalse = (if v = k then v else exApi.vk v k) ∧
      some (evalVal (exLane 3) v) =
        firstMatch (laneArms exApi (evalMask (exLane 3)) (evalVal (exLane 3)) exGenericCase.Limbs)
          (valOf exApi (evalVal (exLane 3)) (.String "neg")) ∧
      evalMask (exLane 3) k = true) ∧
    [evalVal (exLane 10) ((compileGenericCase exApi exGenericCase).getD kfalse),
      evalVal (exLane 3) ((compileGenericCase exApi exGenericCase).getD kfalse),
      evalVal (exLane (-1)) ((compileGenericCase exApi exGenericCase).getD kfalse)] =
      ["big", "small", "neg"] :=
  ⟨compileGenericCase_first_match exApi (evalMask (exLane 3)) (evalVal (exLane 3)) exGenericCase
    (.String "neg") ((compileGenericCase exApi exGenericCase).getD kfalse)
    (fun _ _ => rfl) (fun _ _ => rfl) (evalMask_kfalse (exLane 3)) (fun _ _ _ => rfl) rfl
    (by simp) (fun t ht => by cases ht; decide) (by decide), by decide⟩

/-! ## C3: numeric CASE with a statically MISSING arm -/

/-- C3, evaluation at the failing input: in `CASE WHEN c1 THEN t ELSE 1 END`
the THEN is lowered to the all-false node; `compileNumericCase` returns the
broadcast of the ELSE under the all-valid mask, so that on a lane where the
WHEN is true the result is valid and carries the value of the ELSE. -/
theorem compileNumericCase_else_leak :
    exApi.compileAsNumber (.Other 0) = .ok kfalse ∧
    compileNumericCase exApi exNumericCase =
      .ok (exApi.floatk (.ssa0 .sbroadcastf (.int 1)) validLanes) ∧
    laneOf exApi (evalMask exMissLane) (.Other 1) = true ∧
    evalMask exMissLane validLanes = true := by
  decide

/-! ## C4: the validity mask of the generic CASE -/

/-- C4, evaluation at the failing input: in `CASE WHEN c1 THEN x ELSE 'neg' END`,
on a lane where the WHEN is true and the field `x` is missing, the selected arm
(the THEN) has no defined value, yet the mask `k` that `compileGenericCase`
pairs with its value is true: it starts as the mask of the ELSE and only grows. -/
theorem compileGenericCase_else_leak :
    genericAcc exApi exLeakCase =
      .ok (some (.ssa3 .sblendv (.ssa0 .sliteral (.str "neg")) (dotOf "x")
          (exApi.nand kfalse (cmpOf 1)) .nil),
        some (exApi.Or validLanes (exApi.And (exApi.nand kfalse (cmpOf 1)) (dotOf "x"))),
        some (exApi.Or kfalse (cmpOf 1))) ∧
    compileGenericCase exApi exLeakCase =
      .ok (exApi.vk (.ssa3 .sblendv (.ssa0 .sliteral (.str "neg")) (dotOf "x")
          (exApi.nand kfalse (cmpOf 1)) .nil)
        (exApi.Or validLanes (exApi.And (exApi.nand kfalse (cmpOf 1)) (dotOf "x")))) ∧
    laneOf exApi (evalMask exMissLane) (.Other 1) = true ∧
    evalMask exMissLane (exApi.mask (dotOf "x")) = false ∧
    evalMask exMissLane
      (exApi.Or validLanes (exApi.And (exApi.nand kfalse (cmpOf 1)) (dotOf "x"))) = true := by
  decide

/-! # Part III: theorems on the coercions, casts and builtin calls -/

theorem typeset_ne :
    IntegerType ≠ MissingType ∧ IntegerType ≠ NullType ∧ IntegerType ≠ BoolType ∧
    ListType ≠ MissingType ∧ ListType ≠ NullType ∧ ListType ≠ BoolType ∧
    ListType ≠ IntegerType ∧ ListType ≠ FloatType ∧ ListType ≠ StringType ∧
    ListType ≠ TimeType := by decide

/-- A node of boxed-generic primary type has the value bit in its return type. -/
theorem ret_value_of_primary (api : ssaapi) (v : vterm) (h : v.primary api = stValue) :
    v.ret api &&& stValue ≠ 0 := by
  unfold vterm.primary at h
  by_cases hb : v.ret api = stBool
  · simp [hb] at h
    exact absurd h (by decide)
  · simp only [hb, if_false] at h
    intro h0
    have h1 := congrArg (fun n => Nat.testBit n 1) h
    have h2 := congrArg (fun n => Nat.testBit n 1) h0
    simp [stValue, stBool, stList, Nat.testBit_xor, Nat.testBit_and] at h1 h2
    revert h1 h2
    cases Nat.testBit (vterm.ret api v) 1 <;> simp [Nat.testBit]

/-! ## C11: a cast of a literal is not folded -/

/-- C11 (counterexample): `CAST(3.7 AS INTEGER)`: the literal compiles to the
constant 3.7 and the cast to the conversion `unboxcvti64` over that constant
under the all-valid mask, which is not the constant 4. -/
theorem compileCast_literal_not_folded :
    exProg.compile (.Float (37 / 10)) = .ok (exProg.Constant (.float (37 / 10))) ∧
    compileCast exProg ⟨.Float (37 / 10), IntegerType⟩ =
      .ok (.ssa2 .sunboxcvti64 (.ssa0 .sliteral (.float (37 / 10))) validLanes .nil) ∧
    compileCast exProg ⟨.Float (37 / 10), IntegerType⟩ ≠ .ok (exProg.Constant (.int 4)) := by
  refine ⟨rfl, rfl, ?_⟩
  intro h
  have h2 := congrArg (fun r => match r with | Result.ok v => v.op | _ => ssaop.sinvalid) h
  exact absurd h2 (by decide)

/-- C11 (amended): a cast to IntegerType of an expression compiled to `frm`
returns `frm` itself (integer source), a conversion node over `frm`
(`cvt.k@i`, `roundi`, `unboxcvti64`) or the false node; when the result is a
literal it is the source node, so no new constant is computed. -/
theorem compileCast_integer_no_fold (api : progapi) (c : Cast) (frm : vterm)
    (hTo : c.To = IntegerType) (hfrom : api.compile c.From = .ok frm) :
    ∃ r, compileCast api c = .ok r ∧
      (r = frm ∨ r = .ssa2 .scvtktoi frm (api.notMissing frm) .nil ∨
        r = .ssa2 .sroundi frm (api.mask frm) .nil ∨
        r = .ssa2 .sunboxcvti64 frm (api.mask frm) .nil ∨ r = kfalse) ∧
      (r.op = .sliteral → r = frm) := by
  obtain ⟨h1, h2, h3, -⟩ := typeset_ne
  unfold compileCast
  simp only [hfrom, Result.bind, hTo, h1, h2, h3, if_false, if_true]
  split_ifs <;> simp [vterm.op, kfalse]

theorem compileCast_integer_no_fold_witness :
    ∃ r, compileCast exProg ⟨.Float (37 / 10), IntegerType⟩ = .ok r ∧
      (r = .ssa0 .sliteral (.float (37 / 10)) ∨
        r = .ssa2 .scvtktoi (.ssa0 .sliteral (.float (37 / 10)))
          (exProg.notMissing (.ssa0 .sliteral (.float (37 / 10)))) .nil ∨
        r = .ssa2 .sroundi (.ssa0 .sliteral (.float (37 / 10)))
          (exProg.mask (.ssa0 .sliteral (.float (37 / 10)))) .nil ∨
        r = .ssa2 .sunboxcvti64 (.ssa0 .sliteral (.float (37 / 10)))
          (exProg.mask (.ssa0 .sliteral (.float (37 / 10)))) .nil ∨ r = kfalse) ∧
      (r.op = .sliteral → r = .ssa0 .sliteral (.float (37 / 10))) :=
  compileCast_integer_no_fold exProg ⟨.Float (37 / 10), IntegerType⟩
    (.ssa0 .sliteral (.float (37 / 10))) rfl rfl

/-! ## C12: an impossible cast to a list -/

/-- C12: when the source node has no list bit in its return type and its
primary type is not boxed-generic, the cast to ListType returns the false node,
without error: no tag check and no conversion is built. -/
theorem compileCast_list_impossible (api : progapi) (c : Cast) (frm : vterm)
    (hTo : c.To = ListType) (hfrom : api.compile c.From = .ok frm)
    (hl : frm.ret api.tossaapi &&& stList = 0) (hp : frm.primary api.tossaapi ≠ stValue) :
    compileCast api c = .ok kfalse := by
  obtain ⟨-, -, -, h1, h2, h3, h4, h5, h6, h7⟩ := typeset_ne
  unfold compileCast
  simp [hfrom, Result.bind, hTo, h1, h2, h3, h4, h5, h6, h7, hl, hp]

theorem compileCast_list_impossible_witness :
    compileCast exProg ⟨.Arithmetic 1, ListType⟩ = .ok kfalse :=
  compileCast_list_impossible exProg ⟨.Arithmetic 1, ListType⟩ (.ssa0 .sbroadcastf (.int 1))
    rfl rfl (by decide) (by decide)

/-! ## C13: casts of a boxed-generic value -/

/-- C13 (counterexample): the cast of a path (boxed-generic) to IntegerType is
the conversion `unboxcvti64` with no `checktag` node in it, and the cast to
MissingType is the false constant. -/
theorem compileCast_value_without_checktag :
    (dotOf "x").primary exProg.tossaapi = stValue ∧
    compileCast exProg ⟨.Path "x", IntegerType⟩ =
      .ok (.ssa2 .sunboxcvti64 (dotOf "x") (dotOf "x") .nil) ∧
    (vterm.ssa2 .sunboxcvti64 (dotOf "x") (dotOf "x") .nil).hasOp .schecktag = false ∧
    compileCast exProg ⟨.Path "x", MissingType⟩ = .ok kfalse := by
  decide

/-- C13 (amended): for a source node `frm` of boxed-generic primary type, the
cast to boolean, string, time, list (without a list bit), struct, decimal or
symbol is built on a `checktag` of `frm`; the cast to integer or float is the
unboxing conversion alone, the cast to a list of a node with a list bit is the
node itself, and the casts to MISSING and NULL are constants. -/
theorem compileCast_value (api : progapi) (c : Cast) (frm : vterm)
    (hfrom : api.compile c.From = .ok frm) (hp : frm.primary api.tossaapi = stValue) :
    (c.To = BoolType → compileCast api c = .ok (api.nand
        (api.Or (.ssa2 .sequalconst frm (api.mask frm) (.int 0))
          (.ssa2 .sisfalse frm (api.mask frm) .nil))
        (checkTag api frm (BoolType ||| NumericType)))) ∧
    (c.To = StringType → compileCast api c = .ok (checkTag api frm (StringType ||| SymbolType))) ∧
    (c.To = TimeType → compileCast api c = .ok (checkTag api frm TimeType)) ∧
    (c.To = ListType → compileCast api c =
      if frm.ret api.tossaapi &&& stList ≠ 0 then .ok frm else .ok (checkTag api frm ListType)) ∧
    (c.To = StructType ∨ c.To = DecimalType ∨ c.To = SymbolType →
      compileCast api c = .ok (checkTag api frm c.To)) ∧
    (c.To = IntegerType → compileCast api c = .ok (.ssa2 .sunboxcvti64 frm (api.mask frm) .nil)) ∧
    (c.To = FloatType → compileCast api c = .ok (.ssa2 .sunboxcvtf64 frm (api.mask frm) .nil)) ∧
    (c.To = MissingType → compileCast api c = .ok kfalse) ∧
    (c.To = NullType → compileCast api c = .ok (api.Constant .nil)) := by
  have hv := ret_value_of_primary api.tossaapi frm hp
  have hne : stValue ≠ stBool ∧ stValue ≠ stInt ∧ stValue ≠ stFloat ∧ stValue ≠ stString ∧
      stValue ≠ stTime := by decide
  obtain ⟨n1, n2, n3, n4, n5⟩ := hne
  refine ⟨?_, ?_, ?_, ?_, ?_, ?_, ?_, ?_, ?_⟩
  · intro h
    unfold compileCast
    simp [hfrom, Result.bind, h, hp, n1, n2, n3, BoolType, MissingType, NullType]
  · intro h
    unfold compileCast
    simp [hfrom, Result.bind, h, hp, n2, n4, StringType, BoolType, MissingType, NullType,
      IntegerType, FloatType]
  · intro h
    unfold compileCast
    simp [hfrom, Result.bind, h, hp, n5, StringType, BoolType, MissingType, NullType,
      IntegerType, FloatType, TimeType]
  · intro h
    unfold compileCast
    simp [hfrom, Result.bind, h, hp, StringType, BoolType, MissingType, NullType,
      IntegerType, FloatType, TimeType, ListType]
  · intro h
    unfold compileCast
    rcases h with h | h | h <;>
      simp [hfrom, Result.bind, h, hv, StringType, BoolType, MissingType, NullType,
        IntegerType, FloatType, TimeType, ListType, StructType, DecimalType, SymbolType]
  · intro h
    unfold compileCast
    simp [hfrom, Result.bind, h, hp, n1, n2, n3, BoolType, MissingType, NullType, IntegerType]
  · intro h
    unfold compileCast
    simp [hfrom, Result.bind, h, hp, n1, n2, n3, BoolType, MissingType, NullType, IntegerType,
      FloatType]
  · intro h
    unfold compileCast
    simp [hfrom, Result.bind, h]
  · intro h
    unfold compileCast
    simp [hfrom, Result.bind, h, MissingType, NullType]

theorem compileCast_value_witness :
    (dotOf "x").primary exProg.tossaapi = stValue ∧
    compileCast exProg ⟨.Path "x", StringType⟩ =
      .ok (checkTag exProg (dotOf "x") (StringType ||| SymbolType)) :=
  ⟨by decide,
    (compileCast_value exProg ⟨.Path "x", StringType⟩ (dotOf "x") rfl (by decide)).2.1 rfl⟩

/-! ## C14: a builtin call in boolean context -/

/-- C14 (failing input): `OBJECT_SIZE(x)` in boolean context: `compilefunc`
builds the `objectsize` node, of integer type, and `compileAsBool` returns that
node as it is, without an error. -/
theorem compileAsBool_builtin_unchecked :
    compilefunc exProg .ObjectSize "OBJECT_SIZE" [.Path "x"] [.Path "x"] =
      .ok (.ssa2 .sobjectsize (dotOf "x") (dotOf "x") .nil) ∧
    exProg.compile (.Builtin .ObjectSize "OBJECT_SIZE" [.Path "x"]) =
      compilefunc exProg .ObjectSize "OBJECT_SIZE" [.Path "x"] [.Path "x"] ∧
    compileAsBool exProg (.Builtin .ObjectSize "OBJECT_SIZE" [.Path "x"]) =
      .ok (.ssa2 .sobjectsize (dotOf "x") (dotOf "x") .nil) ∧
    (vterm.ssa2 .sobjectsize (dotOf "x") (dotOf "x") .nil).ret exProg.tossaapi = stInt ∧
    (vterm.ssa2 .sobjectsize (dotOf "x") (dotOf "x") .nil).ret exProg.tossaapi ≠ stBool := by
  decide

/-! ## C15: the constants in boolean context -/

/-- C15: whatever the compiler behind it (so `compile` has no part in it),
`compileAsBool` returns the false node for NULL, MISSING and FALSE and the
all-valid mask for TRUE, each without error and with no other node built. -/
theorem compileAsBool_constants (api : progapi) :
    compileAsBool api .Null = .ok kfalse ∧ compileAsBool api .Missing = .ok kfalse ∧
    compileAsBool api (.Bool false) = .ok kfalse ∧
    compileAsBool api (.Bool true) = .ok validLanes ∧
    kfalse.op = .skfalse ∧ validLanes.op = .sinit := by
  refine ⟨rfl, rfl, ?_, ?_, rfl, rfl⟩ <;> simp [compileAsBool]

/-! ## C16: the contract of `compileAsNumber` -/

/-- C16: for an expression that is not a CASE and compiles to `v`,
`compileAsNumber` returns `v` itself when `v` is a literal, is boxed-generic,
or has the int or the float bit in its primary type, and an error otherwise;
in particular for a string, time, boolean or list primary type. -/
theorem compileAsNumber_contract (api : progapi) (e : Node) (v : vterm)
    (hcase : ∀ l els val, e ≠ .Case l els val) (hv : api.compile e = .ok v) :
    (v.op = .sliteral ∨ v.primary api.tossaapi = stValue ∨
        v.primary api.tossaapi &&& (stInt ||| stFloat) ≠ 0 →
      compileAsNumber api e = .ok v) ∧
    (¬ (v.op = .sliteral ∨ v.primary api.tossaapi = stValue ∨
        v.primary api.tossaapi &&& (stInt ||| stFloat) ≠ 0) →
      ∃ msg, compileAsNumber api e = .error msg) ∧
    (v.op ≠ .sliteral →
      v.primary api.tossaapi = stString ∨ v.primary api.tossaapi = stTime ∨
        v.primary api.tossaapi = stTimeInt ∨ v.primary api.tossaapi = stBool ∨
        v.primary api.tossaapi = stList →
      ∃ msg, compileAsNumber api e = .error msg) := by
  have hdef : compileAsNumber api e =
      if v.op = .sliteral ∨ v.primary api.tossaapi = stValue then .ok v
      else if v.primary api.tossaapi &&& (stInt ||| stFloat) = 0 then
        if v.op = .sinvalid then .error "compiling: invalid node"
        else .error "can't compile as a number"
      else .ok v := by
    cases e <;> first
      | exact absurd rfl (hcase _ _ _)
      | simp [compileAsNumber, hv, Result.bind]
  have herr : ¬ (v.op = .sliteral ∨ v.primary api.tossaapi = stValue ∨
        v.primary api.tossaapi &&& (stInt ||| stFloat) ≠ 0) →
      ∃ msg, compileAsNumber api e = .error msg := by
    intro h
    rw [hdef]
    push_neg at h
    obtain ⟨h1, h2, h3⟩ := h
    simp only [h1, h2, h3, or_self, if_false, if_true]
    split_ifs
    · exact ⟨_, rfl⟩
    · exact ⟨_, rfl⟩
  refine ⟨?_, herr, ?_⟩
  · intro h
    rw [hdef]
    rcases h with h | h | h
    · simp [h]
    · simp [h]
    · simp [h]
  · intro hl hp
    apply herr
    rcases hp with h | h | h | h | h <;> rw [h] <;> rintro (h1 | h1 | h1) <;>
      first
        | exact hl h1
        | exact absurd h1 (by decide)

theorem compileAsNumber_contract_witness :
    compileAsNumber exProg (.Path "x") = .ok (dotOf "x") ∧
    ∃ msg, compileAsNumber exProg (.Other 1) = .error msg :=
  ⟨(compileAsNumber_contract exProg (.Path "x") (dotOf "x") (by simp) rfl).1
      (Or.inr (Or.inl (by decide))),
    (compileAsNumber_contract exProg (.Other 1) (cmpOf 1) (by simp) rfl).2.1 (by decide)⟩

/-! ## C17: the contract of `compileAsString` -/

/-- C17: for an expression that compiles to `v`, `compileAsString` returns `v`
itself when `v` is a literal or has string primary type, the `tostr` node over
the unsymbolized `v` under that value's mask when `v` is boxed-generic, and an
error for any other primary type. -/
theorem compileAsString_contract (api : progapi) (e : Node) (v : vterm)
    (hv : api.compile e = .ok v) :
    (v.op = .sliteral ∨ v.primary api.tossaapi = stString → compileAsString api e = .ok v) ∧
    (v.op ≠ .sliteral → v.primary api.tossaapi = stValue →
      compileAsString api e =
        .ok (.ssa2 .stostr (api.unsymbolized v) (api.mask (api.unsymbolized v)) .nil)) ∧
    (v.op ≠ .sliteral → v.primary api.tossaapi ≠ stString → v.primary api.tossaapi ≠ stValue →
      ∃ msg, compileAsString api e = .error msg) := by
  refine ⟨?_, ?_, ?_⟩
  · intro h
    unfold compileAsString
    rcases h with h | h
    · simp [hv, Result.bind, h]
    · simp [hv, Result.bind, h]
  · intro h1 h2
    unfold compileAsString
    have h3 : stValue ≠ stString := by decide
    simp [hv, Result.bind, h1, h2, h3]
  · intro h1 h2 h3
    unfold compileAsString
    simp [hv, Result.bind, h1, h2, h3]

theorem compileAsString_contract_witness :
    compileAsString exProg (.String "a") = .ok (.ssa0 .sliteral (.str "a")) ∧
    compileAsString exProg (.Path "x") = .ok (.ssa2 .stostr (dotOf "x") (dotOf "x") .nil) ∧
    ∃ msg, compileAsString exProg (.Other 1) = .error msg :=
  ⟨(compileAsString_contract exProg (.String "a") (.ssa0 .sliteral (.str "a")) rfl).1
      (Or.inl rfl),
    (compileAsString_contract exProg (.Path "x") (dotOf "x") rfl).2.1 (by decide) (by decide),
    (compileAsString_contract exProg (.Other 1) (cmpOf 1) rfl).2.2 (by decide) (by decide)
      (by decide)⟩

/-! ## C18: the contract of `compileargs` -/

theorem compileargsFrom_ok (api : progapi) (args : List Node) :
    ∀ (types : List compileType) (i : Nat),
      (∀ r ∈ List.zipWith (compileSlot api) types args, r.isOk = true) →
      compileargsFrom api i args types =
        .ok ((List.zipWith (compileSlot api) types args).map fun r => r.getD none) := by
  induction args with
  | nil => intro types i _; cases types <;> simp [compileargsFrom]
  | cons a rest ih =>
    intro types i h
    cases types with
    | nil => simp [compileargsFrom]
    | cons t ts =>
      simp only [List.zipWith_cons_cons, List.mem_cons, forall_eq_or_imp] at h
      obtain ⟨hv0, hrest⟩ := h
      obtain ⟨v, hv⟩ : ∃ v, compileSlot api t a = .ok v := by
        cases hs : compileSlot api t a <;> simp [hs, Result.isOk] at hv0 ⊢
      simp [compileargsFrom, hv, ih ts (i + 1) hrest, Result.bind, Result.getD]

theorem compileargsFrom_error (api : progapi) (args : List Node) :
    ∀ (types : List compileType) (i : Nat) (oks : List (Result (Option vterm))) (msg : String)
      (rest : List (Result (Option vterm))),
      List.zipWith (compileSlot api) types args = oks ++ .error msg :: rest →
      (∀ r ∈ oks, r.isOk = true) →
      compileargsFrom api i args types =
        .error ("argument " ++ toString (i + oks.length + 1) ++ ": " ++ msg) := by
  induction args with
  | nil => intro types i oks msg rest h; cases types <;> simp at h
  | cons a as ih =>
    intro types i oks msg rest h hok
    cases types with
    | nil => simp at h
    | cons t ts =>
      rw [List.zipWith_cons_cons] at h
      cases oks with
      | nil =>
        simp only [List.nil_append, List.cons.injEq] at h
        simp [compileargsFrom, h.1]
      | cons o os =>
        simp only [List.cons_append, List.cons.injEq] at h
        obtain ⟨v, hv⟩ : ∃ v, o = .ok v := by
          have := hok o (List.mem_cons_self _ _)
          cases o <;> simp [Result.isOk] at this ⊢
        have hos : ∀ r ∈ os, r.isOk = true :=
          fun r hr => hok r (List.mem_cons_of_mem _ hr)
        have e : i + 1 + os.length + 1 = i + (os.length + 1) + 1 := by omega
        simp [compileargsFrom, h.1, hv, ih ts (i + 1) os msg rest h.2 hos, Result.bind, e]

theorem compileargsFrom_error_inv (api : progapi) (args : List Node) :
    ∀ (types : List compileType) (i : Nat) (m : String),
      compileargsFrom api i args types = .error m →
      ∃ oks msg rest, List.zipWith (compileSlot api) types args = oks ++ .error msg :: rest ∧
        (∀ r ∈ oks, r.isOk = true) := by
  induction args with
  | nil => intro types i m h; cases types <;> simp [compileargsFrom] at h
  | cons a as ih =>
    intro types i m h
    cases types with
    | nil => simp [compileargsFrom] at h
    | cons t ts =>
      rw [List.zipWith_cons_cons]
      cases hs : compileSlot api t a with
      | ok v =>
        simp only [compileargsFrom, hs] at h
        cases hr : compileargsFrom api (i + 1) as ts with
        | ok r => simp [hr, Result.bind] at h
        | panic e => simp [hr, Result.bind] at h
        | error e =>
          obtain ⟨oks, msg, rest, h1, h2⟩ := ih ts (i + 1) e hr
          refine ⟨.ok v :: oks, msg, rest, by simp [h1], ?_⟩
          intro r hr
          rcases List.mem_cons.1 hr with h3 | h3
          · rw [h3]; rfl
          · exact h2 r h3
      | error e => exact ⟨[], e, _, rfl, by simp⟩
      | panic e => simp [compileargsFrom, hs] at h

theorem first_not_ok {α : Type} : ∀ (l : List (Result α)), (∃ r ∈ l, r.isOk = false) →
    ∃ oks r rest, l = oks ++ r :: rest ∧ (∀ x ∈ oks, x.isOk = true) ∧ r.isOk = false := by
  intro l
  induction l with
  | nil => intro h; simp at h
  | cons x xs ih =>
    intro h
    by_cases hx : x.isOk = true
    · obtain ⟨r, hr, hr2⟩ := h
      rcases List.mem_cons.1 hr with h1 | h1
      · rw [h1, hx] at hr2; exact absurd hr2 (by decide)
      · obtain ⟨oks, r0, rest, h2, h3, h4⟩ := ih ⟨r, h1, hr2⟩
        refine ⟨x :: oks, r0, rest, by simp [h2], ?_, h4⟩
        intro y hy
        rcases List.mem_cons.1 hy with h5 | h5
        · rw [h5]; exact hx
        · exact h3 y h5
    · exact ⟨[], x, xs, rfl, by simp, by simpa using hx⟩

/-- C18: `compileargs` against the results of the coercions of its slots, in
order (`compileSlot` of type and argument): with a wrong count it returns the
error of the count; with the right count and every slot compiled it returns
one entry per argument, the compiled nodes with nil for a literal-string or an
omitted slot; when the first slot that is not compiled fails with `msg` it
returns `argument i: msg` for its 1-based index `i`, whatever the later slots
are; it returns no other error, and it returns an error whenever some slot
fails and none panics; and a literal-string slot fails exactly on an argument
that is not a string literal. -/
theorem compileargs_contract (api : progapi) (args : List Node) (types : List compileType) :
    (types.length ≠ args.length →
      compileargs api args types = .error
        ("expects " ++ toString types.length ++ " arguments, got " ++ toString args.length)) ∧
    (types.length = args.length →
      (∀ r ∈ List.zipWith (compileSlot api) types args, r.isOk = true) →
      compileargs api args types =
          .ok ((List.zipWith (compileSlot api) types args).map fun r => r.getD none) ∧
        ((List.zipWith (compileSlot api) types args).map fun r => r.getD none).length =
          args.length) ∧
    (types.length = args.length →
      ∀ oks msg rest, List.zipWith (compileSlot api) types args = oks ++ .error msg :: rest →
        (∀ r ∈ oks, r.isOk = true) →
        compileargs api args types =
          .error ("argument " ++ toString (oks.length + 1) ++ ": " ++ msg)) ∧
    (∀ m, compileargs api args types = .error m →
      types.length ≠ args.length ∨
      ∃ oks msg rest, List.zipWith (compileSlot api) types args = oks ++ .error msg :: rest ∧
        (∀ r ∈ oks, r.isOk = true)) ∧
    (types.length = args.length →
      (∀ r ∈ List.zipWith (compileSlot api) types args, ∀ e, r ≠ Result.panic e) →
      (∃ r ∈ List.zipWith (compileSlot api) types args, r.isOk = false) →
      ∃ m, compileargs api args types = .error m) ∧
    (∀ s, compileSlot api .literalString (.String s) = .ok none) ∧
    (∀ a, (∀ s, a ≠ .String s) → ∃ msg, compileSlot api .literalString a = .error msg) ∧
    (∀ a, compileSlot api .omit a = .ok none) := by
  have herr : types.length = args.length →
      ∀ oks msg rest, List.zipWith (compileSlot api) types args = oks ++ .error msg :: rest →
        (∀ r ∈ oks, r.isOk = true) →
        compileargs api args types =
          .error ("argument " ++ toString (oks.length + 1) ++ ": " ++ msg) := by
    intro h oks msg rest hz hok
    simp only [compileargs, h, ne_eq, not_true_eq_false, if_false]
    have := compileargsFrom_error api args types 0 oks msg rest hz hok
    simpa using this
  refine ⟨?_, ?_, herr, ?_, ?_, ?_, ?_, ?_⟩
  · intro h
    simp [compileargs, h]
  · intro h hok
    refine ⟨?_, ?_⟩
    · simp only [compileargs, h, ne_eq, not_true_eq_false, if_false]
      exact compileargsFrom_ok api args types 0 hok
    · simp [h]
  · intro m hm
    by_cases h : types.length = args.length
    · right
      simp only [compileargs, h, ne_eq, not_true_eq_false, if_false] at hm
      exact compileargsFrom_error_inv api args types 0 m hm
    · exact Or.inl h
  · intro h hnp hbad
    obtain ⟨oks, r, rest, hz, hok, hr⟩ := first_not_ok _ hbad
    cases r with
    | ok v => simp [Result.isOk] at hr
    | error msg => exact ⟨_, herr h oks msg rest hz hok⟩
    | panic e => exact absurd rfl (hnp (.panic e) (by simp [hz]) e)
  · intro s
    rfl
  · intro a ha
    cases a <;> first
      | exact absurd rfl (ha _)
      | exact ⟨_, rfl⟩
  · intro a
    rfl

theorem compileargs_contract_witness :
    compileargs exProg [.Path "x", .String "a", .Other 1] [.compileNumber, .literalString] =
      .error "expects 2 arguments, got 3" ∧
    compileargs exProg [.Path "x", .String "a"] [.compileNumber, .literalString] =
      .ok [some (dotOf "x"), none] ∧
    compileargs exProg [.Path "x", .Integer 1, .Other 1]
        [.compileNumber, .literalString, .compileNumber] =
      .error "argument 2: expected literal string" :=
  ⟨(compileargs_contract exProg [.Path "x", .String "a", .Other 1]
      [.compileNumber, .literalString]).1 (by decide),
    ((compileargs_contract exProg [.Path "x", .String "a"]
      [.compileNumber, .literalString]).2.1 rfl (by decide)).1,
    (compileargs_contract exProg [.Path "x", .Integer 1, .Other 1]
      [.compileNumber, .literalString, .compileNumber]).2.2.1 rfl [.ok (some (dotOf "x"))]
      "expected literal string" [.error "can't compile as a number"] rfl (by decide)⟩

/-! ## C19: builtins that index their arguments -/

/-- C19 (failing input): `DATE_TRUNC` and `TYPE_BIT` read `args[0]` with no look
at the count: called with no argument they panic (index out of range), for any
compiler behind them, where `compilefunc` should return an error; and
`TYPE_BIT(x, y)`, one argument too many, compiles to the type bits of `x`. -/
theorem compilefunc_count_unchecked (api : progapi) (part : Timepart) (name : String)
    (bargs : List Node) :
    compilefunc api (.DateTrunc part) name bargs [] = .panic "index out of range" ∧
    compilefunc api .TypeBit name bargs [] = .panic "index out of range" ∧
    compilefunc api .AssertIonType name bargs [] = .panic "index out of range" ∧
    compilefunc exProg .TypeBit "TYPE_BIT" [.Path "x", .Path "y"] [.Path "x", .Path "y"] =
      .ok (.ssa2 .stypebits (dotOf "x") (dotOf "x") .nil) ∧
    compilefunc exProg .TypeBit "TYPE_BIT" [.Path "x"] [.Path "x"] =
      .ok (.ssa2 .stypebits (dotOf "x") (dotOf "x") .nil) := by
  refine ⟨rfl, rfl, rfl, ?_, ?_⟩ <;> decide

/-! ## C20: the ELSE value of HASH_LOOKUP -/

theorem constDatums_length : ∀ (l : List Node) (ds : List Datum),
    constDatums l = .ok ds → ds.length = l.length := by
  intro l
  induction l with
  | nil => intro ds h; simp [constDatums] at h; simp [← h]
  | cons a rest ih =>
    intro ds h
    simp only [constDatums] at h
    cases ha : a.datum with
    | none => simp [ha] at h
    | some d =>
      simp only [ha] at h
      cases hr : constDatums rest with
      | ok r =>
        simp [hr, Result.bind] at h
        simp [← h, ih r hr]
      | error e => simp [hr, Result.bind] at h
      | panic e => simp [hr, Result.bind] at h

/-- C20 (counterexample): `HASH_LOOKUP(x, 1, 2)`, three arguments, is the plain
lookup in the table of the pair (1, 2), with no blend; `HASH_LOOKUP(x, 1, 2, 3)`,
four arguments, is the blend of the lookup in the table (1, 2) with the ELSE
constant 3. -/
theorem compileHashLookup_odd_count_no_else :
    compileHashLookup exProg [.Path "x", .Integer 1, .Integer 2] =
      .ok (.ssa2 .shashlookup (dotOf "x") (dotOf "x") (.datums [.int 1, .int 2])) ∧
    (vterm.ssa2 .shashlookup (dotOf "x") (dotOf "x") (.datums [.int 1, .int 2])).hasOp .sblendv
      = false ∧
    compileHashLookup exProg [.Path "x", .Integer 1, .Integer 2, .Integer 3] =
      .ok (.ssa2 .svk
        (.ssa3 .sblendv
          (.ssa2 .shashlookup (dotOf "x") (dotOf "x") (.datums [.int 1, .int 2]))
          (.ssa0 .sliteral (.datum (.int 3)))
          (.ssa2 .snand (.ssa2 .shashlookup (dotOf "x") (dotOf "x") (.datums [.int 1, .int 2]))
            validLanes .nil)
          .nil)
        (dotOf "x") .nil) := by
  decide

/-- C20 (amended): for a list of at least two arguments whose first compiles to
`v` and whose others are constants with the datums `ds`: with an even count of
arguments the last datum is the ELSE value, blended with the lookup in the
table of the datums before it; with an odd count the result is the lookup in
the table of all of `ds`, taken as (key, result) pairs. -/
theorem compileHashLookup_else (api : progapi) (base a : Node) (rest : List Node)
    (v : vterm) (ds : List Datum)
    (hv : api.serialized base = .ok v) (hds : constDatums (a :: rest) = .ok ds) :
    ds.length + 1 = (base :: a :: rest).length ∧
    ((base :: a :: rest).length % 2 = 0 →
      compileHashLookup api (base :: a :: rest) = .ok (api.vk
        (.ssa3 .sblendv
          (.ssa2 .shashlookup (api.hash v) (api.mask (api.hash v)) (.datums ds.dropLast))
          (api.Constant (.datum (ds.getLastD .null)))
          (api.Not
            (.ssa2 .shashlookup (api.hash v) (api.mask (api.hash v)) (.datums ds.dropLast)))
          .nil)
        (api.mask v))) ∧
    ((base :: a :: rest).length % 2 = 1 →
      compileHashLookup api (base :: a :: rest) =
        .ok (.ssa2 .shashlookup (api.hash v) (api.mask (api.hash v)) (.datums ds))) := by
  have hlen := constDatums_length (a :: rest) ds hds
  refine ⟨by simp [hlen], ?_, ?_⟩
  · intro h
    have h2 : ds.length % 2 = 1 := by
      simp only [List.length_cons] at h hlen
      omega
    simp [compileHashLookup, hds, Result.bind, hashLookup, hv, h2]
  · intro h
    have h2 : ds.length % 2 = 0 := by
      simp only [List.length_cons] at h hlen
      omega
    simp [compileHashLookup, hds, Result.bind, hashLookup, hv, h2]

theorem compileHashLookup_else_witness :
    compileHashLookup exProg [.Path "x", .Integer 1, .Integer 2, .Integer 3] =
      .ok (exProg.vk
        (.ssa3 .sblendv
          (.ssa2 .shashlookup (exProg.hash (dotOf "x")) (exProg.mask (exProg.hash (dotOf "x")))
            (.datums [Datum.int 1, .int 2, .int 3].dropLast))
          (exProg.Constant (.datum ([Datum.int 1, .int 2, .int 3].getLastD .null)))
          (exProg.Not
            (.ssa2 .shashlookup (exProg.hash (dotOf "x")) (exProg.mask (exProg.hash (dotOf "x")))
              (.datums [Datum.int 1, .int 2, .int 3].dropLast)))
          .nil)
        (exProg.mask (dotOf "x"))) :=
  (compileHashLookup_else exProg (.Path "x") (.Integer 1) [.Integer 2, .Integer 3] (dotOf "x")
    [.int 1, .int 2, .int 3] rfl rfl).2.1 rfl

/-! # Part IV: dead limbs, primary types and serialization -/

theorem logicalLimbs_skip (api : ssaapi) (l : CaseLimb) (w : vterm)
    (hw : api.compileAsBool l.When = .ok w) (hk : w.op = .skfalse) (post : List CaseLimb) :
    ∀ (pre : List CaseLimb) (outk merged : vterm),
      logicalLimbs api (pre ++ l :: post) outk merged =
        logicalLimbs api (pre ++ post) outk merged := by
  intro pre
  induction pre with
  | nil => intro outk merged; simp [logicalLimbs, hw, Result.bind, hk]
  | cons x xs ih => intro outk merged; simp only [List.cons_append, logicalLimbs, List.append_eq, ih]

theorem genericLimbs_skip (api : ssaapi) (l : CaseLimb) (w : vterm)
    (hw : api.compileAsBool l.When = .ok w) (hk : w.op = .skfalse) (post : List CaseLimb) :
    ∀ (pre : List CaseLimb) (v k merged : Option vterm),
      genericLimbs api (pre ++ l :: post) v k merged =
        genericLimbs api (pre ++ post) v k merged := by
  intro pre
  induction pre with
  | nil => intro v k merged; simp [genericLimbs, hw, Result.bind, hk]
  | cons x xs ih => intro v k merged; simp only [List.cons_append, genericLimbs, List.append_eq, ih]

theorem numericLimbs_skip (api : ssaapi) (l : CaseLimb) (w : vterm)
    (hw : api.compileAsBool l.When = .ok w) (hk : w.op = .skfalse) (post : List CaseLimb) :
    ∀ (pre : List CaseLimb) (outnum outk merged : Option vterm),
      numericLimbs api (pre ++ l :: post) outnum outk merged =
        numericLimbs api (pre ++ post) outnum outk merged := by
  intro pre
  induction pre with
  | nil => intro outnum outk merged; simp [numericLimbs, hw, Result.bind, hk]
  | cons x xs ih => intro outnum outk merged; simp only [List.cons_append, numericLimbs, List.append_eq, ih]

/-! ## C21: a limb whose WHEN is the false node -/

/-- In the loop of `compileNumericCase`, a live limb whose THEN is compiled as
a number to a literal that is not a number (NULL, a string) is a compile error,
for every builder interface. -/
theorem numericLimbs_literal_error (api : ssaapi) (l : CaseLimb) (rest : List CaseLimb)
    (w t : vterm) (outnum outk merged : Option vterm)
    (hw : api.compileAsBool l.When = .ok w) (hk : w.op ≠ .skfalse)
    (ht : api.compileAsNumber l.Then = .ok t) (hl : t.op = .sliteral)
    (hn : api.isNumericImmediate t.imm = false) :
    numericLimbs api (l :: rest) outnum outk merged =
      .error "is not float nor integer number" := by
  have hf : t.op ≠ .skfalse := by rw [hl]; decide
  simp [numericLimbs, hw, hk, ht, hf, hl, hn, Result.bind]

/-- A CASE without ELSE that starts with a dead limb, followed by a live limb
whose THEN is a literal that is not a number, is a compile error as a number
when the path-limbs test fails, for every builder interface; when the test
holds, the result is the generic CASE coerced, and no arm is compiled as a
number. -/
theorem compileNumericCase_routes (api : ssaapi) (dead l : CaseLimb) (post : List CaseLimb)
    (valence : String) (k w t : vterm)
    (hd : api.compileAsBool dead.When = .ok k) (hdk : k.op = .skfalse)
    (hw : api.compileAsBool l.When = .ok w) (hk : w.op ≠ .skfalse)
    (ht : api.compileAsNumber l.Then = .ok t) (hl : t.op = .sliteral)
    (hn : api.isNumericImmediate t.imm = false) :
    (api.IsPathLimbs ⟨dead :: l :: post, none, valence⟩ = false →
      compileNumericCase api ⟨dead :: l :: post, none, valence⟩ =
        .error "is not float nor integer number") ∧
    (api.IsPathLimbs ⟨l :: post, none, valence⟩ = true →
      compileNumericCase api ⟨l :: post, none, valence⟩ =
        (compileGenericCase api ⟨l :: post, none, valence⟩).bind fun v =>
          .ok (api.floatk (api.coercefp v).1 (api.coercefp v).2)) := by
  constructor
  · intro hp
    have hskip := numericLimbs_skip api dead k hd hdk (l :: post) [] none none none
    simp only [List.nil_append] at hskip
    simp [compileNumericCase, hp, numericElse, hskip,
      numericLimbs_literal_error api l post w t none none none hw hk ht hl hn, Result.bind]
  · intro hp
    simp [compileNumericCase, hp]

/-- C21 (counterexample): `CASE WHEN FALSE THEN 1 WHEN c1 THEN NULL WHEN c2 THEN
x END` as a number is not the path case (the dead limb has the arm `1`): it
goes through the numeric loop, where the NULL of the second limb, compiled as
a number to the literal nil, is a compile error.  The CASE without the dead
limb has only NULL and path arms: it is the path case, goes through the
generic CASE and compiles to a node.  Removing the dead limb turns an error
into a value. -/
theorem compileNumericCase_dead_limb_error :
    exNumberApi.compileAsBool (.Bool false) = .ok kfalse ∧
    exNumberApi.IsPathLimbs exDeadNullCase = false ∧
    exNumberApi.IsPathLimbs exLiveNullCase = true ∧
    exNumberApi.compileAsNumber .Null = .ok (.ssa0 .sliteral .nil) ∧
    compileNumericCase exNumberApi exDeadNullCase = .error "is not float nor integer number" ∧
    (compileNumericCase exNumberApi exLiveNullCase).isOk = true ∧
    compileNumericCase exNumberApi exLiveNullCase =
      (compileGenericCase exNumberApi exLiveNullCase).bind fun v =>
        .ok (exNumberApi.floatk (exNumberApi.coercefp v).1 (exNumberApi.coercefp v).2) := by
  refine ⟨?_, ?_, ?_, ?_, ?_, ?_, ?_⟩ <;> decide

/-- The nodes of the two routes at an example: with the path-limbs test of the
expr package, `CASE WHEN FALSE THEN 1 WHEN c1 THEN x END` as a number is not
the path case and compiles through the numeric loop, while `CASE WHEN c1 THEN
x END` is the path case and compiles through the generic CASE: two different
nodes. -/
theorem compileNumericCase_dead_limb_differs :
    exPathApi.compileAsBool (.Bool false) = .ok kfalse ∧
    exPathApi.IsPathLimbs exDeadCase = false ∧ exPathApi.IsPathLimbs exLiveCase = true ∧
    compileNumericCase exPathApi exDeadCase =
      .ok (.ssa2 .sfloatk (dotOf "x") (.ssa2 .sand (dotOf "x") (cmpOf 1) .nil) .nil) ∧
    compileNumericCase exPathApi exLiveCase =
      .ok (.ssa2 .sfloatk
        (.ssa2 .svk (dotOf "x") (.ssa2 .sand (cmpOf 1) (dotOf "x") .nil) .nil)
        (.ssa2 .svk (dotOf "x") (.ssa2 .sand (cmpOf 1) (dotOf "x") .nil) .nil) .nil) ∧
    compileNumericCase exPathApi exDeadCase ≠ compileNumericCase exPathApi exLiveCase := by
  decide

/-- C21 (amended): a limb whose WHEN compiles to the false node is skipped,
whatever its THEN is (it is not compiled): `compileLogicalCase` and
`compileGenericCase` return what they return for the CASE without the limb,
and so does `compileNumericCase` when the path-limbs test, taken on the
expression before anything is compiled, gives the same answer for both. -/
theorem compileCase_dead_limb (api : ssaapi) (pre post : List CaseLimb) (l : CaseLimb)
    (els : Option Node) (valence : String) (w : vterm)
    (hw : api.compileAsBool l.When = .ok w) (hk : w.op = .skfalse) :
    compileLogicalCase api ⟨pre ++ l :: post, els, valence⟩ =
      compileLogicalCase api ⟨pre ++ post, els, valence⟩ ∧
    compileGenericCase api ⟨pre ++ l :: post, els, valence⟩ =
      compileGenericCase api ⟨pre ++ post, els, valence⟩ ∧
    (api.IsPathLimbs ⟨pre ++ l :: post, els, valence⟩ =
        api.IsPathLimbs ⟨pre ++ post, els, valence⟩ →
      compileNumericCase api ⟨pre ++ l :: post, els, valence⟩ =
        compileNumericCase api ⟨pre ++ post, els, valence⟩) := by
  have hg : compileGenericCase api ⟨pre ++ l :: post, els, valence⟩ =
      compileGenericCase api ⟨pre ++ post, els, valence⟩ := by
    simp only [compileGenericCase, genericAcc, genericElse, genericLimbs_skip api l w hw hk]
  refine ⟨?_, hg, ?_⟩
  · simp only [compileLogicalCase, logicalLimbs_skip api l w hw hk]
  · intro hp
    simp only [compileNumericCase, hp, hg, numericElse, numericLimbs_skip api l w hw hk]

theorem compileCase_dead_limb_witness :
    compileLogicalCase exPathApi ⟨[] ++ ⟨.Bool false, .Integer 1⟩ :: [⟨.Other 1, .Path "x"⟩],
        none, ""⟩ =
      compileLogicalCase exPathApi ⟨[] ++ [⟨.Other 1, .Path "x"⟩], none, ""⟩ ∧
    compileGenericCase exPathApi ⟨[] ++ ⟨.Bool false, .Integer 1⟩ :: [⟨.Other 1, .Path "x"⟩],
        none, ""⟩ =
      compileGenericCase exPathApi ⟨[] ++ [⟨.Other 1, .Path "x"⟩], none, ""⟩ ∧
    compileNumericCase exPathApi ⟨[] ++ ⟨.Bool false, .Path "y"⟩ :: [⟨.Other 1, .Path "x"⟩],
        none, ""⟩ =
      compileNumericCase exPathApi ⟨[] ++ [⟨.Other 1, .Path "x"⟩], none, ""⟩ :=
  ⟨(compileCase_dead_limb exPathApi [] [⟨.Other 1, .Path "x"⟩] ⟨.Bool false, .Integer 1⟩
      none "" kfalse rfl rfl).1,
    (compileCase_dead_limb exPathApi [] [⟨.Other 1, .Path "x"⟩] ⟨.Bool false, .Integer 1⟩
      none "" kfalse rfl rfl).2.1,
    (compileCase_dead_limb exPathApi [] [⟨.Other 1, .Path "x"⟩] ⟨.Bool false, .Path "y"⟩
      none "" kfalse rfl rfl).2.2 (by decide)⟩

/-! ## C22: the primary type -/

/-- C22 (counterexample): the false node has the return type `stBool`, and its
primary type is `stBool`, not the return type with the `stBool` and `stList`
bits removed, which is 0. -/
theorem primary_keeps_bool :
    kfalse.ret exApi = stBool ∧ kfalse.primary exApi = stBool ∧
    kfalse.ret exApi ^^^ (kfalse.ret exApi &&& (stBool ||| stList)) = 0 ∧
    kfalse.primary exApi ≠ kfalse.ret exApi ^^^ (kfalse.ret exApi &&& (stBool ||| stList)) := by
  decide

/-- C22 (amended): a node whose return type is exactly `stBool` has the primary
type `stBool`; for any other node the primary type is the return type with the
`stBool` and `stList` bits removed: it has the bits of the return type that are
not among these two. -/
theorem primary_spec (api : ssaapi) (v : vterm) :
    (v.ret api = stBool → v.primary api = stBool) ∧
    (v.ret api ≠ stBool →
      ∀ i, (v.primary api).testBit i =
        ((v.ret api).testBit i && !(stBool ||| stList).testBit i)) := by
  refine ⟨?_, ?_⟩
  · intro h
    simp [vterm.primary, h]
  · intro h i
    simp only [vterm.primary, h, if_false, Nat.testBit_xor, Nat.testBit_and]
    cases (v.ret api).testBit i <;> cases (stBool ||| stList).testBit i <;> rfl

theorem primary_spec_witness :
    ∀ i, ((dotOf "x").primary exApi).testBit i =
      (((dotOf "x").ret exApi).testBit i && !(stBool ||| stList).testBit i) :=
  (primary_spec exApi (dotOf "x")).2 (by decide)

/-- The primary type of a node is never `stList`: the list bit is removed from
it, and the boolean type has no list bit. -/
theorem primary_ne_list (api : ssaapi) (v : vterm) : v.primary api ≠ stList := by
  unfold vterm.primary
  intro h
  by_cases hb : v.ret api = stBool
  · simp [hb] at h
    exact absurd h (by decide)
  · simp only [hb, if_false] at h
    have h1 := congrArg (fun n => Nat.testBit n 5) h
    simp [stBool, stList, Nat.testBit_xor, Nat.testBit_and] at h1
    revert h1
    cases Nat.testBit (vterm.ret api v) 5 <;> simp [Nat.testBit]

/-! ## C23: serialization of a list -/

/-- C23 (failing input): the primary type of a node is never `stList`, so the
arm of `serialized` that boxes a list is not reached; an expression compiled
to a node of return type `stList ||| stBool` has the primary type 0 and
`serialized` returns an error for it. -/
theorem serialized_list_error (api : progapi) (v : vterm) :
    v.primary api.tossaapi ≠ stList ∧
    exListProg.compile (.Other 9) = .ok (.ssa0 .smakestructkey (.int 9)) ∧
    (vterm.ssa0 .smakestructkey (.int 9)).ret exListProg.tossaapi = stList ||| stBool ∧
    (vterm.ssa0 .smakestructkey (.int 9)).primary exListProg.tossaapi = 0 ∧
    serialized exListProg (.Other 9) = .error "don't know how to re-serialize" := by
  refine ⟨primary_ne_list api.tossaapi v, ?_, ?_, ?_, ?_⟩ <;> decide

/-! # Part V: theorems on the opcode enumeration -/

set_option maxRecDepth 100000 in
theorem bcopTable_values : bcopTable.map Prod.snd = List.range 333 := by decide

set_option maxRecDepth 100000 in
theorem bcopTable_last : bcopTable.getLast? = some ("optrap", 332) := by decide

set_option maxRecDepth 100000 in
theorem bcopTable_declared :
    bcopTable = declaredFrom 0 (bcopTable.map fun c => ⟨c.1.drop 2, 0⟩) := by rfl

theorem declaredFrom_values : ∀ (ops : List opcode) (i : Nat),
    (declaredFrom i ops).map Prod.snd = List.range' i ops.length := by
  intro ops
  induction ops with
  | nil => intro i; rfl
  | cons o rest ih => intro i; simp [declaredFrom, ih, List.range']

theorem constLines_length : ∀ (ops : List opcode) (i : Nat),
    (constLines i ops).length = ops.length := by
  intro ops
  induction ops with
  | nil => intro i; rfl
  | cons o rest ih => intro i; simp [constLines, ih]

theorem constLines_get : ∀ (ops : List opcode) (i k : Nat) (h : k < ops.length),
    (constLines i ops)[k]? = some ("\top" ++ ops[k].name ++ " bcop = " ++ toString (i + k)) := by
  intro ops
  induction ops with
  | nil => intro i k h; simp at h
  | cons o rest ih =>
    intro i k h
    cases k with
    | zero => simp [constLines]
    | succ k =>
      have hk : k < rest.length := by simpa using h
      have e : i + 1 + k = i + (k + 1) := by omega
      simp [constLines, ih (i + 1) k hk, e]

/-! ## C24: the opcode numbers are dense -/

/-- C24: the values of the `bcop` constants of ops_gen.go are 0, 1, ...,
`_maxbcop` - 1 in the order of declaration, each value once; `_maxbcop` is the
number of opcodes, 333, and `optrap` is the last; and for any list of opcodes
`generateGoFile` writes for the opcode at index `k` the line that gives it the
value `k` and then the line that sets `_maxbcop` to the number of opcodes, so
that the constants of a generated file are numbered 0, 1, ... -/
theorem bcop_dense :
    bcopTable.map Prod.snd = List.range _maxbcop ∧
    _maxbcop = bcopTable.length ∧ _maxbcop = 333 ∧
    bcopTable.getLast? = some ("optrap", 332) ∧
    (∀ v, v < _maxbcop → (bcopTable.map Prod.snd).count v = 1) ∧
    bcopTable = declaredFrom 0 (bcopTable.map fun c => ⟨c.1.drop 2, 0⟩) ∧
    ∀ ops : List opcode,
      (declaredFrom 0 ops).map Prod.snd = List.range ops.length ∧
      (∀ (k : Nat) (h : k < ops.length),
        (generateGoFile ops)[5 + k]? =
          some ("\top" ++ ops[k].name ++ " bcop = " ++ toString k)) ∧
      (generateGoFile ops)[5 + ops.length]? =
        some ("\t_maxbcop = " ++ toString ops.length) := by
  have hv : bcopTable.map Prod.snd = List.range _maxbcop := bcopTable_values
  have hl : bcopTable.length = 333 := by
    have := congrArg List.length bcopTable_values
    simpa using this
  refine ⟨hv, hl.symm, rfl, bcopTable_last, ?_, bcopTable_declared, ?_⟩
  · intro v h
    rw [hv]
    exact List.count_eq_one_of_mem (List.nodup_range _) (List.mem_range.2 h)
  · intro ops
    refine ⟨?_, ?_, ?_⟩
    · rw [declaredFrom_values, List.range_eq_range']
    · intro k h
      have e : 5 + k = k + 1 + 1 + 1 + 1 + 1 := by omega
      have hk : k < (constLines 0 ops).length := by rw [constLines_length]; exact h
      have := constLines_get ops 0 k h
      simp only [Nat.zero_add] at this
      simp only [generateGoFile, List.cons_append, List.nil_append, e, List.getElem?_cons_succ]
      rw [List.getElem?_append_left hk, this]
    · have e : 5 + ops.length = ops.length + 1 + 1 + 1 + 1 + 1 := by omega
      simp only [generateGoFile, List.cons_append, List.nil_append, e, List.getElem?_cons_succ]
      rw [List.getElem?_append_right (by rw [constLines_length])]
      simp [constLines_length]

/-! # Part VI: theorems on the header of the tenant protocol -/

theorem le64_headerMagic : le64 headerMagic = [0x48, 0xe4, 0x83, 0xb9, 0x72, 0xdb, 0x2e, 0xf0] := by
  decide

theorem Uint64_le64 (rest : List Nat) : Uint64 (le64 headerMagic ++ rest) = headerMagic := by
  rw [le64_headerMagic]
  simp only [Uint64, List.range, List.range.loop, List.map, List.cons_append, List.getD_cons_zero,
    List.getD_cons_succ, List.sum_cons, List.sum_nil, headerMagic, Nat.shiftLeft_eq]
  norm_num

/-- The bytes of a populated header: the magic, the ID, the key, and the last
32 bytes of the header as they were. -/
theorem populate_body (h : header) (id : ID) (key : Key) (hb : h.body.length = HeaderSize)
    (hid : id.length = IDSize) (hkey : key.length = KeySize) :
    (h.populate id key).body = le64 headerMagic ++ (id ++ (key ++ h.body.drop 64)) := by
  have hb' : h.body.length = 96 := hb
  have hid' : id.length = 24 := hid
  have hkey' : key.length = 32 := hkey
  have hm : (le64 headerMagic).length = 8 := by simp [le64]
  have h1 : copyAt h.body magicOffset (le64 headerMagic) = le64 headerMagic ++ h.body.drop 8 := by
    simp [copyAt, copyBytes, magicOffset, hm, hb', List.take_of_length_le]
  have h2 : copyAt (le64 headerMagic ++ h.body.drop 8) idOffset id =
      le64 headerMagic ++ (id ++ h.body.drop 32) := by
    have e1 : (le64 headerMagic ++ h.body.drop 8).take 8 = le64 headerMagic := by
      rw [List.take_append_of_le_length (by omega), List.take_of_length_le (by omega)]
    have e2 : (le64 headerMagic ++ h.body.drop 8).drop 8 = h.body.drop 8 := by
      rw [List.drop_append_of_le_length (by omega), List.drop_of_length_le (by omega)]
      rfl
    have e3 : id.take (h.body.drop 8).length = id := by
      apply List.take_of_length_le
      simp [hb', hid']
    show (le64 headerMagic ++ h.body.drop 8).take 8 ++
      copyBytes ((le64 headerMagic ++ h.body.drop 8).drop 8) id = _
    rw [e1, e2]
    simp [copyBytes, e3, hid', hb']
  have h3 : copyAt (le64 headerMagic ++ (id ++ h.body.drop 32)) keyOffset key =
      le64 headerMagic ++ (id ++ (key ++ h.body.drop 64)) := by
    have e0 : le64 headerMagic ++ (id ++ h.body.drop 32) =
        (le64 headerMagic ++ id) ++ h.body.drop 32 := by simp
    have hl : (le64 headerMagic ++ id).length = 32 := by simp [hm, hid']
    have e1 : ((le64 headerMagic ++ id) ++ h.body.drop 32).take 32 = le64 headerMagic ++ id := by
      rw [List.take_append_of_le_length (by omega), List.take_of_length_le (by omega)]
    have e2 : ((le64 headerMagic ++ id) ++ h.body.drop 32).drop 32 = h.body.drop 32 := by
      rw [List.drop_append_of_le_length (by omega), List.drop_of_length_le (by omega)]
      rfl
    have e3 : key.take (h.body.drop 32).length = key := by
      apply List.take_of_length_le
      simp [hb', hkey']
    show (le64 headerMagic ++ (id ++ h.body.drop 32)).take 32 ++
      copyBytes ((le64 headerMagic ++ (id ++ h.body.drop 32)).drop 32) key = _
    rw [e0, e1, e2]
    simp [copyBytes, e3, hkey', hb']
  show copyAt (copyAt (copyAt h.body magicOffset (le64 headerMagic)) idOffset id) keyOffset key = _
  rw [h1, h2, h3]

/-! ## C26: the header round trip -/

/-- C26: after `populate(id, key)` on a header of any contents, `ID()` is `id`,
`Key()` is `key` and `validate()` returns nil; the header still has 96 bytes,
of which bytes 0..7 are the magic, bytes 8..31 the ID, bytes 32..63 the key,
three fields that do not overlap, and bytes 64..95 are as before. -/
theorem header_round_trip (h : header) (id : ID) (key : Key)
    (hb : h.body.length = HeaderSize) (hid : id.length = IDSize)
    (hkey : key.length = KeySize) :
    (h.populate id key).ID = id ∧ (h.populate id key).Key = key ∧
    (h.populate id key).validate = none ∧
    (h.populate id key).body.length = HeaderSize ∧
    (h.populate id key).body.take 8 = le64 headerMagic ∧
    ((h.populate id key).body.drop 8).take 24 = id ∧
    ((h.populate id key).body.drop 32).take 32 = key ∧
    (h.populate id key).body.drop 64 = h.body.drop 64 ∧
    magicOffset + magicSize = 8 ∧ idOffset = 8 ∧ idOffset + IDSize = 32 ∧ keyOffset = 32 ∧
    keyOffset + KeySize = 64 ∧ 64 ≤ HeaderSize := by
  have hb' : h.body.length = 96 := hb
  have hid' : id.length = 24 := hid
  have hkey' : key.length = 32 := hkey
  have hm : (le64 headerMagic).length = 8 := by simp [le64]
  have hbody := populate_body h id key hb hid hkey
  have d8 : (h.populate id key).body.drop 8 = id ++ (key ++ h.body.drop 64) := by
    rw [hbody, List.drop_append_of_le_length (by omega), List.drop_of_length_le (by omega)]
    rfl
  have d32 : (h.populate id key).body.drop 32 = key ++ h.body.drop 64 := by
    have : (h.populate id key).body.drop 32 = ((h.populate id key).body.drop 8).drop 24 := by
      rw [List.drop_drop]
    rw [this, d8, List.drop_append_of_le_length (by omega), List.drop_of_length_le (by omega)]
    rfl
  have d64 : (h.populate id key).body.drop 64 = h.body.drop 64 := by
    have : (h.populate id key).body.drop 64 = ((h.populate id key).body.drop 32).drop 32 := by
      rw [List.drop_drop]
    rw [this, d32, List.drop_append_of_le_length (by omega), List.drop_of_length_le (by omega)]
    rfl
  have t24 : (id ++ (key ++ h.body.drop 64)).take 24 = id := by
    rw [List.take_append_of_le_length (by omega), List.take_of_length_le (by omega)]
  have t32 : (key ++ h.body.drop 64).take 32 = key := by
    rw [List.take_append_of_le_length (by omega), List.take_of_length_le (by omega)]
  refine ⟨?_, ?_, ?_, ?_, ?_, ?_, ?_, d64, rfl, rfl, rfl, rfl, rfl, by decide⟩
  · show copyBytes zeroID ((h.populate id key).body.drop 8) = id
    rw [d8]
    simp only [copyBytes, zeroID, IDSize, List.length_replicate, t24]
    rw [List.drop_of_length_le (by simp [hid', hkey', hb'])]
    simp
  · show copyBytes zeroKey ((h.populate id key).body.drop 32) = key
    rw [d32]
    simp only [copyBytes, zeroKey, KeySize, List.length_replicate, t32]
    rw [List.drop_of_length_le (by simp [hkey', hb'])]
    simp
  · have : Uint64 ((h.populate id key).body.drop magicOffset) = headerMagic := by
      rw [hbody]
      exact Uint64_le64 _
    simp [header.validate, this]
  · rw [hbody]
    simp [hm, hid', hkey', hb', HeaderSize]
  · rw [hbody, List.take_append_of_le_length (by omega), List.take_of_length_le (by omega)]
  · rw [d8, t24]
  · rw [d32, t32]

theorem header_round_trip_witness :
    exHeader.ID = List.replicate 24 7 ∧ exHeader.Key = List.replicate 32 9 ∧
    exHeader.validate = none ∧ exHeader.body.drop 64 = List.replicate 32 5 :=
  have w := header_round_trip (header.mk (List.replicate 96 5)) (List.replicate 24 7)
    (List.replicate 32 9) (by decide) (by decide) (by decide)
  ⟨w.1, w.2.1, w.2.2.1, by rw [exHeader, w.2.2.2.2.2.2.2.1]; decide⟩

/-! ## C27: the values returned with an error -/

/-- C27 (failing input): on a message of 96 bytes whose magic is wrong,
`ReadHeader` returns the error of `validate` together with the ID and the key
found in the bytes, which are not the zero values; on a short read and on a
zero key with a non-zero ID it returns the zero ID and the zero key with the
error. -/
theorem ReadHeader_bad_magic_values :
    ReadHeader exBadMagic =
      (List.replicate 24 1, List.replicate 32 1, some "magic is not valid header magic") ∧
    (ReadHeader exBadMagic).1 ≠ zeroID ∧ (ReadHeader exBadMagic).2.1 ≠ zeroKey ∧
    ReadHeader (List.replicate 95 1) = (zeroID, zeroKey, some "unexpected EOF") ∧
    ReadHeader ((header.mk (List.replicate 96 5)).populate (List.replicate 24 7) zeroKey).body =
      (zeroID, zeroKey, some "zero key") := by
  decide

/-! # Part VII: theorems on the field selection of the decoder -/

theorem read_upTo_nil (m : Heap) (s : StrSlice) : m.read (s.upTo 0) = [] := by
  unfold Heap.read StrSlice.upTo
  cases s.arr <;> simp

theorem writeAt_length (m : Heap) (c : StrSlice) (vals : List String) :
    (m.writeAt c vals).length = m.length := by
  unfold Heap.writeAt
  cases c.arr <;> simp

theorem writeAt_getD_other (m : Heap) (c : StrSlice) (vals : List String) (b : Nat)
    (h : c.arr ≠ some b) : (m.writeAt c vals).getD b [] = m.getD b [] := by
  unfold Heap.writeAt
  cases hc : c.arr with
  | none => rfl
  | some a =>
    have hab : a ≠ b := fun e => h (by rw [hc, e])
    simp [List.getD_eq_getElem?_getD, List.getElem?_set_ne hab]

theorem writeAt_getD_same (m : Heap) (c : StrSlice) (vals : List String) (a : Nat)
    (ha : c.arr = some a) (hlt : a < m.length) :
    (m.writeAt c vals).getD a [] =
      (m.getD a []).take c.off ++ vals ++ (m.getD a []).drop (c.off + vals.length) := by
  unfold Heap.writeAt
  simp [ha, List.getD_eq_getElem?_getD, List.getElem?_set_self, hlt]

theorem read_writeAt_other (m : Heap) (c y : StrSlice) (vals : List String)
    (h : c.disjoint y = true) : (m.writeAt c vals).read y = m.read y := by
  unfold Heap.read
  cases hy : y.arr with
  | none => rfl
  | some b =>
    have hcb : c.arr ≠ some b := by
      intro hc
      simp [StrSlice.disjoint, hc, hy] at h
    simp only [writeAt_getD_other m c vals b hcb]

theorem read_writeAt_same (m : Heap) (c : StrSlice) (vals : List String) (a : Nat)
    (ha : c.arr = some a) (hlt : a < m.length)
    (hfit : c.off + vals.length ≤ (m.getD a []).length) :
    (m.writeAt c vals).read (c.upTo vals.length) = vals := by
  have hoff : c.off ≤ (m.getD a []).length := by omega
  unfold Heap.read
  simp only [StrSlice.upTo, ha, writeAt_getD_same m c vals a ha hlt]
  have h1 : ((m.getD a []).take c.off).length = c.off := by
    rw [List.length_take]; omega
  rw [List.append_assoc, List.drop_append_of_le_length (by omega),
    List.drop_of_length_le (by omega), List.nil_append, List.take_append_of_le_length (by omega),
    List.take_of_length_le (by omega)]

theorem writeAt_array_length (m : Heap) (c : StrSlice) (vals : List String) (a : Nat)
    (ha : c.arr = some a) (hlt : a < m.length)
    (hfit : c.off + vals.length ≤ (m.getD a []).length) :
    ((m.writeAt c vals).getD a []).length = (m.getD a []).length := by
  rw [writeAt_getD_same m c vals a ha hlt]
  simp only [List.length_append, List.length_take, List.length_drop]
  omega
theorem slicesSort_length (l : List String) : (slicesSort l).length = l.length :=
  List.length_insertionSort _ l

theorem slicesSort_sorted (l : List String) : List.Sorted (· ≤ ·) (slicesSort l) :=
  List.sorted_insertionSort _ l

theorem slicesSort_mem (l : List String) (a : String) : a ∈ slicesSort l ↔ a ∈ l :=
  (List.perm_insertionSort _ l).mem_iff

theorem mem_destutter_ne (l : List String) : ∀ (a b : String),
    b ∈ a :: l → b ∈ List.destutter' (· ≠ ·) a l := by
  induction l with
  | nil => intro a b h; simpa using h
  | cons c l ih =>
    intro a b h
    by_cases hac : a ≠ c
    · rw [List.destutter'_cons_pos _ hac]
      rcases List.mem_cons.1 h with h1 | h1
      · rw [h1]; exact List.mem_cons_self _ _
      · exact List.mem_cons_of_mem _ (ih c b h1)
    · rw [List.destutter'_cons_neg _ hac]
      have hac' : a = c := not_not.1 hac
      apply ih a b
      rcases List.mem_cons.1 h with h1 | h1
      · rw [h1]; exact List.mem_cons_self _ _
      · rcases List.mem_cons.1 h1 with h2 | h2
        · rw [h2, ← hac']; exact List.mem_cons_self _ _
        · exact List.mem_cons_of_mem _ h2

theorem slicesCompact_mem (l : List String) (a : String) : a ∈ slicesCompact l ↔ a ∈ l := by
  constructor
  · intro h
    exact (List.destutter_sublist _ l).subset h
  · intro h
    cases l with
    | nil => simp at h
    | cons b l => exact mem_destutter_ne l b a h

theorem slicesCompact_length (l : List String) : (slicesCompact l).length ≤ l.length :=
  (List.destutter_sublist _ l).length_le

theorem sorted_lt_of_chain_ne : ∀ (l : List String), List.Sorted (· ≤ ·) l →
    List.Chain' (· ≠ ·) l → List.Sorted (· < ·) l := by
  intro l
  induction l with
  | nil => intro _ _; exact List.sorted_nil
  | cons a t ih =>
    intro hs hc
    have hs' := List.sorted_cons.1 hs
    cases t with
    | nil => exact List.sorted_singleton a
    | cons b t' =>
      have hc' := List.chain'_cons.1 hc
      have hab : a < b := lt_of_le_of_ne (hs'.1 b (List.mem_cons_self _ _)) hc'.1
      have hsb := List.sorted_cons.1 hs'.2
      refine List.sorted_cons.2 ⟨?_, ih hs'.2 hc'.2⟩
      intro c hcm
      rcases List.mem_cons.1 hcm with h1 | h1
      · rw [h1]; exact hab
      · exact lt_of_lt_of_le hab (hsb.1 c h1)

theorem slicesCompact_strict (l : List String) (h : List.Sorted (· ≤ ·) l) :
    List.Sorted (· < ·) (slicesCompact l) :=
  sorted_lt_of_chain_ne _ (h.sublist (List.destutter_sublist _ l)) (List.destutter_is_chain' _ l)
theorem read_length_of_valid (m : Heap) (x : StrSlice) (hx : x.validIn m = true) :
    (m.read x).length = x.len := by
  unfold StrSlice.validIn at hx
  unfold Heap.read
  cases ha : x.arr with
  | none =>
    simp [ha] at hx
    simp [hx.1]
  | some a =>
    simp only [ha, Bool.and_eq_true, decide_eq_true_eq] at hx
    simp only [List.length_take, List.length_drop]
    omega

/-- The three stores of `SetComponents` through the slice `c` of the decoder,
seen from the slice `x` of the caller and from `c`. -/
theorem stores_spec (m0 : Heap) (c x : StrSlice) (hlen : c.len = x.len)
    (hx : (m0.read x).length = x.len)
    (hc : ∀ a, c.arr = some a → a < m0.length ∧ c.off + x.len ≤ (m0.getD a []).length)
    (hnil : c.arr = none → m0.read x = []) (hdis : c.disjoint x = true) :
    let m1 := copyStr m0 c x
    let m2 := m1.writeAt c (slicesSort (m1.read c))
    let m3 := m2.writeAt c (slicesCompact (m2.read c))
    m3.read x = m0.read x ∧
    m3.read (c.upTo (slicesCompact (m2.read c)).length) =
      slicesCompact (slicesSort (m0.read x)) := by
  intro m1 m2 m3
  have hx3 : m3.read x = m0.read x := by
    show (m2.writeAt c _).read x = _
    rw [read_writeAt_other _ _ _ _ hdis]
    show (m1.writeAt c _).read x = _
    rw [read_writeAt_other _ _ _ _ hdis]
    show (m0.writeAt c _).read x = _
    rw [read_writeAt_other _ _ _ _ hdis]
  refine ⟨hx3, ?_⟩
  cases ha : c.arr with
  | none =>
    have hr : ∀ (m : Heap) (n : Nat), m.read (c.upTo n) = [] := by
      intro m n
      simp [Heap.read, StrSlice.upTo, ha]
    have hrc : ∀ (m : Heap), m.read c = [] := by
      intro m
      simp [Heap.read, ha]
    rw [hr, hnil ha]
    simp [slicesSort, slicesCompact]
  | some a =>
    obtain ⟨hlt, hfit⟩ := hc a ha
    have hcc : c = c.upTo x.len := by
      cases c
      simp only [StrSlice.upTo] at hlen ⊢
      simp [hlen]
    have htake : (m0.read x).take c.len = m0.read x := by
      apply List.take_of_length_le
      omega
    -- after the copy
    have h1 : m1.read c = m0.read x := by
      show (m0.writeAt c ((m0.read x).take c.len)).read c = _
      rw [htake]
      have := read_writeAt_same m0 c (m0.read x) a ha hlt (by omega)
      rw [hx, ← hcc] at this
      exact this
    have hl1 : m1.length = m0.length := writeAt_length _ _ _
    have ha1 : (m1.getD a []).length = (m0.getD a []).length := by
      show ((m0.writeAt c ((m0.read x).take c.len)).getD a []).length = _
      rw [htake]
      exact writeAt_array_length m0 c _ a ha hlt (by omega)
    -- after the sort
    have hs : (slicesSort (m1.read c)).length = x.len := by
      rw [slicesSort_length, h1, hx]
    have h2 : m2.read c = slicesSort (m0.read x) := by
      have := read_writeAt_same m1 c (slicesSort (m1.read c)) a ha (by omega) (by omega)
      rw [hs, ← hcc] at this
      show (m1.writeAt c (slicesSort (m1.read c))).read c = _
      rw [this, h1]
    have hl2 : m2.length = m0.length := by
      show (m1.writeAt c _).length = _
      rw [writeAt_length, hl1]
    have ha2 : (m2.getD a []).length = (m0.getD a []).length := by
      show ((m1.writeAt c _).getD a []).length = _
      rw [writeAt_array_length m1 c _ a ha (by omega) (by omega), ha1]
    -- after the compaction
    have hcl : (slicesCompact (m2.read c)).length ≤ x.len := by
      have := slicesCompact_length (m2.read c)
      rw [h2, slicesSort_length, hx] at this
      rw [h2]
      exact this
    have := read_writeAt_same m2 c (slicesCompact (m2.read c)) a ha (by omega) (by omega)
    rw [this, h2]
/-- The slice that `SetComponents` prepares for its copy: it has the length of
`x`, lies in an array of its own that holds that many elements, and the slice
of the caller reads as before. -/
theorem grow_spec (m : Heap) (d : Decoder) (x : StrSlice)
    (hd : d.components.validIn m = true) (hx : x.validIn m = true)
    (hsep : x.disjoint d.components = true) :
    ((slicesGrow m (d.components.upTo 0) x.len).2.upTo x.len).len = x.len ∧
    (slicesGrow m (d.components.upTo 0) x.len).1.read x = m.read x ∧
    (∀ a, ((slicesGrow m (d.components.upTo 0) x.len).2.upTo x.len).arr = some a →
      a < (slicesGrow m (d.components.upTo 0) x.len).1.length ∧
      ((slicesGrow m (d.components.upTo 0) x.len).2.upTo x.len).off + x.len ≤
        ((slicesGrow m (d.components.upTo 0) x.len).1.getD a []).length) ∧
    (((slicesGrow m (d.components.upTo 0) x.len).2.upTo x.len).arr = none →
      (slicesGrow m (d.components.upTo 0) x.len).1.read x = []) ∧
    ((slicesGrow m (d.components.upTo 0) x.len).2.upTo x.len).disjoint x = true := by
  have hxl := read_length_of_valid m x hx
  by_cases hfit : x.len ≤ (d.components.upTo 0).cap - (d.components.upTo 0).len
  · have hg : slicesGrow m (d.components.upTo 0) x.len = (m, d.components.upTo 0) := by
      simp [slicesGrow, hfit]
    rw [hg]
    simp only [StrSlice.upTo] at hfit ⊢
    refine ⟨trivial, trivial, ?_, ?_, ?_⟩
    · intro a ha
      simp only [StrSlice.validIn, ha, Bool.and_eq_true, decide_eq_true_eq] at hd
      omega
    · intro ha
      simp only [StrSlice.validIn, ha, Bool.and_eq_true, beq_iff_eq] at hd
      apply List.length_eq_zero.1
      omega
    · revert hsep
      simp only [StrSlice.disjoint]
      cases x.arr <;> cases d.components.arr <;> simp
      intro h e
      exact h e.symm
  · have hg : slicesGrow m (d.components.upTo 0) x.len =
        (m ++ [m.read ((d.components.upTo 0).upTo (d.components.upTo 0).cap) ++
            List.replicate (x.len - ((d.components.upTo 0).cap - (d.components.upTo 0).len)) ""],
          ⟨some m.length, 0, (d.components.upTo 0).len, (d.components.upTo 0).len + x.len⟩) := by
      simp [slicesGrow, hfit]
    rw [hg]
    simp only [StrSlice.upTo] at hfit ⊢
    have hrx : Heap.read (m ++ [m.read ⟨d.components.arr, d.components.off, d.components.cap,
        d.components.cap⟩ ++ List.replicate (x.len - (d.components.cap - 0)) ""]) x =
        m.read x := by
      unfold Heap.read
      cases hxa : x.arr with
      | none => rfl
      | some b =>
        have hb : b < m.length := by
          simp only [StrSlice.validIn, hxa, Bool.and_eq_true, decide_eq_true_eq] at hx
          exact hx.1.1
        simp [List.getD_eq_getElem?_getD, List.getElem?_append_left hb]
    refine ⟨trivial, hrx, ?_, ?_, ?_⟩
    · intro a ha
      have ha' : a = m.length := by
        simp only [Option.some.injEq] at ha
        exact ha.symm
      subst ha'
      have hcap : (m.read ⟨d.components.arr, d.components.off, d.components.cap,
          d.components.cap⟩).length = d.components.cap := by
        apply read_length_of_valid
        revert hd
        simp only [StrSlice.validIn]
        cases d.components.arr <;> simp
        intro h1 _ h3
        exact ⟨h1, h3⟩
      constructor
      · simp
      · simp [List.getD_eq_getElem?_getD, hcap]
        omega
    · intro ha
      simp at ha
    · revert hx
      simp only [StrSlice.disjoint, StrSlice.validIn]
      cases x.arr <;> simp
      intro h _ _
      omega

theorem SetComponents_eq (m : Heap) (d : Decoder) (x : StrSlice) :
    d.SetComponents m x =
      ((((copyStr (slicesGrow m (d.components.upTo 0) x.len).1
          ((slicesGrow m (d.components.upTo 0) x.len).2.upTo x.len) x).writeAt
          ((slicesGrow m (d.components.upTo 0) x.len).2.upTo x.len)
          (slicesSort ((copyStr (slicesGrow m (d.components.upTo 0) x.len).1
            ((slicesGrow m (d.components.upTo 0) x.len).2.upTo x.len) x).read
            ((slicesGrow m (d.components.upTo 0) x.len).2.upTo x.len)))).writeAt
          ((slicesGrow m (d.components.upTo 0) x.len).2.upTo x.len)
          (slicesCompact
            (((copyStr (slicesGrow m (d.components.upTo 0) x.len).1
              ((slicesGrow m (d.components.upTo 0) x.len).2.upTo x.len) x).writeAt
              ((slicesGrow m (d.components.upTo 0) x.len).2.upTo x.len)
              (slicesSort ((copyStr (slicesGrow m (d.components.upTo 0) x.len).1
                ((slicesGrow m (d.components.upTo 0) x.len).2.upTo x.len) x).read
                ((slicesGrow m (d.components.upTo 0) x.len).2.upTo x.len)))).read
              ((slicesGrow m (d.components.upTo 0) x.len).2.upTo x.len)))),
        (d.SetComponents m x).2) := rfl
/-! ## C30: `SetComponents` works on a copy -/

/-- C30: for a slice `x` of the caller that lies in the heap and does not share
the array of the decoder, after `SetComponents(x)` the slice `x` reads the same
elements in the same order, and `d.components` reads the compacted sorted copy
of them: a strictly ascending list with the same strings as `x`. -/
theorem SetComponents_copy (m : Heap) (d : Decoder) (x : StrSlice)
    (hd : d.components.validIn m = true) (hx : x.validIn m = true)
    (hsep : x.disjoint d.components = true) :
    (d.SetComponents m x).1.read x = m.read x ∧
    (d.SetComponents m x).1.read (d.SetComponents m x).2.components =
      slicesCompact (slicesSort (m.read x)) ∧
    List.Sorted (· < ·) ((d.SetComponents m x).1.read (d.SetComponents m x).2.components) ∧
    (∀ s, s ∈ (d.SetComponents m x).1.read (d.SetComponents m x).2.components ↔
      s ∈ m.read x) := by
  obtain ⟨g1, g2, g3, g4, g5⟩ := grow_spec m d x hd hx hsep
  have hxl : ((slicesGrow m (d.components.upTo 0) x.len).1.read x).length = x.len := by
    rw [g2]
    exact read_length_of_valid m x hx
  have hst := stores_spec (slicesGrow m (d.components.upTo 0) x.len).1
    ((slicesGrow m (d.components.upTo 0) x.len).2.upTo x.len) x g1 hxl g3 g4 g5
  simp only at hst
  rw [g2] at hst
  have h1 : (d.SetComponents m x).1.read x = m.read x := by
    rw [SetComponents_eq]
    exact hst.1
  have h2 : (d.SetComponents m x).1.read (d.SetComponents m x).2.components =
      slicesCompact (slicesSort (m.read x)) := by
    rw [SetComponents_eq]
    exact hst.2
  refine ⟨h1, h2, ?_, ?_⟩
  · rw [h2]
    exact slicesCompact_strict _ (slicesSort_sorted _)
  · intro s
    rw [h2, slicesCompact_mem, slicesSort_mem]

theorem SetComponents_copy_witness :
    (Decoder.zero.SetComponents exHeap exSlice).1.read exSlice = exHeap.read exSlice ∧
    List.Sorted (· < ·) ((Decoder.zero.SetComponents exHeap exSlice).1.read
      (Decoder.zero.SetComponents exHeap exSlice).2.components) :=
  have w := SetComponents_copy exHeap Decoder.zero exSlice (by decide) (by decide) (by decide)
  ⟨w.1, w.2.2.1⟩

/-! ## C28: the wildcard flag -/

theorem runCalls_wildcard (reset : symtab → symtab) (cs : List DecoderCall) :
    ∀ s : Heap × Decoder,
      (runCalls reset cs s).2.Wildcard = wildcardAfter cs s.2.Wildcard := by
  induction cs with
  | nil => intro s; rfl
  | cons c cs ih =>
    intro s
    show (runCalls reset cs (c.run reset s)).2.Wildcard = wildcardAfter cs _
    rw [ih]
    cases c <;> rfl

theorem wildcardAfter_false (cs : List DecoderCall) (h : ∀ c ∈ cs, c ≠ DecoderCall.SetWildcard) :
    wildcardAfter cs false = false := by
  induction cs with
  | nil => rfl
  | cons c cs ih =>
    have hc := h c (List.mem_cons_self _ _)
    have hcs : ∀ c ∈ cs, c ≠ DecoderCall.SetWildcard :=
      fun c hm => h c (List.mem_cons_of_mem _ hm)
    cases c with
    | Reset => exact ih hcs
    | SetWildcard => exact absurd rfl hc
    | SetComponents x => exact ih hcs

/-- C28: `Wildcard()` is true for the zero value of the decoder and after
`SetWildcard`, which also leaves no selected component (in `d.components` and
in the symbol table); it is false after `SetComponents` with any slice, and
stays false through any calls of `Reset` and `SetComponents` that follow; after
any sequence of calls it is what the last `SetWildcard` or `SetComponents` of
the sequence made it. -/
theorem wildcard_state_machine :
    Decoder.zero.Wildcard = true ∧
    (∀ d : Decoder, d.SetWildcard.Wildcard = true ∧ d.SetWildcard.st.components = [] ∧
      ∀ m : Heap, m.read d.SetWildcard.components = []) ∧
    (∀ (m : Heap) (d : Decoder) (x : StrSlice), (d.SetComponents m x).2.Wildcard = false) ∧
    (∀ (reset : symtab → symtab) (cs : List DecoderCall) (s : Heap × Decoder),
      (runCalls reset cs s).2.Wildcard = wildcardAfter cs s.2.Wildcard) ∧
    (∀ (reset : symtab → symtab) (cs : List DecoderCall) (m : Heap) (d : Decoder)
      (x : StrSlice), (∀ c ∈ cs, c ≠ DecoderCall.SetWildcard) →
      (runCalls reset cs (d.SetComponents m x)).2.Wildcard = false) := by
  refine ⟨rfl, ?_, ?_, ?_, ?_⟩
  · intro d
    exact ⟨rfl, rfl, fun m => read_upTo_nil m d.components⟩
  · intro m d x
    rfl
  · intro reset cs s
    exact runCalls_wildcard reset cs s
  · intro reset cs m d x h
    rw [runCalls_wildcard]
    exact wildcardAfter_false cs h

theorem wildcard_state_machine_witness :
    (runCalls exReset [.Reset, .SetComponents exSlice, .Reset]
      (Decoder.zero.SetComponents exHeap exSlice)).2.Wildcard = false :=
  wildcard_state_machine.2.2.2.2 exReset [.Reset, .SetComponents exSlice, .Reset] exHeap
    Decoder.zero exSlice (by decide)

/-! ## C29: `Reset` and the field selection -/

/-- C29 (counterexample): after `SetComponents(["b", "a", "b"])` on the zero
value and then `Reset`, `Wildcard()` reports false, while it reports true for
the zero value: the selection state after `Reset` is not that of the zero
value. -/
theorem Reset_after_SetComponents :
    ((Decoder.zero.SetComponents exHeap exSlice).2.Reset exReset).Wildcard = false ∧
    Decoder.zero.Wildcard = true ∧
    ((Decoder.zero.SetComponents exHeap exSlice).2.Reset exReset).components =
      Decoder.zero.components := by
  refine ⟨rfl, rfl, rfl⟩

/-- C29 (amended): whatever calls preceded it and whatever the reset of the
symbol table does, `Reset` leaves `d.components` nil, `TargetWriteSize`, `out`,
`tmp`, `dst` and `fault` as in the zero value, the symbol table reset, and the
flag `precise` as it was: `Wildcard()` reports after `Reset` what it reported
before, and the selection state is that of the zero value exactly when
`Wildcard()` was true before the call. -/
theorem Reset_keeps_precise (reset : symtab → symtab) (d : Decoder) :
    (d.Reset reset).components = Decoder.zero.components ∧
    (d.Reset reset).TargetWriteSize = Decoder.zero.TargetWriteSize ∧
    (d.Reset reset).out = Decoder.zero.out ∧ (d.Reset reset).tmp = Decoder.zero.tmp ∧
    (d.Reset reset).dst = Decoder.zero.dst ∧ (d.Reset reset).fault = Decoder.zero.fault ∧
    (d.Reset reset).st = reset d.st ∧
    (d.Reset reset).precise = d.precise ∧
    (d.Reset reset).Wildcard = d.Wildcard ∧
    (((d.Reset reset).components = Decoder.zero.components ∧
        (d.Reset reset).Wildcard = Decoder.zero.Wildcard) ↔ d.Wildcard = true) := by
  refine ⟨rfl, rfl, rfl, rfl, rfl, rfl, rfl, rfl, rfl, ?_⟩
  constructor
  · intro h
    exact h.2
  · intro h
    exact ⟨rfl, h⟩

/-! # Part VIII: theorems on the two-level case table -/

theorem toUint32_small (n : Nat) (h : n < 2 ^ 32) : toUint32 (n : Int) = n := by
  unfold toUint32
  omega

theorem row_col (n : Nat) : n >>> tableBits = n / 256 ∧ n &&& tableMask = n % 256 := by
  constructor
  · simp [tableBits, Nat.shiftRight_eq_div_pow]
  · have := Nat.and_pow_two_sub_one_eq_mod n 8
    simpa [tableMask, tableSize, tableBits] using this

theorem cellUpTo_succ_other (fn : String → String) (n row col : Nat) (hcol : col < 256)
    (h : ¬ (row = n / 256 ∧ col = n % 256)) :
    cellUpTo fn (n + 1) row col = cellUpTo fn n row col := by
  have hne : row * 256 + col ≠ n := by
    intro e
    apply h
    constructor <;> omega
  unfold cellUpTo
  have e : row * 256 + col < n + 1 ↔ row * 256 + col < n := by omega
  simp only [e]

theorem cellUpTo_self (fn : String → String) (n : Nat) :
    cellUpTo fn n (n / 256) (n % 256) = 0 := by
  unfold cellUpTo
  have : ¬ (n / 256 * 256 + n % 256 < n) := by omega
  simp [this]

theorem cellUpTo_succ_self (fn : String → String) (n : Nat) :
    cellUpTo fn (n + 1) (n / 256) (n % 256) =
      if ValidRune (n : Int) = true then runeDiff fn n else 0 := by
  unfold cellUpTo
  have e : n / 256 * 256 + n % 256 = n := by omega
  rw [e]
  simp

/-- A turn of `build` that stores nothing keeps the map in step with the runes
visited. -/
theorem bucketsUpTo_skip (fn : String → String) (n : Nat) (m : Nat → Option Bucket)
    (hm : BucketsUpTo fn n m)
    (h0 : (if ValidRune (n : Int) = true then runeDiff fn n else 0) = 0) :
    BucketsUpTo fn (n + 1) m := by
  have hcell : ∀ row col, col < 256 → cellUpTo fn (n + 1) row col = cellUpTo fn n row col := by
    intro row col hcol
    by_cases h : row = n / 256 ∧ col = n % 256
    · rw [h.1, h.2, cellUpTo_succ_self, cellUpTo_self, h0]
    · exact cellUpTo_succ_other fn n row col hcol h
  refine ⟨?_, ?_⟩
  · intro row hr col hcol
    rw [hcell row col hcol]
    exact hm.1 row hr col hcol
  · intro row b hb
    obtain ⟨h1, h2, c, hc, h3⟩ := hm.2 row b hb
    refine ⟨h1, ?_, c, hc, ?_⟩
    · intro col hcol
      rw [hcell row col hcol]
      exact h2 col hcol
    · rw [hcell row c hc]
      exact h3

/-- A store into the cell of the rune `n`, which holds 0, keeps the map in step
with the runes visited. -/
theorem bucketsUpTo_store (fn : String → String) (n : Nat) (m : Nat → Option Bucket)
    (hm : BucketsUpTo fn n m) (old : List Int) (hlen : old.length = 256)
    (hold : ∀ col, col < 256 → old[col]? = some (cellUpTo fn n (n / 256) col))
    (hv : ValidRune (n : Int) = true) (hd : runeDiff fn n ≠ 0) :
    BucketsUpTo fn (n + 1)
      (Function.update m (n / 256) (some ⟨old.set (n % 256) (runeDiff fn n)⟩)) := by
  have hmod : n % 256 < 256 := Nat.mod_lt _ (by decide)
  refine ⟨?_, ?_⟩
  · intro row hr col hcol
    by_cases hrow0 : row = n / 256
    · rw [hrow0, Function.update_same] at hr
      exact absurd hr (by simp)
    · rw [Function.update_noteq hrow0] at hr
      rw [cellUpTo_succ_other fn n row col hcol (fun h => hrow0 h.1)]
      exact hm.1 row hr col hcol
  · intro row b hb
    by_cases hrow0 : row = n / 256
    · rw [hrow0, Function.update_same] at hb
      have hb' : b = ⟨old.set (n % 256) (runeDiff fn n)⟩ := by
        simp only [Option.some.injEq] at hb
        exact hb.symm
      subst hb'
      rw [hrow0]
      refine ⟨by simp [hlen], ?_, n % 256, hmod, ?_⟩
      · intro col hcol
        by_cases hc : col = n % 256
        · rw [hc, cellUpTo_succ_self, if_pos hv]
          simp [List.getElem?_set, hlen, hmod]
        · rw [cellUpTo_succ_other fn n (n / 256) col hcol (fun h => hc h.2)]
          rw [List.getElem?_set, if_neg (fun e => hc e.symm)]
          exact hold col hcol
      · rw [cellUpTo_succ_self, if_pos hv]
        exact hd
    · rw [Function.update_noteq hrow0] at hb
      obtain ⟨h1, h2, c, hc, h3⟩ := hm.2 row b hb
      refine ⟨h1, ?_, c, hc, ?_⟩
      · intro col hcol
        rw [cellUpTo_succ_other fn n row col hcol (fun h => hrow0 h.1)]
        exact h2 col hcol
      · rw [cellUpTo_succ_other fn n row c hc (fun h => hrow0 h.1)]
        exact h3

theorem buildStep_spec (fn : String → String) (n : Nat) (m : Nat → Option Bucket)
    (hn : n < 2 ^ 32) (hm : BucketsUpTo fn n m) :
    ∃ m1, buildStep fn m n = some m1 ∧ BucketsUpTo fn (n + 1) m1 := by
  unfold buildStep
  by_cases hv : ValidRune (n : Int) = true
  · simp only [hv, Bool.not_true, Bool.false_eq_true, if_false]
    by_cases hd : runeDiff fn n = 0
    · have hd' : DecodeRuneInString (fn (runeString n)) - (n : Int) = 0 := hd
      simp only [hd', if_true]
      exact ⟨m, rfl, bucketsUpTo_skip fn n m hm (by simp [hv, hd])⟩
    · have hd' : ¬ DecodeRuneInString (fn (runeString n)) - (n : Int) = 0 := hd
      simp only [hd', if_false, toUint32_small n hn, (row_col n).1, (row_col n).2]
      have hmod : n % 256 < 256 := Nat.mod_lt _ (by decide)
      cases hb : m (n / 256) with
      | none =>
        have hz : ∀ col, col < 256 → cellUpTo fn n (n / 256) col = 0 := hm.1 _ hb
        have hnew : ∀ col, col < 256 →
            (List.replicate tableSize (0 : Int))[col]? = some (cellUpTo fn n (n / 256) col) := by
          intro col hcol
          have hts : tableSize = 256 := rfl
          rw [hz col hcol, hts, List.getElem?_replicate, if_pos hcol]
        have hget : (List.replicate tableSize (0 : Int))[n % 256]?.getD 0 = 0 := by
          rw [hnew _ hmod, cellUpTo_self]
          rfl
        refine ⟨_, ?_, bucketsUpTo_store fn n m hm (List.replicate tableSize 0)
          (List.length_replicate _ _) hnew hv hd⟩
        simp only [Bucket.set, NewBucket, List.getD_eq_getElem?_getD, hget, ne_eq,
          not_true_eq_false, false_and, if_false, Option.map_some', runeDiff]
      | some b =>
        obtain ⟨h1, h2, -⟩ := hm.2 _ b hb
        have hget : b.values[n % 256]?.getD 0 = 0 := by
          rw [h2 _ hmod, cellUpTo_self]
          rfl
        refine ⟨_, ?_, bucketsUpTo_store fn n m hm b.values h1 h2 hv hd⟩
        simp only [Bucket.set, List.getD_eq_getElem?_getD, hget, ne_eq,
          not_true_eq_false, false_and, if_false, Option.map_some', runeDiff]
  · have hv' : ValidRune (n : Int) = false := by simpa using hv
    simp only [hv', Bool.not_false, if_true]
    exact ⟨m, rfl, bucketsUpTo_skip fn n m hm (by simp [hv'])⟩

theorem buildLoop_spec (fn : String → String) :
    ∀ (k n : Nat) (m : Nat → Option Bucket), n + k < 2 ^ 32 → BucketsUpTo fn n m →
      ∃ m1, buildLoop fn k n m = some m1 ∧ BucketsUpTo fn (n + k) m1 := by
  intro k
  induction k with
  | zero => intro n m _ hm; exact ⟨m, rfl, hm⟩
  | succ k ih =>
    intro n m hn hm
    obtain ⟨m1, h1, h2⟩ := buildStep_spec fn n m (by omega) hm
    obtain ⟨m2, h3, h4⟩ := ih (n + 1) m1 (by omega) h2
    refine ⟨m2, ?_, ?_⟩
    · rw [buildLoop, h1]
      exact h3
    · have e : n + (k + 1) = n + 1 + k := by omega
      rw [e]
      exact h4

theorem bucketsUpTo_init (fn : String → String) : BucketsUpTo fn 0 fun _ => none := by
  refine ⟨?_, ?_⟩
  · intro row _ col _
    simp [cellUpTo]
  · intro row b h
    simp at h

theorem build_spec (fn : String → String) :
    ∃ m, build fn = some m ∧ BucketsUpTo fn 0x1ffff m := by
  obtain ⟨m, h1, h2⟩ := buildLoop_spec fn 0x1ffff 0 (fun _ => none) (by decide)
    (bucketsUpTo_init fn)
  rw [Nat.zero_add] at h2
  exact ⟨m, h1, h2⟩
theorem buildLoop_succ (fn : String → String) (k r : Nat) (b : Nat → Option Bucket) :
    buildLoop fn (k + 1) r b =
      match buildStep fn b r with
      | none => none
      | some b1 => buildLoop fn k (r + 1) b1 := by
  rw [buildLoop]

theorem valuesLoop_succ (buckets : Nat → Option Bucket) (lookup : List LookupItem)
    (k i : Nat) (vals : List Int) :
    valuesLoop buckets lookup (k + 1) i vals =
      match valuesStep buckets lookup i vals with
      | none => none
      | some v => valuesLoop buckets lookup k (i + 1) v := by
  rw [valuesLoop]

theorem validateLoop_succ (ld : LookupDiff) (fn : String → String) (k r : Nat) (e : Bool) :
    validateLoop ld fn (k + 1) r e =
      if !ValidRune r then validateLoop ld fn k (r + 1) e
      else
        match ld.transform r with
        | none => none
        | some got =>
          validateLoop ld fn k (r + 1)
            (if DecodeRuneInString (fn (runeString r)) ≠ got then true else e) := by
  rw [validateLoop]

/-- The loop of `First`: -1 when every value is 0, the index of the first
value that is not 0 otherwise. -/
theorem firstFrom_spec : ∀ (vs : List Int) (i : Nat),
    (firstFrom vs i = -1 ∧ ∀ k, k < vs.length → vs[k]? = some 0) ∨
    (∃ k, k < vs.length ∧ firstFrom vs i = ((i + k : Nat) : Int) ∧ vs[k]? ≠ some 0 ∧
      ∀ j, j < k → vs[j]? = some 0) := by
  intro vs
  induction vs with
  | nil => intro i; left; exact ⟨rfl, fun k h => absurd h (by simp)⟩
  | cons v vs ih =>
    intro i
    by_cases hv : v = 0
    · have e : firstFrom (v :: vs) i = firstFrom vs (i + 1) := by simp [firstFrom, hv]
      rcases ih (i + 1) with ⟨h1, h2⟩ | ⟨k, hk, h1, h2, h3⟩
      · left
        refine ⟨by rw [e, h1], ?_⟩
        intro k hk
        cases k with
        | zero => simp [hv]
        | succ k => simpa using h2 k (by simpa using hk)
      · right
        refine ⟨k + 1, by simpa using hk, ?_, by simpa using h2, ?_⟩
        · rw [e, h1]
          congr 1
          omega
        · intro j hj
          cases j with
          | zero => simp [hv]
          | succ j => simpa using h3 j (by omega)
    · right
      refine ⟨0, by simp, by simp [firstFrom, hv], by simpa using hv, ?_⟩
      intro j hj
      omega

/-- The loop of `Last`: the index found before when every value is 0, the
index of the last value that is not 0 otherwise. -/
theorem lastFrom_spec : ∀ (vs : List Int) (i : Nat) (last : Int),
    (lastFrom vs i last = last ∧ ∀ k, k < vs.length → vs[k]? = some 0) ∨
    (∃ k, k < vs.length ∧ lastFrom vs i last = ((i + k : Nat) : Int) ∧ vs[k]? ≠ some 0 ∧
      ∀ j, k < j → j < vs.length → vs[j]? = some 0) := by
  intro vs
  induction vs with
  | nil => intro i last; left; exact ⟨rfl, fun k h => absurd h (by simp)⟩
  | cons v vs ih =>
    intro i last
    have e : lastFrom (v :: vs) i last = lastFrom vs (i + 1) (if v ≠ 0 then (i : Int) else last) :=
      rfl
    rcases ih (i + 1) (if v ≠ 0 then (i : Int) else last) with ⟨h1, h2⟩ | ⟨k, hk, h1, h2, h3⟩
    · by_cases hv : v = 0
      · left
        refine ⟨by rw [e, h1]; simp [hv], ?_⟩
        intro k hk
        cases k with
        | zero => simp [hv]
        | succ k => simpa using h2 k (by simpa using hk)
      · right
        refine ⟨0, by simp, by rw [e, h1]; simp [hv], by simpa using hv, ?_⟩
        intro j hj hjl
        cases j with
        | zero => omega
        | succ j => simpa using h2 j (by simpa using hjl)
    · right
      refine ⟨k + 1, by simpa using hk, ?_, by simpa using h2, ?_⟩
      · rw [e, h1]
        congr 1
        omega
      · intro j hj hjl
        cases j with
        | zero => omega
        | succ j => simpa using h3 j (by omega) (by simpa using hjl)

/-- The bounds of a bucket of 256 values, not all 0: `First` and `Last` are
the indices of its first and of its last value that is not 0. -/
theorem bucket_bounds (b : Bucket) (hlen : b.values.length = 256)
    (hne : ∃ col, col < 256 ∧ b.values[col]? ≠ some 0) :
    ∃ f l : Nat, b.First = (f : Int) ∧ b.Last = (l : Int) ∧ f ≤ l ∧ l < 256 ∧
      (∀ j, j < f → b.values[j]? = some 0) ∧
      (∀ j, l < j → j < 256 → b.values[j]? = some 0) := by
  obtain ⟨c, hc, hcne⟩ := hne
  rcases firstFrom_spec b.values 0 with ⟨-, h2⟩ | ⟨f, hf, h1, h2, h3⟩
  · exact absurd (h2 c (by omega)) hcne
  · rcases lastFrom_spec b.values 0 (-1) with ⟨-, g2⟩ | ⟨l, hl, g1, g2, g3⟩
    · exact absurd (g2 c (by omega)) hcne
    · refine ⟨f, l, ?_, ?_, ?_, by omega, h3, ?_⟩
      · rw [Bucket.First, h1, Nat.zero_add]
      · rw [Bucket.Last, g1, Nat.zero_add]
      · by_contra hlt
        exact h2 (g3 f (by omega) hf)
      · intro j hj hj2
        exact g3 j hj (by omega)
/-- The entry and the offset computed for a row that has a bucket. -/
theorem lookupStep_some (m : Nat → Option Bucket) (i : Nat) (off : Int) (b : Bucket) (f l : Nat)
    (hb : m i = some b) (hf : b.First = (f : Int)) (hl : b.Last = (l : Int))
    (hf16 : f < 65536) (hl16 : l < 65536) :
    lookupStep m i off = (⟨toUint32 off, f, l⟩, off + ((l : Int) - f + 1)) := by
  have he : b.empty = false := by
    simp only [Bucket.empty, hf, beq_eq_false_iff_ne, ne_eq]
    omega
  have hs : b.size = (l : Int) - f + 1 := by
    have : ¬ ((f : Int) = -1) := by omega
    simp only [Bucket.size, hf, hl, this, if_false]
  have e1 : toUint16 (f : Int) = f := by unfold toUint16; omega
  have e2 : toUint16 (l : Int) = l := by unfold toUint16; omega
  simp only [lookupStep, hb, he, Bool.not_false, if_true, hs, hf, hl, e1, e2]

theorem lookupStep_none (m : Nat → Option Bucket) (i : Nat) (off : Int) (hb : m i = none) :
    lookupStep m i off = (⟨0, 255, 0⟩, off) := by
  simp only [lookupStep, hb]

/-- The first loop of `assembleStructure` appends the entry of each row. -/
theorem lookupLoop_eq (m : Nat → Option Bucket) : ∀ (k i : Nat) (lookup : List LookupItem),
    lookupLoop m k i lookup (offsetOf m i) =
      (lookup ++ (List.range' i k).map (fun j => (lookupStep m j (offsetOf m j)).1),
        offsetOf m (i + k)) := by
  intro k
  induction k with
  | zero => intro i lookup; simp [lookupLoop]
  | succ k ih =>
    intro i lookup
    have e : (lookupStep m i (offsetOf m i)).2 = offsetOf m (i + 1) := rfl
    rw [lookupLoop, e, ih (i + 1)]
    have e2 : i + 1 + k = i + (k + 1) := by omega
    simp [List.range', e2]

theorem lookup_get (m : Nat → Option Bucket) (n row : Nat) (h : row < n) :
    (lookupLoop m n 0 [] 0).1[row]? = some (lookupStep m row (offsetOf m row)).1 := by
  have := lookupLoop_eq m n 0 []
  have e0 : offsetOf m 0 = 0 := rfl
  rw [e0] at this
  rw [this]
  simp [List.getElem?_range', h]

/-- The running offset grows by the size of each bucket, which is at most 256. -/
theorem offsetOf_succ (m : Nat → Option Bucket) (hwf : BucketsWF m) (i : Nat) :
    offsetOf m i ≤ offsetOf m (i + 1) ∧ offsetOf m (i + 1) ≤ offsetOf m i + 256 := by
  show offsetOf m i ≤ (lookupStep m i (offsetOf m i)).2 ∧
    (lookupStep m i (offsetOf m i)).2 ≤ offsetOf m i + 256
  cases hb : m i with
  | none =>
    rw [lookupStep_none m i _ hb]
    constructor <;> simp
  | some b =>
    obtain ⟨hlen, hne⟩ := hwf i b hb
    obtain ⟨f, l, hf, hl, hfl, hl256, -, -⟩ := bucket_bounds b hlen hne
    rw [lookupStep_some m i _ b f l hb hf hl (by omega) (by omega)]
    constructor <;> simp <;> omega

theorem offsetOf_bounds (m : Nat → Option Bucket) (hwf : BucketsWF m) :
    ∀ i, 0 ≤ offsetOf m i ∧ offsetOf m i ≤ 256 * (i : Int) := by
  intro i
  induction i with
  | zero => exact ⟨le_refl _, le_refl _⟩
  | succ i ih =>
    have := offsetOf_succ m hwf i
    constructor
    · omega
    · push_cast
      omega

theorem offsetOf_mono (m : Nat → Option Bucket) (hwf : BucketsWF m) :
    ∀ k i, offsetOf m i ≤ offsetOf m (i + k) := by
  intro k
  induction k with
  | zero => intro i; exact le_refl _
  | succ k ih =>
    intro i
    have h1 := ih i
    have h2 := (offsetOf_succ m hwf (i + k)).1
    have e : i + (k + 1) = i + k + 1 := by omega
    rw [e]
    omega
/-- A turn of the second loop of `assembleStructure` keeps the values in step
with the rows visited. -/
theorem valuesStep_spec (m : Nat → Option Bucket) (hwf : BucketsWF m)
    (lookup : List LookupItem) (i : Nat) (vals : List Int)
    (hlk : lookup.getD i ⟨0, 0, 0⟩ = (lookupStep m i (offsetOf m i)).1)
    (hv : ValuesUpTo m i vals) :
    ∃ vals1, valuesStep m lookup i vals = some vals1 ∧ ValuesUpTo m (i + 1) vals1 := by
  obtain ⟨hlen, hrows⟩ := hv
  have hoff : offsetOf m (i + 1) = (lookupStep m i (offsetOf m i)).2 := rfl
  cases hb : m i with
  | none =>
    refine ⟨vals, by simp only [valuesStep, hb], ?_, ?_⟩
    · rw [hoff, lookupStep_none m i _ hb]
      exact hlen
    · intro row hrow b f l hbr hf hl col h1 h2
      have hne : row ≠ i := by
        intro e
        rw [e, hb] at hbr
        exact absurd hbr (by simp)
      exact hrows row (by omega) b f l hbr hf hl col h1 h2
  | some b =>
    obtain ⟨hblen, hne⟩ := hwf i b hb
    obtain ⟨f, l, hf, hl, hfl, hl256, -, -⟩ := bucket_bounds b hblen hne
    have hstep := lookupStep_some m i (offsetOf m i) b f l hb hf hl (by omega) (by omega)
    have he : b.empty = false := by
      simp only [Bucket.empty, hf, beq_eq_false_iff_ne, ne_eq]
      omega
    have hmod : (l + 1) % 2 ^ 16 = l + 1 := by omega
    have hslice : sliceOf b.values f (l + 1) = some ((b.values.drop f).take (l + 1 - f)) := by
      have hts : tableSize = 256 := rfl
      simp only [sliceOf, hts]
      rw [if_pos ⟨by omega, by omega⟩]
    have hsl : ((b.values.drop f).take (l + 1 - f)).length = l + 1 - f := by
      rw [List.length_take, List.length_drop]
      omega
    refine ⟨vals ++ (b.values.drop f).take (l + 1 - f), ?_, ?_, ?_⟩
    · simp only [valuesStep, hb, he, Bool.false_eq_true, if_false, hlk, hstep, hmod, hslice,
        Option.map_some']
    · rw [hoff, hstep, List.length_append, hsl]
      push_cast
      omega
    · intro row hrow b1 f1 l1 hbr hf1 hl1 col h1 h2
      by_cases hri : row = i
      · subst hri
        rw [hb] at hbr
        have hbb : b = b1 := by simpa using hbr
        subst hbb
        have ef : f1 = f := by rw [hf] at hf1; omega
        have el : l1 = l := by rw [hl] at hl1; omega
        subst ef
        subst el
        have hidx : (offsetOf m row).toNat + col - f1 = vals.length + (col - f1) := by omega
        rw [hidx, List.getElem?_append_right (by omega)]
        have e1 : vals.length + (col - f1) - vals.length = col - f1 := by omega
        rw [e1, List.getElem?_take, if_pos (by omega), List.getElem?_drop]
        congr 1
        omega
      · have hlt : row < i := by omega
        obtain ⟨hrlen, hrne⟩ := hwf row b1 hbr
        obtain ⟨f2, l2, hf2, hl2, hfl2, hl2256, -, -⟩ := bucket_bounds b1 hrlen hrne
        have ef : f1 = f2 := by rw [hf2] at hf1; omega
        have el : l1 = l2 := by rw [hl2] at hl1; omega
        have hnext : offsetOf m (row + 1) = offsetOf m row + ((l2 : Int) - f2 + 1) := by
          show (lookupStep m row (offsetOf m row)).2 = _
          rw [lookupStep_some m row _ b1 f2 l2 hbr hf2 hl2 (by omega) (by omega)]
        have hmono := offsetOf_mono m hwf (i - (row + 1)) (row + 1)
        have e3 : row + 1 + (i - (row + 1)) = i := by omega
        rw [e3] at hmono
        have h0 := (offsetOf_bounds m hwf row).1
        rw [List.getElem?_append_left (by omega)]
        exact hrows row hlt b1 f1 l1 hbr hf1 hl1 col h1 h2

theorem valuesLoop_spec (m : Nat → Option Bucket) (hwf : BucketsWF m)
    (lookup : List LookupItem) :
    ∀ (k i : Nat) (vals : List Int),
      (∀ j, i ≤ j → j < i + k →
        lookup.getD j ⟨0, 0, 0⟩ = (lookupStep m j (offsetOf m j)).1) →
      ValuesUpTo m i vals →
      ∃ vals1, valuesLoop m lookup k i vals = some vals1 ∧ ValuesUpTo m (i + k) vals1 := by
  intro k
  induction k with
  | zero => intro i vals _ hv; exact ⟨vals, rfl, hv⟩
  | succ k ih =>
    intro i vals hlk hv
    obtain ⟨v1, h1, h2⟩ := valuesStep_spec m hwf lookup i vals (hlk i (le_refl _) (by omega)) hv
    obtain ⟨v2, h3, h4⟩ := ih (i + 1) v1 (fun j hj1 hj2 => hlk j (by omega) (by omega)) h2
    refine ⟨v2, ?_, ?_⟩
    · rw [valuesLoop_succ, h1]
      exact h3
    · have e : i + (k + 1) = i + 1 + k := by omega
      rw [e]
      exact h4

/-- The table assembled from a map of buckets: the entry of each row and the
values of each bucket are where `transform` looks for them. -/
theorem assembleStructure_spec (m : Nat → Option Bucket) (hwf : BucketsWF m) :
    ∃ ld, assembleStructure m = some ld ∧
      (∀ row, row < 512 → ld.lookup[row]? = some (lookupStep m row (offsetOf m row)).1) ∧
      ValuesUpTo m 512 ld.values := by
  have hls : lookupSize = 512 := rfl
  have hget : ∀ row, row < 512 →
      (lookupLoop m 512 0 [] 0).1[row]? = some (lookupStep m row (offsetOf m row)).1 :=
    fun row h => lookup_get m 512 row h
  have hinit : ValuesUpTo m 0 [] := by
    refine ⟨rfl, ?_⟩
    intro row hrow
    omega
  unfold assembleStructure
  rw [hls]
  generalize (lookupLoop m 512 0 [] 0).1 = lk at hget
  obtain ⟨vals, h1, h2⟩ := valuesLoop_spec m hwf lk 512 0 []
    (fun j _ hj => by
      rw [List.getD_eq_getElem?_getD, hget j (by omega)]
      rfl) hinit
  rw [Nat.zero_add] at h2
  rw [h1]
  exact ⟨⟨lk, vals⟩, rfl, hget, h2⟩
theorem bucketsWF_of_upTo (fn : String → String) (n : Nat) (m : Nat → Option Bucket)
    (h : BucketsUpTo fn n m) : BucketsWF m := by
  intro row b hb
  obtain ⟨h1, h2, c, hc, h3⟩ := h.2 row b hb
  refine ⟨h1, c, hc, ?_⟩
  rw [h2 c hc]
  intro e
  exact h3 (Option.some.inj e)

theorem cellOf_upTo (fn : String → String) (n : Nat) (m : Nat → Option Bucket)
    (h : BucketsUpTo fn n m) (row col : Nat) (hcol : col < 256) :
    cellOf m row col = cellUpTo fn n row col := by
  unfold cellOf
  cases hb : m row with
  | none => exact (h.1 row hb col hcol).symm
  | some b =>
    obtain ⟨-, h2, -⟩ := h.2 row b hb
    show b.values.getD col 0 = _
    rw [List.getD_eq_getElem?_getD, h2 col hcol]
    rfl

theorem toInt32_id (x : Int) (h1 : -2 ^ 31 ≤ x) (h2 : x < 2 ^ 31) : toInt32 x = x := by
  unfold toInt32
  omega

theorem toUint32_nonneg (x : Int) (h1 : 0 ≤ x) (h2 : x < 2 ^ 32) : toUint32 x = x.toNat := by
  unfold toUint32
  omega

theorem decode_bounds (s : String) :
    0 ≤ DecodeRuneInString s ∧ DecodeRuneInString s < 0x110000 := by
  unfold DecodeRuneInString
  cases s.data with
  | nil => constructor <;> decide
  | cons c cs =>
    have h := c.valid
    simp only [UInt32.isValidChar, Nat.isValidChar] at h
    have hc : c.toNat < 0x110000 := by
      show c.val.toNat < _
      rcases h with h | h <;> omega
    constructor
    · exact Int.ofNat_nonneg _
    · show ((c.toNat : Nat) : Int) < 0x110000
      omega

/-- What `transform` returns on the table assembled from a map of buckets: the
rune itself beyond the table, the rune plus the value of its cell otherwise;
no index is out of range. -/
theorem transform_spec (m : Nat → Option Bucket) (hwf : BucketsWF m) (ld : LookupDiff)
    (hlk : ∀ row, row < 512 → ld.lookup[row]? = some (lookupStep m row (offsetOf m row)).1)
    (hvals : ValuesUpTo m 512 ld.values) (r : Int) (h1 : -2 ^ 31 ≤ r) (h2 : r < 2 ^ 31) :
    ld.transform r =
      some (if 511 < toUint32 r / 256 then r
        else toInt32 (r + cellOf m (toUint32 r / 256) (toUint32 r % 256))) := by
  have hlm : lookupMask = 511 := rfl
  have hcol : toUint32 r % 256 < 256 := Nat.mod_lt _ (by decide)
  unfold LookupDiff.transform
  simp only [(row_col (toUint32 r)).1, (row_col (toUint32 r)).2, hlm, gt_iff_lt]
  by_cases hrow : 511 < toUint32 r / 256
  · simp only [hrow, if_true]
  · simp only [hrow, if_false]
    have hrow' : toUint32 r / 256 < 512 := by omega
    rw [hlk _ hrow']
    cases hb : m (toUint32 r / 256) with
    | none =>
      rw [lookupStep_none m _ _ hb]
      have hc : ¬ (toUint32 r % 256 ≥ 255 ∧ toUint32 r % 256 ≤ 0) := by omega
      have hcell : cellOf m (toUint32 r / 256) (toUint32 r % 256) = 0 := by
        simp only [cellOf, hb]
      simp only [hc, not_false_eq_true, if_true, hcell, add_zero, toInt32_id r h1 h2]
    | some b =>
      obtain ⟨hblen, hne⟩ := hwf _ b hb
      obtain ⟨f, l, hf, hl, hfl, hl256, hlow, hhigh⟩ := bucket_bounds b hblen hne
      rw [lookupStep_some m _ _ b f l hb hf hl (by omega) (by omega)]
      have hcell : cellOf m (toUint32 r / 256) (toUint32 r % 256) =
          b.values[toUint32 r % 256]?.getD 0 := by
        simp only [cellOf, hb, List.getD_eq_getElem?_getD]
      by_cases hin : toUint32 r % 256 ≥ f ∧ toUint32 r % 256 ≤ l
      · have hob := offsetOf_bounds m hwf (toUint32 r / 256)
        have hoff : toUint32 (offsetOf m (toUint32 r / 256)) =
            (offsetOf m (toUint32 r / 256)).toNat :=
          toUint32_nonneg _ (by omega) (by omega)
        have hidx : ((offsetOf m (toUint32 r / 256)).toNat + toUint32 r % 256 - f) % 2 ^ 32 =
            (offsetOf m (toUint32 r / 256)).toNat + toUint32 r % 256 - f := by
          omega
        have hval := hvals.2 _ hrow' b f l hb hf hl _ hin.1 hin.2
        obtain ⟨d, hd⟩ : ∃ d, b.values[toUint32 r % 256]? = some d := by
          have : toUint32 r % 256 < b.values.length := by omega
          exact ⟨_, List.getElem?_eq_getElem this⟩
        simp only [hin, not_true_eq_false, if_false, hoff, hidx, hval, hd, hcell, and_self,
          Option.getD_some]
      · have hz : b.values[toUint32 r % 256]? = some 0 := by
          by_cases hlt : toUint32 r % 256 < f
          · exact hlow _ hlt
          · exact hhigh _ (by omega) hcol
        simp only [hin, not_false_eq_true, if_true, hcell, hz, Option.getD_some, add_zero,
          toInt32_id r h1 h2]

theorem validateLoop_spec (ld : LookupDiff) (fn : String → String)
    (hok : ∀ r : Nat, r < 0x1ffff → ValidRune r = true →
      ld.transform r = some (DecodeRuneInString (fn (runeString r)))) :
    ∀ k r : Nat, r + k ≤ 0x1ffff → validateLoop ld fn k r false = some false := by
  intro k
  induction k with
  | zero => intro r _; rfl
  | succ k ih =>
    intro r hr
    rw [validateLoop_succ]
    by_cases hv : ValidRune r = true
    · simp only [hv, Bool.not_true, Bool.false_eq_true, if_false, hok r (by omega) hv, ne_eq,
        not_true_eq_false]
      exact ih (r + 1) (by omega)
    · have hv' : ValidRune r = false := by simpa using hv
      simp only [hv', Bool.not_false, if_true]
      exact ih (r + 1) (by omega)

/-! ## C25: the two-level table is exact -/

/-- C25: for every mapping `fn`, `build` and `assembleStructure` return (no
panic), and on the table `ld` they make: `transform(r)` is the first rune of
`fn(string(r))` for every valid rune `r` below `0x1ffff`, so that `validate`
returns nil; `transform` reads the tables within their bounds for every rune;
and `transform(r)` is `r` for every rune beyond the table, from `0x20000` on or
negative. -/
theorem strcase_exact (fn : String → String) :
    ∃ buckets ld, build fn = some buckets ∧ assembleStructure buckets = some ld ∧
      (∀ r : Nat, r < 0x1ffff → ValidRune r = true →
        ld.transform r = some (DecodeRuneInString (fn (runeString r)))) ∧
      ld.validate fn = some false ∧
      (∀ r : Int, -2 ^ 31 ≤ r → r < 2 ^ 31 → ∃ t, ld.transform r = some t) ∧
      (∀ r : Int, -2 ^ 31 ≤ r → r < 2 ^ 31 → (0x20000 ≤ r ∨ r < 0) →
        ld.transform r = some r) := by
  obtain ⟨m, hbuild, hm⟩ := build_spec fn
  have hwf := bucketsWF_of_upTo fn _ m hm
  obtain ⟨ld, hld, hlk, hvals⟩ := assembleStructure_spec m hwf
  have hexact : ∀ r : Nat, r < 0x1ffff → ValidRune r = true →
      ld.transform r = some (DecodeRuneInString (fn (runeString r))) := by
    intro r hr hv
    have hu : toUint32 (r : Int) = r := toUint32_small r (by omega)
    rw [transform_spec m hwf ld hlk hvals r (by omega) (by omega), hu]
    have hrow : ¬ 511 < r / 256 := by omega
    have hcol : r % 256 < 256 := Nat.mod_lt _ (by decide)
    rw [if_neg hrow, cellOf_upTo fn _ m hm _ _ hcol]
    have e : r / 256 * 256 + r % 256 = r := by omega
    have hcell : cellUpTo fn 0x1ffff (r / 256) (r % 256) = runeDiff fn r := by
      unfold cellUpTo
      rw [e, if_pos ⟨hr, hv⟩]
    have hb := decode_bounds (fn (runeString r))
    rw [hcell, runeDiff]
    have e2 : (r : Int) + (DecodeRuneInString (fn (runeString r)) - r) =
        DecodeRuneInString (fn (runeString r)) := by omega
    rw [e2, toInt32_id _ (by omega) (by omega)]
  refine ⟨m, ld, hbuild, hld, hexact, ?_, ?_, ?_⟩
  · exact validateLoop_spec ld fn hexact 0x1ffff 0 (by decide)
  · intro r h1 h2
    exact ⟨_, transform_spec m hwf ld hlk hvals r h1 h2⟩
  · intro r h1 h2 h3
    rw [transform_spec m hwf ld hlk hvals r h1 h2]
    have hrow : 511 < toUint32 r / 256 := by
      have : toUint32 r = (r % 2 ^ 32).toNat := rfl
      omega
    rw [if_pos hrow]

theorem strcase_exact_witness :
    ∃ buckets ld, build exUpper = some buckets ∧ assembleStructure buckets = some ld ∧
      ld.transform 97 = some 65 ∧ ld.transform 0x20000 = some 0x20000 := by
  obtain ⟨buckets, ld, h1, h2, h3, -, -, h4⟩ := strcase_exact exUpper
  refine ⟨buckets, ld, h1, h2, ?_, h4 0x20000 (by norm_num) (by norm_num) (Or.inl (le_refl _))⟩
  have h := h3 97 (by decide) (by decide)
  have e : DecodeRuneInString (exUpper (runeString 97)) = 65 := by decide
  rw [e] at h
  exact h

/-! # Parts II and III, continued: nil accumulators and the empty delimiter -/

/-! ## C36: the accumulators of a numeric CASE -/

/-- C36 (failing input): `compileNumericCase` uses accumulators that were never
assigned.  Without ELSE, a first live limb whose THEN is lowered to the
all-false node reaches `p.Or(merged, when)` with `merged` nil; a CASE whose
only limb is dead (`WHEN FALSE`), or whose limbs are absent with a MISSING
ELSE, reaches `p.floatk(outnum, outk)` with both nil.  The sibling
`compileGenericCase` returns the all-false node for the same dead CASE. -/
theorem compileNumericCase_nil_accumulator :
    compileNumericCase exApi ⟨[⟨.Other 1, .Other 0⟩], none, ""⟩ =
      .panic "nil pointer dereference" ∧
    compileNumericCase exApi ⟨[⟨.Bool false, .Integer 1⟩], none, ""⟩ =
      .panic "nil pointer dereference" ∧
    compileNumericCase exApi ⟨[], some .Missing, ""⟩ = .panic "nil pointer dereference" ∧
    compileGenericCase exApi ⟨[⟨.Bool false, .Integer 1⟩], none, ""⟩ = .ok kfalse := by
  refine ⟨?_, ?_, ?_, ?_⟩ <;> decide

/-! ## C37: the delimiter of SPLIT_PART -/

/-- C37 (failing input): `SPLIT_PART(x, '', 1)` passes the argument check (the
delimiter is a literal string) and then reads `delimiterStr[0]` of the empty
string: the compiler panics with an index out of range, where a compile
error is due; with the delimiter `','` the call compiles. -/
theorem compilefunc_splitpart_empty_delimiter :
    compilefunc exProg .SplitPart "SPLIT_PART" [.Path "x", .String "", .Integer 1]
      [.Path "x", .String "", .Integer 1] = .panic "index out of range" ∧
    (compilefunc exProg .SplitPart "SPLIT_PART" [.Path "x", .String ",", .Integer 1]
      [.Path "x", .String ",", .Integer 1]).isOk = true := by
  refine ⟨?_, ?_⟩ <;> decide

/-! # Part IX: theorems on the float arithmetic -/

/-! ## C33: folding a broadcast operand into the immediate form -/

theorem floatModel_setssa (p : prog) (fden : Nat → Rat) (v : Nat) (op : ssaop) (imm : Imm)
    (args : List Nat) (hden : FloatModel p fden) (hv : v < p.values.length)
    (hnew : fden v = nodeFloat fden ⟨op, args, imm⟩ (fden v)) :
    FloatModel (p.setssa v op imm args) fden := by
  intro u
  by_cases hu : u = v
  · subst hu
    simpa [node_setssa_self p u op imm args hv] using hnew
  · simpa [node_setssa_other p v u op imm args hu] using hden u

theorem fden_of_broadcast (p : prog) (fden : Nat → Rat) (hden : FloatModel p fden) (a : Nat)
    (h : p.opOf a = .sbroadcastf) : fden a = tof64 (p.node a).imm := by
  have := hden a
  simp only [prog.opOf] at h
  simpa [nodeFloat, h] using this

theorem exFoldDen_model : FloatModel exFoldProg exFoldDen := by
  intro v
  match v with
  | 0 => rfl
  | 1 => rfl
  | 2 => rfl
  | 3 => simp [exFoldProg, exFoldDen, prog.node, nodeFloat]; norm_num
  | _ + 4 => rfl

/-- C33: for an `add.f`, `sub.f`, `mul.f` or `div.f` node `v` with operands
`(a0, a1, k)`, `rewrite1` returns `v`.  When `a1` is a broadcast of `c`
(whatever `a0` is, a broadcast too or not) the node becomes the immediate form
`(a0, k, c)`: `sub.imm.f`, `div.imm.f`, `add.imm.f`, `mul.imm.f`.  Otherwise,
when `a0` is a broadcast of `c`, it becomes the reversed form `(a1, k, c)`:
`rsub.imm.f`, `rdiv.imm.f`, and the same `add.imm.f`, `mul.imm.f` for the
commutative operators.  Otherwise nothing changes.  In every case the mask
operand is kept and, over exact arithmetic, every model of the program is a
model of the program after the call: the node computes the number it computed
before. -/
theorem rewrite1_fold_broadcast (mask : prog → Nat → Nat) (p : prog) (v a0 a1 k : Nat)
    (fden : Nat → Rat) (hden : FloatModel p fden)
    (hop : (p.node v).op = .saddf ∨ (p.node v).op = .ssubf ∨ (p.node v).op = .smulf ∨
      (p.node v).op = .sdivf)
    (hargs : (p.node v).args = [a0, a1, k]) :
    ∃ p' b, rewrite1 mask p v = some (p', v, b) ∧ FloatModel p' fden ∧
      nodeFloat fden (p'.node v) (fden v) = nodeFloat fden (p.node v) (fden v) ∧
      (p.opOf a1 = .sbroadcastf →
        p'.node v = ⟨immediateForm (p.node v).op, [a0, k], .float (tof64 (p.node a1).imm)⟩ ∧
          b = true) ∧
      (p.opOf a1 ≠ .sbroadcastf → p.opOf a0 = .sbroadcastf →
        p'.node v = ⟨reversedForm (p.node v).op, [a1, k], .float (tof64 (p.node a0).imm)⟩ ∧
          b = true) ∧
      (p.opOf a1 ≠ .sbroadcastf → p.opOf a0 ≠ .sbroadcastf → p' = p ∧ b = false) := by
  have hv : v < p.values.length :=
    lt_length_of_op p v (by rcases hop with h | h | h | h <;> simp [h])
  have hdv := hden v
  have eb := fden_of_broadcast p fden hden
  rcases hop with h | h | h | h
  all_goals
    simp only [rewrite1, h, hargs, keep, clobber]
    simp only [nodeFloat, h, hargs] at hdv
    split_ifs with h1 h2
    · have e1 := eb a1 h1
      refine ⟨_, _, rfl, ?_, ?_, ?_, ?_, ?_⟩
      · exact floatModel_setssa _ _ _ _ _ _ hden hv (by simp [nodeFloat, tof64, hdv, e1])
      · rw [node_setssa_self _ _ _ _ _ hv]
        simp [nodeFloat, tof64, h, hargs, e1]
      · intro _; exact ⟨by rw [node_setssa_self _ _ _ _ _ hv]; rfl, rfl⟩
      · intro hc; exact absurd h1 hc
      · intro hc; exact absurd h1 hc
    · have e0 := eb a0 h2
      refine ⟨_, _, rfl, ?_, ?_, ?_, ?_, ?_⟩
      · exact floatModel_setssa _ _ _ _ _ _ hden hv (by
          simp only [nodeFloat, tof64, hdv, e0]
          try ring)
      · rw [node_setssa_self _ _ _ _ _ hv]
        simp only [nodeFloat, tof64, h, hargs, e0]
        try ring
      · intro hc; exact absurd hc h1
      · intro _ _; exact ⟨by rw [node_setssa_self _ _ _ _ _ hv]; rfl, rfl⟩
      · intro _ hc; exact absurd h2 hc
    · refine ⟨_, _, rfl, hden, rfl, ?_, ?_, ?_⟩
      · intro hc; exact absurd hc h1
      · intro _ hc; exact absurd hc h2
      · intro _ _; exact ⟨rfl, rfl⟩

theorem rewrite1_fold_broadcast_witness :
    ∃ p' b, rewrite1 idMask exFoldProg 3 = some (p', 3, b) ∧ FloatModel p' exFoldDen ∧
      nodeFloat exFoldDen (p'.node 3) (exFoldDen 3) =
        nodeFloat exFoldDen (exFoldProg.node 3) (exFoldDen 3) ∧
      (exFoldProg.opOf 1 = .sbroadcastf →
        p'.node 3 = ⟨immediateForm (exFoldProg.node 3).op, [2, 0],
          .float (tof64 (exFoldProg.node 1).imm)⟩ ∧ b = true) ∧
      (exFoldProg.opOf 1 ≠ .sbroadcastf → exFoldProg.opOf 2 = .sbroadcastf →
        p'.node 3 = ⟨reversedForm (exFoldProg.node 3).op, [1, 0],
          .float (tof64 (exFoldProg.node 2).imm)⟩ ∧ b = true) ∧
      (exFoldProg.opOf 1 ≠ .sbroadcastf → exFoldProg.opOf 2 ≠ .sbroadcastf →
        p' = exFoldProg ∧ b = false) :=
  rewrite1_fold_broadcast idMask exFoldProg 3 2 1 0 exFoldDen exFoldDen_model (by decide) (by decide)

/-- The example of C33 evaluated: `sub.f (broadcast 3) x k` becomes
`rsub.imm.f x k 3`, and `sub.f x (broadcast 3) k` becomes `sub.imm.f x k 3`. -/
theorem rewrite1_fold_broadcast_example :
    rewrite1 idMask exFoldProg 3 =
      some (exFoldProg.setssa 3 .srsubimmf (.float 3) [1, 0], 3, true) ∧
    rewrite1 idMask (exFoldProg.setssa 3 .ssubf .nil [1, 2, 0]) 3 =
      some (exFoldProg.setssa 3 .ssubimmf (.float 3) [1, 0], 3, true) := by
  constructor <;> rfl

/-! # Part X: theorems on the opcode address table -/

/-! ## C39: the opcode address table is padded to a power of two -/

theorem wrap64_id (x : Int) (h1 : -9223372036854775808 ≤ x) (h2 : x < 9223372036854775808) :
    wrap64 x = x := by
  unfold wrap64
  omega

theorem two_pow_62 : (2 : Int) ^ 62 = 4611686018427387904 := by norm_num

theorem nextPowerLoop_spec (x : Int) (hx : x ≤ 2 ^ 62) :
    ∀ (fuel j : Nat), j ≤ 62 → 64 ≤ fuel + j → (j = 0 ∨ (2 : Int) ^ (j - 1) < x) →
      ∃ k : Nat, nextPowerLoop fuel x (2 ^ j) = some (2 ^ k) ∧ x ≤ 2 ^ k ∧
        (k = 0 ∨ (2 : Int) ^ (k - 1) < x) ∧ j ≤ k ∧ k ≤ 62 := by
  intro fuel
  induction fuel with
  | zero => intro j h1 h2; omega
  | succ fuel ih =>
    intro j hj hf hlow
    simp only [nextPowerLoop]
    split_ifs with hlt
    · have hj62 : j < 62 := by
        by_contra hc
        have : j = 62 := by omega
        subst this
        omega
      have hpow : (2 : Int) ^ j * 2 = 2 ^ (j + 1) := by ring
      have hle : (2 : Int) ^ (j + 1) ≤ 2 ^ 62 := pow_le_pow_right₀ (by norm_num) (by omega)
      have hpos : (0 : Int) < 2 ^ (j + 1) := by positivity
      rw [hpow, wrap64_id _ (by omega) (by rw [two_pow_62] at hle; omega)]
      obtain ⟨k, h1, h2, h3, h4, h5⟩ := ih (j + 1) (by omega) (by omega) (Or.inr (by simpa using hlt))
      exact ⟨k, h1, h2, h3, by omega, h5⟩
    · exact ⟨j, rfl, by omega, hlow, le_refl _, hj⟩

theorem nextPower_spec (x : Int) (hx : x ≤ 2 ^ 62) :
    ∃ k : Nat, nextPower x = some (2 ^ k) ∧ x ≤ 2 ^ k ∧ (k = 0 ∨ (2 : Int) ^ (k - 1) < x) ∧
      k ≤ 62 := by
  obtain ⟨k, h1, h2, h3, _, h5⟩ := nextPowerLoop_spec x hx 66 0 (by omega) (by omega) (Or.inl rfl)
  exact ⟨k, by simpa [nextPower] using h1, h2, h3, h5⟩
theorem nextPowerLoop_zero (x : Int) (hx : 0 < x) : ∀ fuel, nextPowerLoop fuel x 0 = none := by
  intro fuel
  induction fuel with
  | zero => rfl
  | succ fuel ih =>
    simp only [nextPowerLoop, hx, if_true]
    have : wrap64 (0 * 2) = 0 := by norm_num [wrap64]
    rw [this]
    exact ih

theorem nextPowerLoop_min (x : Int) (hx : 0 < x) :
    ∀ fuel, nextPowerLoop fuel x (-9223372036854775808) = none := by
  intro fuel
  cases fuel with
  | zero => rfl
  | succ fuel =>
    have h1 : (-9223372036854775808 : Int) < x := by omega
    have h2 : wrap64 (-9223372036854775808 * 2) = 0 := by norm_num [wrap64]
    simp only [nextPowerLoop, h1, if_true, h2]
    exact nextPowerLoop_zero x hx fuel

theorem nextPowerLoop_diverges (x : Int) (hx : 2 ^ 62 < x) :
    ∀ (fuel j : Nat), j ≤ 62 → nextPowerLoop fuel x (2 ^ j) = none := by
  have hx0 : 0 < x := by rw [two_pow_62] at hx; omega
  intro fuel
  induction fuel with
  | zero => intro j _; rfl
  | succ fuel ih =>
    intro j hj
    have hle : (2 : Int) ^ j ≤ 2 ^ 62 := pow_le_pow_right₀ (by norm_num) hj
    have hlt : (2 : Int) ^ j < x := lt_of_le_of_lt hle hx
    simp only [nextPowerLoop, hlt, if_true]
    rcases Nat.lt_or_ge j 62 with h | h
    · have hpow : (2 : Int) ^ j * 2 = 2 ^ (j + 1) := by ring
      have hle2 : (2 : Int) ^ (j + 1) ≤ 2 ^ 62 := pow_le_pow_right₀ (by norm_num) (by omega)
      have hpos : (0 : Int) < 2 ^ (j + 1) := by positivity
      rw [hpow, wrap64_id _ (by omega) (by rw [two_pow_62] at hle2; omega)]
      exact ih (j + 1) (by omega)
    · have : j = 62 := by omega
      subst this
      have h2 : wrap64 (2 ^ 62 * 2) = -9223372036854775808 := by norm_num [wrap64]
      rw [h2]
      exact nextPowerLoop_min x hx0 fuel

theorem parseLoop_length : ∀ (lines : List (Option String)) (ofs : Int),
    (parseLoop lines ofs).length = lines.reduceOption.length := by
  intro lines
  induction lines with
  | nil => intro ofs; rfl
  | cons l rest ih =>
    intro ofs
    cases l with
    | none => simpa [parseLoop, List.reduceOption_cons_of_none] using ih ofs
    | some name => simpa [parseLoop, List.reduceOption_cons_of_some] using ih _

theorem parseLoop_length_ofs (lines : List (Option String)) (a b : Int) :
    (parseLoop lines a).length = (parseLoop lines b).length := by
  rw [parseLoop_length, parseLoop_length]

theorem entryName_cons (o : opcode) (l : List opcode) (i : Nat) :
    entryName (o :: l) (i + 1) = entryName l i := by
  simp [entryName]

theorem parseLoop_lines : ∀ (lines : List (Option String)) (ofs : Int), 0 ≤ ofs →
    ofs + 8 * ((parseLoop lines ofs).length : Int) < 9223372036854775808 →
    (parseLoop lines ofs).map (fun o => dataLine o.offset o.name) =
      (List.range (parseLoop lines ofs).length).map
        (fun (i : Nat) => dataLine (ofs + 8 * (i : Int)) (entryName (parseLoop lines ofs) i)) := by
  intro lines
  induction lines with
  | nil => intro ofs _ _; rfl
  | cons l rest ih =>
    intro ofs h0 hb
    cases l with
    | none => simpa [parseLoop] using ih ofs h0 (by simpa [parseLoop] using hb)
    | some name =>
      simp only [parseLoop, List.length_cons] at hb ⊢
      rw [parseLoop_length_ofs rest _ (ofs + 8)] at hb
      have hw : wrap64 (ofs + 8) = ofs + 8 := wrap64_id _ (by omega) (by push_cast at hb; omega)
      rw [hw]
      rw [List.range_succ_eq_map, List.map_cons, List.map_cons, List.map_map,
        ih (ofs + 8) (by omega) (by push_cast at hb; omega)]
      congr 1
      · simp [entryName]
      · apply List.map_congr_left
        intro i _
        simp only [Function.comp, entryName_cons]
        congr 1
        push_cast
        ring

theorem parseLoop_last : ∀ (lines : List (Option String)) (ofs : Int) (last : opcode), 0 ≤ ofs →
    ofs + 8 * ((parseLoop lines ofs).length : Int) < 9223372036854775808 →
    (parseLoop lines ofs).getLast? = some last →
    last.offset = ofs + 8 * ((parseLoop lines ofs).length : Int) - 8 := by
  intro lines
  induction lines with
  | nil => intro ofs last _ _ h; simp [parseLoop] at h
  | cons l rest ih =>
    intro ofs last h0 hb h
    cases l with
    | none =>
      exact ih ofs last h0 (by simpa [parseLoop] using hb) (by simpa [parseLoop] using h)
    | some name =>
      simp only [parseLoop, List.length_cons] at hb h ⊢
      rw [parseLoop_length_ofs rest _ (ofs + 8)] at hb
      have hw : wrap64 (ofs + 8) = ofs + 8 := wrap64_id _ (by omega) (by push_cast at hb; omega)
      rw [hw] at h ⊢
      cases hr : parseLoop rest (ofs + 8) with
      | nil =>
        rw [hr] at h
        simp at h
        subst h
        simp
      | cons o tl =>
        rw [hr] at h
        rw [List.getLast?_cons_cons] at h
        have := ih (ofs + 8) last (by omega) (by push_cast at hb; omega) (by rw [hr]; exact h)
        rw [this, hr]
        push_cast
        ring

theorem trapLoop_spec : ∀ (count : Nat) (off : Int), 0 ≤ off →
    off + 8 * (count : Int) < 9223372036854775808 →
    trapLoop count off =
      ((List.range count).map (fun (t : Nat) => dataLine (off + 8 * ((t : Int) + 1)) "trap"),
        off + 8 * (count : Int)) := by
  intro count
  induction count with
  | zero => intro off _ _; simp [trapLoop]
  | succ c ih =>
    intro off h0 hb
    have hw : wrap64 (off + 8) = off + 8 := wrap64_id _ (by omega) (by push_cast at hb; omega)
    simp only [trapLoop, hw]
    rw [ih (off + 8) (by omega) (by push_cast at hb; omega)]
    rw [List.range_succ_eq_map, List.map_cons, List.map_map]
    refine Prod.ext ?_ ?_
    · simp only
      congr 1
      apply List.map_congr_left
      intro i _
      simp only [Function.comp]
      congr 1
      push_cast
      ring
    · simp only
      push_cast
      ring

theorem and_mask_lt (k i : Nat) : i &&& (2 ^ k - 1) < 2 ^ k := by
  rw [Nat.and_pow_two_sub_one_eq_mod]
  exact Nat.mod_lt _ (by positivity)

theorem and_mask_id (k i : Nat) (h : i < 2 ^ k) : i &&& (2 ^ k - 1) = i := by
  rw [Nat.and_pow_two_sub_one_eq_mod]
  exact Nat.mod_eq_of_lt h
theorem parseLoop_get : ∀ (lines : List (Option String)) (ofs : Int) (i : Nat), 0 ≤ ofs →
    ofs + 8 * ((parseLoop lines ofs).length : Int) < 9223372036854775808 →
    i < (parseLoop lines ofs).length →
    (parseLoop lines ofs).get? i =
      some ⟨entryName (parseLoop lines ofs) i, ofs + 8 * (i : Int)⟩ := by
  intro lines
  induction lines with
  | nil => intro ofs i _ _ h; simp [parseLoop] at h
  | cons l rest ih =>
    intro ofs i h0 hb hi
    cases l with
    | none =>
      exact ih ofs i h0 (by simpa [parseLoop] using hb) (by simpa [parseLoop] using hi)
    | some name =>
      simp only [parseLoop, List.length_cons] at hb hi ⊢
      rw [parseLoop_length_ofs rest _ (ofs + 8)] at hb hi
      have hw : wrap64 (ofs + 8) = ofs + 8 := wrap64_id _ (by omega) (by push_cast at hb; omega)
      rw [hw]
      cases i with
      | zero => simp [entryName]
      | succ i =>
        rw [List.get?_cons_succ, entryName_cons,
          ih (ofs + 8) i (by omega) (by push_cast at hb; omega) (by omega)]
        congr 2
        push_cast
        ring
theorem entryName_past (ops : List opcode) (i : Nat) (h : ops.length ≤ i) :
    entryName ops i = "trap" := by
  simp [entryName, List.getElem?_eq_none h]

/-- C39 (counterexample): for `x = 2^62 + 1` the loop of `nextPower` never
ends, however many times its condition is tested: `n` doubles up to `2^62`,
wraps to `-2^63`, then to 0, and stays 0, always below `x`; no power of two is
returned.  And `generateAsmFile` places the entries at the offsets stored in
the opcodes: for a list whose only opcode is stored at offset 16 the entry is
at 16 and the declared size is 24. -/
theorem nextPower_overflow :
    (∀ fuel : Nat, nextPowerLoop fuel 4611686018427387905 1 = none) ∧
    generateAsmFile [⟨"ret", 16⟩] =
      some (asmPrologue ++ [dataLine 16 "ret", globlLine 24]) := by
  refine ⟨fun fuel => ?_, by decide⟩
  have h := nextPowerLoop_diverges 4611686018427387905 (by norm_num) fuel 0 (by omega)
  simpa using h

/-- C39 (amended): for `x ≤ 2^62`, `nextPower x` returns the least power of two
that is at least `x`, which is 1 for `x ≤ 1`.  For the opcodes parsed from a
source that has at least one, and fewer than `2^59` (so that no 64-bit offset
wraps), with `2^k` the value of `nextPower(len(ops))`: `generateAsmFile` writes,
after its prologue, exactly `2^k` entries of 8 bytes, entry `i` at offset
`8*i` holding opcode `i` for `i < len(ops)` and the trap for the rest, then
the declared size `8 * 2^k`; `generateAsmHeader` defines `OPMASK` as
`2^k - 1`; so every masked index is inside the table and an index below
`len(ops)` is unchanged by the mask and selects its own opcode. -/
theorem opaddrs_table (x : Int) (lines : List (Option String)) (hx : x ≤ 2 ^ 62)
    (hne : parseAsmFile lines ≠ []) (hlen : (parseAsmFile lines).length < 2 ^ 59) :
    (∃ k : Nat, nextPower x = some (2 ^ k) ∧ x ≤ 2 ^ k ∧ ∀ j : Nat, x ≤ 2 ^ j → k ≤ j) ∧
    (x ≤ 1 → nextPower x = some 1) ∧
    ∃ k : Nat, nextPower ((parseAsmFile lines).length : Int) = some (2 ^ k) ∧
      (parseAsmFile lines).length ≤ 2 ^ k ∧
      (∀ j : Nat, (parseAsmFile lines).length ≤ 2 ^ j → k ≤ j) ∧
      generateAsmFile (parseAsmFile lines) =
        some (asmPrologue ++
          (List.range (2 ^ k)).map
            (fun (i : Nat) => dataLine (8 * (i : Int)) (entryName (parseAsmFile lines) i)) ++
          [globlLine (8 * 2 ^ k)]) ∧
      generateAsmHeader (parseAsmFile lines) =
        some [autogenerated, "#define OPMASK 0x" ++ fmtHex 3 (2 ^ k - 1)] ∧
      (∀ i : Nat, i &&& (2 ^ k - 1) < 2 ^ k) ∧
      (∀ i : Nat, i < (parseAsmFile lines).length → i &&& (2 ^ k - 1) = i ∧
        (parseAsmFile lines).get? i = some ⟨entryName (parseAsmFile lines) i, 8 * (i : Int)⟩) := by
  have least : ∀ (y : Int) (k : Nat), (k = 0 ∨ (2 : Int) ^ (k - 1) < y) →
      ∀ j : Nat, y ≤ 2 ^ j → k ≤ j := by
    intro y k h3 j hj
    rcases h3 with h3 | h3
    · omega
    · by_contra hc
      have h4 : (2 : Int) ^ j ≤ 2 ^ (k - 1) := pow_le_pow_right₀ (by norm_num) (by omega)
      exact absurd (lt_of_lt_of_le h3 (le_trans hj h4)) (lt_irrefl _)
  refine ⟨?_, ?_, ?_⟩
  · obtain ⟨k, h1, h2, h3, _⟩ := nextPower_spec x hx
    exact ⟨k, h1, h2, least x k h3⟩
  · intro hx1
    obtain ⟨k, h1, h2, h3, _⟩ := nextPower_spec x hx
    rcases h3 with h3 | h3
    · subst h3
      simpa using h1
    · have : (0 : Int) < 2 ^ (k - 1) := by positivity
      omega
  · obtain ⟨k, h1, h2, h3, _⟩ :=
      nextPower_spec ((parseAsmFile lines).length : Int) (by rw [two_pow_62]; omega)
    have hk := least _ k h3
    have hlen0 : 0 < (parseAsmFile lines).length := List.length_pos.mpr hne
    obtain ⟨N, hN⟩ : ∃ N : Nat, N = 2 ^ k := ⟨_, rfl⟩
    have hNi : (2 : Int) ^ k = (N : Int) := by rw [hN]; push_cast; rfl
    have hNlen : (parseAsmFile lines).length ≤ N := by rw [hNi] at h2; exact_mod_cast h2
    have hNlt : N < 2 ^ 60 := by
      rcases h3 with h3 | h3
      · subst h3; rw [hN]; norm_num
      · have hk1 : k = (k - 1) + 1 := by
          rcases Nat.eq_zero_or_pos k with h0 | h0
          · subst h0
            simp at h3
            omega
          · omega
        have h4 : ((2 ^ (k - 1) : Nat) : Int) < ((parseAsmFile lines).length : Int) := by
          push_cast; exact h3
        have h5 : 2 ^ (k - 1) < (parseAsmFile lines).length := by exact_mod_cast h4
        rw [hN, hk1, pow_succ]
        omega
    obtain ⟨last, hlast⟩ : ∃ last, (parseAsmFile lines).getLast? = some last := by
      cases hp : parseAsmFile lines with
      | nil => exact absurd hp hne
      | cons o tl => exact ⟨_, List.getLast?_eq_getLast _ (by simp)⟩
    have hb : (0 : Int) + 8 * ((parseLoop lines 0).length : Int) < 9223372036854775808 := by
      have : (parseLoop lines 0).length < 2 ^ 59 := hlen
      omega
    have hoff := parseLoop_last lines 0 last (le_refl _) hb hlast
    have hmap := parseLoop_lines lines 0 (le_refl _) hb
    have hcount : ((N : Int) - ((parseAsmFile lines).length : Int)).toNat =
        N - (parseAsmFile lines).length := by omega
    have hlen' : (parseLoop lines 0).length = (parseAsmFile lines).length := rfl
    have htrap := trapLoop_spec (N - (parseAsmFile lines).length) last.offset
      (by rw [hoff, hlen']; omega) (by rw [hoff, hlen']; omega)
    refine ⟨k, h1, by exact_mod_cast h2, ?_, ?_, ?_, ?_, ?_⟩
    · intro j hj
      exact hk j (by exact_mod_cast hj)
    · simp only [generateAsmFile, hlast, h1, Option.map_some', hNi, hcount, htrap]
      rw [← hN]
      have hsplit : N = (parseAsmFile lines).length + (N - (parseAsmFile lines).length) := by
        omega
      have hg : wrap64 (last.offset + 8 * ((N - (parseAsmFile lines).length : Nat) : Int) + 8) =
          8 * (N : Int) := by
        rw [wrap64_id _ (by rw [hoff, hlen']; omega) (by rw [hoff, hlen']; omega), hoff, hlen']
        omega
      rw [hg]
      congr 2
      · rw [List.append_assoc]
        congr 1
        conv_rhs => rw [hsplit, List.range_add, List.map_append, List.map_map]
        congr 1
        · rw [show parseAsmFile lines = parseLoop lines 0 from rfl, hmap]
          apply List.map_congr_left
          intro i _
          simp
        · apply List.map_congr_left
          intro i _
          simp only [Function.comp]
          rw [entryName_past _ _ (by omega), hoff, hlen']
          congr 1
          push_cast
          ring
    · simp only [generateAsmHeader, h1, Option.map_some', hNi]
      rw [wrap64_id _ (by omega) (by omega)]
    · intro i
      exact and_mask_lt k i
    · intro i hi
      refine ⟨and_mask_id k i (by rw [← hN]; omega), ?_⟩
      have := parseLoop_get lines 0 i (le_refl _) hb hi
      simpa [parseAsmFile] using this
theorem opaddrs_table_witness :
    (∃ k : Nat, nextPower 3 = some (2 ^ k) ∧ (3 : Int) ≤ 2 ^ k ∧
      ∀ j : Nat, (3 : Int) ≤ 2 ^ j → k ≤ j) ∧
    ((3 : Int) ≤ 1 → nextPower 3 = some 1) ∧
    ∃ k : Nat, nextPower ((parseAsmFile exAsmLines).length : Int) = some (2 ^ k) ∧
      (parseAsmFile exAsmLines).length ≤ 2 ^ k ∧
      (∀ j : Nat, (parseAsmFile exAsmLines).length ≤ 2 ^ j → k ≤ j) ∧
      generateAsmFile (parseAsmFile exAsmLines) =
        some (asmPrologue ++
          (List.range (2 ^ k)).map
            (fun (i : Nat) => dataLine (8 * (i : Int)) (entryName (parseAsmFile exAsmLines) i)) ++
          [globlLine (8 * 2 ^ k)]) ∧
      generateAsmHeader (parseAsmFile exAsmLines) =
        some [autogenerated, "#define OPMASK 0x" ++ fmtHex 3 (2 ^ k - 1)] ∧
      (∀ i : Nat, i &&& (2 ^ k - 1) < 2 ^ k) ∧
      (∀ i : Nat, i < (parseAsmFile exAsmLines).length → i &&& (2 ^ k - 1) = i ∧
        (parseAsmFile exAsmLines).get? i =
          some ⟨entryName (parseAsmFile exAsmLines) i, 8 * (i : Int)⟩) :=
  opaddrs_table 3 exAsmLines (by norm_num) (by decide) (by decide)

/-- The example of C39 evaluated: three opcodes give a table of four entries,
the last one the trap, of declared size `0x20`, and the mask 3. -/
theorem opaddrs_table_example :
    parseAsmFile exAsmLines = [⟨"ret", 0⟩, ⟨"jz", 8⟩, ⟨"loadk", 16⟩] ∧
    nextPower 3 = some 4 ∧
    generateAsmFile (parseAsmFile exAsmLines) =
      some ["#include \"textflag.h\"", "", "// Code generated automatically; DO NOT EDIT", "",
        "DATA opaddrs+0x000(SB)/8, $bcret(SB)", "DATA opaddrs+0x008(SB)/8, $bcjz(SB)",
        "DATA opaddrs+0x010(SB)/8, $bcloadk(SB)", "DATA opaddrs+0x018(SB)/8, $bctrap(SB)",
        "GLOBL opaddrs(SB), RODATA|NOPTR, $0x0020"] ∧
    generateAsmHeader (parseAsmFile exAsmLines) =
      some ["// Code generated automatically; DO NOT EDIT", "#define OPMASK 0x003"] ∧
    generateAsmFile [] = none := by
  refine ⟨?_, ?_, ?_, ?_, ?_⟩ <;> decide

/-! # Part XI: theorems on the bucket memory and the walk -/

/-! ## C34: the memory handed to `zipfast1` -/

/-- C34 (failing input): with the bucket of the symbol at 4 and the next bucket
present at 8, `zip` hands `Decompressed[:8]` to `zipfast1`, the memory from
index 0, and not the bytes `Decompressed[4:8]` of the bucket; for the last
present bucket it hands `Decompressed[8:]`, as specified. -/
theorem zipMem_from_start :
    zipMem 4 exBuckets 1 = some [10, 11, 12, 13, 20, 21, 22, 23] ∧
    bucketMem 4 exBuckets 1 = some [20, 21, 22, 23] ∧
    zipMem 4 exBuckets 2 = some [30, 31, 32, 33] ∧
    bucketMem 4 exBuckets 2 = some [30, 31, 32, 33] := by
  refine ⟨?_, ?_, ?_, ?_⟩ <;> decide

/-- Whenever the next bucket is present, the memory handed to `zipfast1` starts
at index 0 of the decompressed memory, whatever the position of the bucket. -/
theorem zipMem_next_present (NumBuckets : Nat) (b : Buckets) (bucket : Nat) (pos next : Int)
    (h1 : b.Pos[bucket]? = some pos) (h2 : b.Pos[bucket + 1]? = some next)
    (h3 : bucket < NumBuckets - 1) (h4 : 0 ≤ next) (h5 : 0 ≤ pos)
    (h6 : pos ≤ b.Decompressed.length) :
    zipMem NumBuckets b bucket = sliceBytes b.Decompressed 0 next := by
  have : sliceBytes b.Decompressed pos b.Decompressed.length =
      some ((b.Decompressed.take (b.Decompressed.length : Int).toNat).drop pos.toNat) := by
    simp [sliceBytes, h5, h6]
  simp [zipMem, h1, h2, h3, h4, this]

/-- When the next bucket is absent, or the bucket is the last one, the memory
handed to `zipfast1` is the one specified. -/
theorem zipMem_next_absent (NumBuckets : Nat) (b : Buckets) (bucket : Nat) (next : Int)
    (h2 : b.Pos[bucket + 1]? = some next) (h4 : next < 0 ∨ ¬ bucket < NumBuckets - 1) :
    zipMem NumBuckets b bucket = bucketMem NumBuckets b bucket := by
  unfold zipMem bucketMem
  cases h1 : b.Pos[bucket]? with
  | none => rfl
  | some pos =>
    simp only []
    have hg : b.Pos.getD (bucket + 1) (-1) = next := by
      simp [List.getD_eq_getElem?_getD, h2]
    rw [hg, h2]
    cases hs : sliceBytes b.Decompressed pos b.Decompressed.length with
    | none =>
      simp only []
      rcases h4 with h4 | h4
      · have : ¬ (0 ≤ next) := by omega
        simp [this, hs]
      · simp [h4, hs]
    | some mem =>
      simp only []
      rcases h4 with h4 | h4
      · have : ¬ (0 ≤ next) := by omega
        simp [this, hs]
      · simp [h4, hs]

/-! ## C38: the walk ends -/

/-- C38 (counterexample): a `zip` within the assumptions (`consumed = 0`, the
fault `noFault`) that reports one byte written makes the iteration panic: it
consumes nothing, returns no error and leaves the buffer as it is; and with a
writer set, an iteration can return the error of the writer, which is neither
`errCorrupt` nor `errNoProgress`. -/
theorem walkStep_panics :
    walkStep exBadZip exWalkState = .inr (.panic "consumed == 0 but wrote > 0") ∧
    walkLoop exBadZip (walkFuel exBadZip exWalkState) exWalkState =
      some (.panic "consumed == 0 but wrote > 0") ∧
    (∀ i shape len cap f, 0 ≤ (exBadZip.zip i shape len cap f).consumed ∧
      (exBadZip.zip i shape len cap f).consumed ≤ shape.length ∧
      (exBadZip.zip i shape len cap f).fault = noFault) ∧
    walkStep exFailWrite exWalkState = .inr (.err (.writeErr 5)) := by
  refine ⟨by decide, by decide, ?_, by decide⟩
  intro i shape len cap f
  simp [exBadZip]
theorem growCap_spec (slack len cap n : Nat) (h : len ≤ cap) :
    cap ≤ growCap slack len cap n ∧ n ≤ growCap slack len cap n - len := by
  unfold growCap
  split_ifs with hc
  · exact ⟨le_refl _, hc⟩
  · constructor <;> omega

theorem walkStep_inl (env : WalkEnv)
    (hzip : ∀ i shape len cap f, 0 ≤ (env.zip i shape len cap f).consumed ∧
      (env.zip i shape len cap f).consumed ≤ shape.length ∧
      ((env.zip i shape len cap f).fault = noFault ∨
        (env.zip i shape len cap f).fault = faultTooLarge ∨
        (env.zip i shape len cap f).fault = faultBadData))
    (s s' : WalkState) (hs : s.outLen ≤ s.outCap) (h : walkStep env s = .inl s') :
    s'.outLen ≤ s'.outCap ∧
    (s'.shape.length < s.shape.length ∨
      (s'.shape = s.shape ∧ s.outCap - s.outLen < s'.outCap - s'.outLen ∧
        ((s.outCap - s.outLen : Nat) : Int) < env.MaxBucketSize)) := by
  obtain ⟨hz1, hz2, hz3⟩ := hzip s.calls s.shape s.outLen s.outCap s.fault
  unfold walkStep at h
  simp only [] at h
  generalize env.zip s.calls s.shape s.outLen s.outCap s.fault = z at *
  split at h
  · simp at h
  · rename_i t ht
    split_ifs at ht h
    all_goals (try (split at ht))
    all_goals (try simp only [reduceCtorEq, Sum.inl.injEq, Sum.inr.injEq] at ht h)
    all_goals (try subst ht)
    all_goals (try subst h)
    all_goals dsimp only at *
    all_goals
      first
      | (refine ⟨by omega, Or.inl ?_⟩
         rw [List.length_drop]
         omega)
      | (unfold growCap
         split_ifs <;>
         (refine ⟨by omega, Or.inl ?_⟩
          rw [List.length_drop]
          omega))
      | (unfold growCap
         split_ifs <;> exact ⟨by omega, Or.inr ⟨rfl, by omega, by omega⟩⟩)
      | (exfalso
         simp only [noFault, faultTooLarge, faultBadData] at *
         omega)
theorem walkStep_inr (env : WalkEnv) (s : WalkState) (r : WalkResult)
    (h : walkStep env s = .inr r) :
    (∃ e, r = .err e) ∨
    (∃ msg, r = .panic msg ∧
      ((s.outCap : Int) - s.outLen < (env.zip s.calls s.shape s.outLen s.outCap s.fault).wrote ∨
        (s.shape.length : Int) < (env.zip s.calls s.shape s.outLen s.outCap s.fault).consumed ∨
        (s.outLen : Int) + (env.zip s.calls s.shape s.outLen s.outCap s.fault).wrote < 0 ∨
        ((env.zip s.calls s.shape s.outLen s.outCap s.fault).consumed ≤ 0 ∧
          0 < (env.zip s.calls s.shape s.outLen s.outCap s.fault).wrote))) := by
  unfold walkStep at h
  simp only [] at h
  generalize env.zip s.calls s.shape s.outLen s.outCap s.fault = z at *
  split at h
  · rename_i r' hr
    simp only [Sum.inr.injEq] at h
    subst h
    split_ifs at hr
    all_goals (try (split at hr))
    all_goals (try simp only [reduceCtorEq, Sum.inl.injEq, Sum.inr.injEq] at hr)
    all_goals (try subst hr)
    all_goals
      first
      | exact Or.inl ⟨_, rfl⟩
      | exact Or.inr ⟨_, rfl, Or.inl (by assumption)⟩
      | exact Or.inr ⟨_, rfl, Or.inr (Or.inl (by assumption))⟩
      | exact Or.inr ⟨_, rfl, Or.inr (Or.inr (Or.inl (by assumption)))⟩
      | exact Or.inr ⟨_, rfl, Or.inr (Or.inr (Or.inr ⟨by omega, by assumption⟩))⟩
  · split_ifs at h
    all_goals (try simp only [reduceCtorEq, Sum.inl.injEq, Sum.inr.injEq] at h)
    all_goals (try subst h)
    all_goals exact Or.inl ⟨_, rfl⟩

theorem walkStep_full (env : WalkEnv) (s : WalkState)
    (h1 : (env.zip s.calls s.shape s.outLen s.outCap s.fault).consumed = 0)
    (h2 : (env.zip s.calls s.shape s.outLen s.outCap s.fault).wrote ≤ 0)
    (h3 : (env.zip s.calls s.shape s.outLen s.outCap s.fault).fault = faultTooLarge)
    (h4 : env.MaxBucketSize ≤ (s.outCap : Int) - s.outLen) :
    walkStep env s = .inr (.err .errNoProgress) := by
  unfold walkStep
  simp only []
  generalize env.zip s.calls s.shape s.outLen s.outCap s.fault = z at *
  have e1 : ¬ (0 < z.consumed) := by omega
  have e2 : ¬ (0 < z.wrote) := by omega
  simp [e1, e2, h1, h3, h4, faultTooLarge, faultBadData, noFault]

theorem walkFuel_decreases (env : WalkEnv) (s s' : WalkState)
    (h : s'.shape.length < s.shape.length ∨
      (s'.shape = s.shape ∧ s.outCap - s.outLen < s'.outCap - s'.outLen ∧
        ((s.outCap - s.outLen : Nat) : Int) < env.MaxBucketSize)) :
    walkFuel env s' < walkFuel env s := by
  unfold walkFuel
  rcases h with h | ⟨h1, h2, h3⟩
  · have hm : (s'.shape.length + 1) * (env.MaxBucketSize.toNat + 1) ≤
        s.shape.length * (env.MaxBucketSize.toNat + 1) := Nat.mul_le_mul_right _ (by omega)
    rw [Nat.add_mul, Nat.one_mul] at hm
    omega
  · rw [h1]
    omega

theorem walkLoop_terminates (env : WalkEnv)
    (hzip : ∀ i shape len cap f, 0 ≤ (env.zip i shape len cap f).consumed ∧
      (env.zip i shape len cap f).consumed ≤ shape.length ∧
      ((env.zip i shape len cap f).fault = noFault ∨
        (env.zip i shape len cap f).fault = faultTooLarge ∨
        (env.zip i shape len cap f).fault = faultBadData)) :
    ∀ (fuel : Nat) (s : WalkState), s.outLen ≤ s.outCap → walkFuel env s ≤ fuel →
      ∃ r, walkLoop env fuel s = some r := by
  intro fuel
  induction fuel with
  | zero =>
    intro s _ h
    unfold walkFuel at h
    omega
  | succ fuel ih =>
    intro s hs hf
    simp only [walkLoop]
    split_ifs with he
    · exact ⟨_, rfl⟩
    · cases hw : walkStep env s with
      | inl s' =>
        obtain ⟨h1, h2⟩ := walkStep_inl env hzip s s' hs hw
        have := walkFuel_decreases env s s' h2
        exact ih s' h1 (by omega)
      | inr r => exact ⟨r, rfl⟩

/-- C38 (amended): assuming each call of `zip` returns
`0 <= consumed <= len(shape)` and leaves the fault field at `noFault`,
`faultTooLarge` or `faultBadData`, `walk` ends from every state (it returns
nil, returns an error, or panics) within `walkFuel` tests of its condition.
Every iteration that goes on either leaves fewer bytes of shape or keeps the
shape and strictly enlarges the free capacity of `d.out`, which was below
`MaxBucketSize`; every iteration that does not go on returns an error or
panics, and it panics only on a `zip` result that does not fit (more bytes
written than were free, a negative length, or bytes written with nothing
consumed); an iteration that consumes and writes nothing with
`faultTooLarge` while at least `MaxBucketSize` bytes are free returns
`errNoProgress`. -/
theorem walk_terminates (env : WalkEnv) (s : WalkState)
    (hzip : ∀ i shape len cap f, 0 ≤ (env.zip i shape len cap f).consumed ∧
      (env.zip i shape len cap f).consumed ≤ shape.length ∧
      ((env.zip i shape len cap f).fault = noFault ∨
        (env.zip i shape len cap f).fault = faultTooLarge ∨
        (env.zip i shape len cap f).fault = faultBadData))
    (hs : s.outLen ≤ s.outCap) :
    (∃ r, walkLoop env (walkFuel env s) s = some r) ∧
    (∀ s', walkStep env s = .inl s' →
      s'.outLen ≤ s'.outCap ∧
      (s'.shape.length < s.shape.length ∨
        (s'.shape = s.shape ∧ s.outCap - s.outLen < s'.outCap - s'.outLen ∧
          ((s.outCap - s.outLen : Nat) : Int) < env.MaxBucketSize))) ∧
    (∀ r, walkStep env s = .inr r →
      (∃ e, r = .err e) ∨
      (∃ msg, r = .panic msg ∧
        ((s.outCap : Int) - s.outLen < (env.zip s.calls s.shape s.outLen s.outCap s.fault).wrote ∨
          (s.outLen : Int) + (env.zip s.calls s.shape s.outLen s.outCap s.fault).wrote < 0 ∨
          ((env.zip s.calls s.shape s.outLen s.outCap s.fault).consumed = 0 ∧
            0 < (env.zip s.calls s.shape s.outLen s.outCap s.fault).wrote)))) ∧
    ((env.zip s.calls s.shape s.outLen s.outCap s.fault).consumed = 0 →
      (env.zip s.calls s.shape s.outLen s.outCap s.fault).wrote ≤ 0 →
      (env.zip s.calls s.shape s.outLen s.outCap s.fault).fault = faultTooLarge →
      env.MaxBucketSize ≤ (s.outCap : Int) - s.outLen →
      walkStep env s = .inr (.err .errNoProgress)) := by
  refine ⟨walkLoop_terminates env hzip _ s hs (le_refl _), ?_, ?_, walkStep_full env s⟩
  · intro s' h
    exact walkStep_inl env hzip s s' hs h
  · intro r h
    obtain ⟨hz1, hz2, _⟩ := hzip s.calls s.shape s.outLen s.outCap s.fault
    rcases walkStep_inr env s r h with h1 | ⟨msg, h1, h2 | h2 | h2 | h2⟩
    · exact Or.inl h1
    · exact Or.inr ⟨msg, h1, Or.inl h2⟩
    · omega
    · exact Or.inr ⟨msg, h1, Or.inr (Or.inl h2)⟩
    · exact Or.inr ⟨msg, h1, Or.inr (Or.inr ⟨by omega, h2.2⟩)⟩

theorem exWalkEnv_zip (i : Nat) (shape : List Nat) (len cap : Nat) (f : Int) :
    0 ≤ (exWalkEnv.zip i shape len cap f).consumed ∧
    (exWalkEnv.zip i shape len cap f).consumed ≤ shape.length ∧
    ((exWalkEnv.zip i shape len cap f).fault = noFault ∨
      (exWalkEnv.zip i shape len cap f).fault = faultTooLarge ∨
      (exWalkEnv.zip i shape len cap f).fault = faultBadData) := by
  simp only [exWalkEnv]
  split_ifs
  · simp [faultTooLarge]
  · simp [noFault]
theorem walk_terminates_witness :
    (∃ r, walkLoop exWalkEnv (walkFuel exWalkEnv exWalkState) exWalkState = some r) ∧
    (∀ s', walkStep exWalkEnv exWalkState = .inl s' →
      s'.outLen ≤ s'.outCap ∧
      (s'.shape.length < exWalkState.shape.length ∨
        (s'.shape = exWalkState.shape ∧
          exWalkState.outCap - exWalkState.outLen < s'.outCap - s'.outLen ∧
          ((exWalkState.outCap - exWalkState.outLen : Nat) : Int) < exWalkEnv.MaxBucketSize))) ∧
    (∀ r, walkStep exWalkEnv exWalkState = .inr r →
      (∃ e, r = .err e) ∨
      (∃ msg, r = .panic msg ∧
        ((exWalkState.outCap : Int) - exWalkState.outLen <
            (exWalkEnv.zip exWalkState.calls exWalkState.shape exWalkState.outLen
              exWalkState.outCap exWalkState.fault).wrote ∨
          (exWalkState.outLen : Int) +
            (exWalkEnv.zip exWalkState.calls exWalkState.shape exWalkState.outLen
              exWalkState.outCap exWalkState.fault).wrote < 0 ∨
          ((exWalkEnv.zip exWalkState.calls exWalkState.shape exWalkState.outLen
              exWalkState.outCap exWalkState.fault).consumed = 0 ∧
            0 < (exWalkEnv.zip exWalkState.calls exWalkState.shape exWalkState.outLen
              exWalkState.outCap exWalkState.fault).wrote)))) ∧
    ((exWalkEnv.zip exWalkState.calls exWalkState.shape exWalkState.outLen exWalkState.outCap
        exWalkState.fault).consumed = 0 →
      (exWalkEnv.zip exWalkState.calls exWalkState.shape exWalkState.outLen exWalkState.outCap
        exWalkState.fault).wrote ≤ 0 →
      (exWalkEnv.zip exWalkState.calls exWalkState.shape exWalkState.outLen exWalkState.outCap
        exWalkState.fault).fault = faultTooLarge →
      exWalkEnv.MaxBucketSize ≤ (exWalkState.outCap : Int) - exWalkState.outLen →
      walkStep exWalkEnv exWalkState = .inr (.err .errNoProgress)) :=
  walk_terminates exWalkEnv exWalkState exWalkEnv_zip (by decide)

/-- The example of C38 evaluated: the first iteration finds no room and grows
the empty buffer to 2048 bytes, the next two consume the three bytes of shape,
and the walk returns nil. -/
theorem walk_example :
    walkStep exWalkEnv exWalkState = .inl ⟨[1, 2, 3], 0, 2048, 0, faultTooLarge, 1, 0⟩ ∧
    walkLoop exWalkEnv (walkFuel exWalkEnv exWalkState) exWalkState = some .nil := by
  constructor <;> decide

/-! # Part XII: theorems on the incremental scan -/

/-- The example scans evaluated: the first call on a fresh index adds one file
and leaves the scan complete; the next call finds nothing new and flushes; a
call on an index whose scan has completed does nothing. -/
theorem scan_example :
    scan exTable exWorld exNewIndex true =
      (.returned 1 none, ⟨none, ["a/x", ""], false, 9, some 7⟩,
        [.list 0 "", .append "a/x", .list 1 "", .force]) ∧
    scan exTable exWorld ⟨some [1, 2, 3], ["a/x", ""], true, 9, some 7⟩ false =
      (.returned 0 none, ⟨some [1, 2, 3], ["a/x", ""], false, 9, some 7⟩,
        [.list 0 "a/x", .list 1 ""]) ∧
    scan exTable exWorld exDoneIndex true = (.returned 0 none, exDoneIndex, []) := by
  refine ⟨?_, ?_, ?_⟩ <;> decide
/-! ## C32: a completed scan is a no-op -/

/-- C32: when `idx.Scanning` is false, the hash stored in the index is the hash
of the table definition and the index has one cursor per input, `scan` returns
`(0, nil)` at once: the index is as it was and the trace is empty (nothing is
listed, appended or written). -/
theorem scan_completed_noop (st : tableState) (w : World) (idx : Index) (flushOnComplete : Bool)
    (hs : idx.Scanning = false) (hh : idx.definitionHash = some st.defHash)
    (hc : idx.Cursors.length = st.inputs) :
    scan st w idx flushOnComplete = (.returned 0 none, idx, []) := by
  simp [scan, scanReset, defChanged, hh, hc, hs]

theorem scan_completed_noop_witness :
    scan exTable exWorld exDoneIndex true = (.returned 0 none, exDoneIndex, []) :=
  scan_completed_noop exTable exWorld exDoneIndex true rfl rfl rfl

/-! ## C31: `(0, nil)` means that the scan has completed -/

theorem scanFinish_zero_nil (w : World) (f : Bool) (idx : Index) (r : LoopState × Option ScanErr)
    (h : (scanFinish w f idx r).1 = .returned 0 none) :
    (scanFinish w f idx r).2.1.Scanning = false := by
  unfold scanFinish at h ⊢
  simp only [] at h ⊢
  cases hr : r.2 with
  | some e => simp [hr] at h
  | none =>
    simp only [hr] at h ⊢
    by_cases h1 : r.1.total = 0
    · by_cases h2 : r.1.complete = true
      · simp only [h1, h2, if_true]
        split_ifs <;> rfl
      · simp [h1, h2] at h
    · cases hf : w.forceErr with
      | some e => simp [h1, hf] at h
      | none => simp [h1, hf] at h

/-- C31: whenever `scan` returns `(0, nil)`, the flag `Scanning` of the index
is false on return. -/
theorem scan_zero_nil_done (st : tableState) (w : World) (idx : Index) (flushOnComplete : Bool)
    (h : (scan st w idx flushOnComplete).1 = .returned 0 none) :
    (scan st w idx flushOnComplete).2.1.Scanning = false := by
  unfold scan at h ⊢
  simp only [] at h ⊢
  generalize (if defChanged st idx = true then true else flushOnComplete) = f at h ⊢
  split_ifs at h ⊢ with h1
  · exact h1
  · cases hi : w.initErr with
    | some e => simp [hi] at h
    | none =>
      simp only [hi] at h ⊢
      exact scanFinish_zero_nil _ _ _ _ h

theorem scan_zero_nil_done_witness :
    (scan exTable exWorld ⟨some [1, 2, 3], ["a/x", ""], true, 9, some 7⟩ false).2.1.Scanning =
      false :=
  scan_zero_nil_done exTable exWorld ⟨some [1, 2, 3], ["a/x", ""], true, 9, some 7⟩ false
    (by decide)
/-! ## C35: the panic of `scan` cannot fire -/

theorem scanLimit_pos (x : Int) : 1 ≤ scanLimit x := by
  unfold scanLimit MaxInt64
  split_ifs <;> omega

theorem scanLimit_le (x : Int) (h : x ≤ MaxInt64) : scanLimit x ≤ MaxInt64 := by
  unfold scanLimit
  split_ifs
  · exact le_refl _
  · exact h

theorem visitEntry_inv (maxInputs maxSize : Int) (hm : maxInputs ≤ MaxInt64) (a : WalkAcc)
    (e : Entry) (h0 : 0 ≤ a.total) (h1 : a.total < maxInputs) (h2 : a.total = 0 → a.size = 0) :
    0 ≤ (visitEntry maxInputs maxSize a e).1.total ∧
    ((visitEntry maxInputs maxSize a e).1.total = 0 →
      (visitEntry maxInputs maxSize a e).1.size = 0) ∧
    ((visitEntry maxInputs maxSize a e).2 = some .errStop →
      (visitEntry maxInputs maxSize a e).1.total ≠ 0) ∧
    ((visitEntry maxInputs maxSize a e).2 = none →
      (visitEntry maxInputs maxSize a e).1.total < maxInputs) := by
  have hw : wrap64 (a.total + 1) = a.total + 1 :=
    wrap64_id _ (by omega) (by unfold MaxInt64 at hm; omega)
  unfold visitEntry
  cases e.visit with
  | added size addErr =>
    cases addErr with
    | some c =>
      refine ⟨?_, ?_, ?_, ?_⟩ <;> dsimp only <;> (try intro h) <;> (try simp at h) <;> omega
    | none =>
      dsimp only
      split_ifs with hc
      · refine ⟨?_, ?_, ?_, ?_⟩ <;> dsimp only <;> (try intro h) <;> (try simp at h) <;> omega
      · refine ⟨?_, ?_, ?_, ?_⟩ <;> dsimp only <;> (try intro h) <;> (try simp at h) <;> omega
  | _ => simp_all

theorem walkGlob_inv (maxInputs maxSize : Int) (hm : maxInputs ≤ MaxInt64) :
    ∀ (l : List Entry) (a : WalkAcc), 0 ≤ a.total → a.total < maxInputs →
      (a.total = 0 → a.size = 0) →
      0 ≤ (walkGlob maxInputs maxSize l a).1.total ∧
      ((walkGlob maxInputs maxSize l a).1.total = 0 →
        (walkGlob maxInputs maxSize l a).1.size = 0) ∧
      ((walkGlob maxInputs maxSize l a).2 = some .errStop →
        (walkGlob maxInputs maxSize l a).1.total ≠ 0) := by
  intro l
  induction l with
  | nil =>
    intro a h0 _ h2
    simp only [walkGlob]
    exact ⟨h0, h2, by simp⟩
  | cons e rest ih =>
    intro a h0 h1 h2
    obtain ⟨g0, g1, g2, g3⟩ := visitEntry_inv maxInputs maxSize hm a e h0 h1 h2
    simp only [walkGlob]
    cases hv : visitEntry maxInputs maxSize a e with
    | mk a1 err =>
      rw [hv] at g0 g1 g2 g3
      cases err with
      | some err => exact ⟨g0, g1, g2⟩
      | none => exact ih a1 g0 (g3 rfl) g1

theorem scanInputs_inv (w : World) (maxInputs maxSize : Int) (hm : maxInputs ≤ MaxInt64)
    (hi : 1 ≤ maxInputs) (hsz : 1 ≤ maxSize) :
    ∀ (n i : Nat) (s : LoopState), 0 ≤ s.total → (s.total = 0 → s.size = 0) →
      s.complete = true →
      (scanInputs w maxInputs maxSize n i s).2 = none →
      (scanInputs w maxInputs maxSize n i s).1.complete = false →
      (scanInputs w maxInputs maxSize n i s).1.total ≠ 0 := by
  intro n
  induction n with
  | zero =>
    intro i s _ _ h3 _ hc
    simp only [scanInputs] at hc
    rw [h3] at hc
    exact absurd hc (by simp)
  | succ n ih =>
    intro i s h0 h2 h3
    simp only [scanInputs]
    split_ifs with hc
    · intro _ _ ht
      have := h2 ht
      simp only [] at ht
      omega
    · cases hs : w.splitErr i with
      | some e => simp
      | none =>
        cases hg : w.globErr i with
        | some e => simp
        | none =>
          simp only []
          obtain ⟨g0, g1, g2⟩ := walkGlob_inv maxInputs maxSize hm
            (w.entries i (s.cursors.getD i ""))
            ⟨s.total, s.size, s.cursors.getD i "", s.events ++ [.list i (s.cursors.getD i "")]⟩
            h0 (by simp only []; omega) h2
          generalize walkGlob maxInputs maxSize (w.entries i (s.cursors.getD i ""))
            ⟨s.total, s.size, s.cursors.getD i "", s.events ++ [.list i (s.cursors.getD i "")]⟩ = r
            at g0 g1 g2 ⊢
          cases hr : r.2 with
          | some e =>
            cases e with
            | errStop =>
              simp only []
              intro _ _
              exact g2 hr
            | noFormat p => simp
            | other c => simp
          | none =>
            cases hw : w.walkErr i (s.cursors.getD i "") with
            | some c => simp
            | none =>
              simp only [Option.map_none']
              exact ih (i + 1) _ g0 g1 h3

theorem scanFinish_no_panic (w : World) (f : Bool) (idx : Index) (r : LoopState × Option ScanErr)
    (msg : String) (h : r.2 = none → r.1.complete = false → r.1.total ≠ 0) :
    (scanFinish w f idx r).1 ≠ .panicked msg := by
  unfold scanFinish
  simp only []
  cases hr : r.2 with
  | some e => simp
  | none =>
    simp only []
    by_cases h1 : r.1.total = 0
    · by_cases h2 : r.1.complete = true
      · simp only [h1, h2, if_true, Bool.not_true, Bool.false_eq_true, if_false]
        split_ifs <;> simp
      · exact absurd h1 (h hr (by simpa using h2))
    · cases hf : w.forceErr <;> simp [h1]

/-- C35: the panic `should not be possible: idx.Scanning && total == 0` never
fires: whatever the index, the flag, the limits of the configuration (positive,
zero or negative, as long as `MaxScanObjects` is an `int`) and whatever the
packages called answer, `scan` returns. -/
theorem scan_never_panics (st : tableState) (w : World) (idx : Index) (flushOnComplete : Bool)
    (msg : String) (hint : st.MaxScanObjects ≤ MaxInt64) :
    (scan st w idx flushOnComplete).1 ≠ .panicked msg := by
  unfold scan
  simp only []
  generalize (if defChanged st idx = true then true else flushOnComplete) = f
  split_ifs with h1
  · simp
  · cases hi : w.initErr with
    | some e => simp
    | none =>
      simp only []
      apply scanFinish_no_panic
      exact scanInputs_inv w _ _ (scanLimit_le _ hint) (scanLimit_pos _) (scanLimit_pos _) _ _ _
        (le_refl _) (fun _ => rfl) rfl

theorem scan_never_panics_witness :
    (scan exTable exWorld exNewIndex true).1 ≠
      .panicked "should not be possible: idx.Scanning && total == 0" :=
  scan_never_panics exTable exWorld exNewIndex true _ (by decide)

end Sneller
